import Mathlib

/-!
# hode (3DS backend): a shallow embedding of `system_ctr.cpp`

The platform layer `System_CTR` is embedded as pure functions over an explicit
state record.  C `int` values are `Int`, bytes and pixel values are `Nat`,
memory blocks are maps from an offset (relative to the base pointer of the block)
to the stored value.  A call that would trip an `assert`, pass a negative
count to `memcpy`/`memset`, write outside the allocated block or shift by an
invalid amount returns a `Fault` instead of a state.

The header files `system.h` and `scaler.h` are not available: the `SYS_INP_*`
bit constants are taken as a parameter (`InpBits`), and the layout of
`PlayerInput` and `Scaler` is limited to the fields `system_ctr.cpp` uses.
The SDL 1.2 entry points are parameters (`SDL`), its enumerators are given
their SDL 1.2 values.
-/

namespace Hode

/-! ## Faults and memory -/

/-- Abnormal outcomes of a modelled call. -/
inductive Fault where
  /-- The condition of an `assert` is false. -/
  | assertFailed
  /-- A negative `int` reaches the `size_t` count of `memcpy` or `memset`. -/
  | negativeCount
  /-- An access outside the addressed block. -/
  | outOfBounds
  /-- A shift whose amount is negative or not below the width of `int`. -/
  | badShift
  deriving DecidableEq, Repr

deriving instance DecidableEq for Except

/-- A block of bytes (or of 32-bit pixels), addressed by the offset from its base. -/
abbrev Block := Int → Nat

/-- The call `memcpy(dst + off, src, n)` where `dst` is the base of a block of `size`
bytes and `n` is an `int` expression converted to `size_t`.  The source is
assumed not to overlap the destination. -/
def memcpy (size : Int) (dst : Block) (off : Int) (src : Block) (n : Int) : Except Fault Block :=
  if n < 0 then Except.error Fault.negativeCount
  else if off < 0 ∨ size < off + n then Except.error Fault.outOfBounds
  else Except.ok (fun a => if off ≤ a ∧ a < off + n then src (a - off) else dst a)

/-- The call `memset(dst + off, c, n)` where `dst` is the base of a block of `size`
bytes; `c` is stored as an `unsigned char`. -/
def memset (size : Int) (dst : Block) (off : Int) (c : Nat) (n : Int) : Except Fault Block :=
  if n < 0 then Except.error Fault.negativeCount
  else if off < 0 ∨ size < off + n then Except.error Fault.outOfBounds
  else Except.ok (fun a => if off ≤ a ∧ a < off + n then c % 256 else dst a)

/-- The pointer `buf + k` seen as a block of its own. -/
def advance (buf : Block) (k : Int) : Block := fun a => buf (k + a)

/-! ## Data model -/

/-- The `SYS_INP_*` masks of `system.h`, a parameter of the input code. -/
structure InpBits where
  up : Nat
  right : Nat
  down : Nat
  left : Nat
  run : Nat
  jump : Nat
  shoot : Nat
  esc : Nat
  deriving DecidableEq, Repr

/-- The fields of `PlayerInput` used by the backend (`inp` and `pad`). -/
structure PlayerInput where
  prevMask : Nat
  mask : Nat
  screenshot : Bool
  quit : Bool
  deriving DecidableEq, Repr

/-- The `memset(&inp, 0, sizeof(inp))` value. -/
def PlayerInput.zero : PlayerInput := ⟨0, 0, false, false⟩

/-- An entry of the key-mapping table (`struct KeyMapping`). -/
structure KeyMapping where
  keyCode : Int
  mask : Int
  deriving DecidableEq, Repr

/-- The fields of `SDL_PixelFormat` read by the backend. -/
structure PixelFormat where
  Rmask : Nat
  Rshift : Nat
  Gmask : Nat
  Gshift : Nat
  Bmask : Nat
  Bshift : Nat
  deriving DecidableEq, Repr

/-- An `SDL_Surface`: its pixel format, its pitch in bytes and its pixels viewed
as an array of `uint32_t`. -/
structure Surface where
  format : PixelFormat
  pitch : Int
  pixels : Block

/-- The 256-entry tables `_pal` and `_gammaLut`, addressed by index. -/
abbrev Table := Nat → Nat

/-- A `ScaleProc`: `(dst, dstPitch, src, srcPitch, w, h, pal)`, returning the
destination pixels. -/
abbrev ScaleProc := Block → Int → Block → Int → Int → Int → Table → Block

/-- The fields of `struct Scaler` given by the initialiser of `scaler_nearest`
and read by `setScaler` and `setPalette`. -/
structure Scaler where
  name : String
  factorMin : Int
  factorMax : Int
  palette : Option (Table → Table)

/-- The initialiser of `scaler_nearest`: the members after the two factors are zero. -/
def scaler_nearest : Scaler := ⟨"nearest", 1, 1, none⟩

/-- The null-terminated table `_scalers`. -/
def _scalers : List Scaler := [scaler_nearest]

/-- An `AudioCallback`: the mixing procedure and its user pointer, by identity. -/
structure AudioCallback where
  proc : Nat
  userdata : Nat
  deriving DecidableEq, Repr

/-- A line written by `warning(...)`. -/
inductive Warning where
  /-- The scaler warning with its two string arguments. -/
  | unknownScaler (name : String) (active : String)
  deriving DecidableEq, Repr

/-- The state of the backend: the members of `System_CTR`, the members `inp` and
`pad` of its base, the file-level statics `_scalerMultiplier`, `_scaler` and
`_scalerProc`, and the warnings written so far. -/
structure System_CTR where
  _scalerMultiplier : Int
  _scaler : Scaler
  _scalerProc : Option ScaleProc
  _offscreenLut : Block
  screen : Surface
  _texture : Surface
  _backgroundTexture : Option Surface
  _widescreenTexture : Option Surface
  _texW : Int
  _texH : Int
  _texScale : Int
  _pal : Table
  _screenW : Int
  _screenH : Int
  _shakeDx : Int
  _shakeDy : Int
  _keyMappings : Nat → KeyMapping
  _keyMappingsCount : Int
  _audioCb : AudioCallback
  _gammaLut : Table
  _joystick : Bool
  inp : PlayerInput
  pad : PlayerInput
  warnings : List Warning

/-- The size in bytes of the block `init` allocates for `_offscreenLut`. -/
def System_CTR.offscreenSize (s : System_CTR) : Int := s._screenW * s._screenH

/-- The SDL 1.2 entry points whose results the backend stores. -/
structure SDL where
  /-- The call `SDL_MapRGB(format, r, g, b)`. -/
  mapRGB : PixelFormat → Nat → Nat → Nat → Nat
  /-- The call `SDL_BlitSurface(src, NULL, dst, NULL)`, returning the new `dst`. -/
  blitSurface : Surface → Surface → Surface
  /-- The call `SDL_SetVideoMode(w, h, 24, flags)`. -/
  setVideoMode : Int → Int → Surface
  /-- The call `SDL_CreateRGBSurface(0, w, h, 32, 0, 0, 0, 0)`. -/
  createRGBSurface : Int → Int → Surface
  /-- The result of `SDL_NumJoysticks()`. -/
  numJoysticks : Int
  /-- Whether `SDL_JoystickOpen(i)` returns a non-null handle. -/
  joystickOpen : Int → Bool

/-! ## Offscreen buffer -/

/-- The row loop of `copyRect`: `n` iterations remain, each copies `w` bytes to
row `y` and then advances `buf` by `pitch` and `y` by one. -/
def copyRectLoop (size W : Int) (x w pitch : Int) :
    Nat → Block → Int → Block → Except Fault Block
  | 0, mem, _, _ => Except.ok mem
  | n + 1, mem, y, buf =>
    match memcpy size mem (y * W + x) buf w with
    | Except.error e => Except.error e
    | Except.ok mem1 => copyRectLoop size W x w pitch n mem1 (y + 1) (advance buf pitch)

/-- The branch of `copyRect` taken when `w == pitch && w == _screenW`: one copy
of `w * h` bytes. -/
def copyRectFast (s : System_CTR) (x y w h : Int) (buf : Block) : Except Fault System_CTR :=
  match memcpy s.offscreenSize s._offscreenLut (y * s._screenW + x) buf (w * h) with
  | Except.error e => Except.error e
  | Except.ok mem => Except.ok { s with _offscreenLut := mem }

/-- The other branch of `copyRect`: `h` copies of `w` bytes. -/
def copyRectRows (s : System_CTR) (x y w h : Int) (buf : Block) (pitch : Int) :
    Except Fault System_CTR :=
  match copyRectLoop s.offscreenSize s._screenW x w pitch h.toNat s._offscreenLut y buf with
  | Except.error e => Except.error e
  | Except.ok mem => Except.ok { s with _offscreenLut := mem }

/-- The method `System_CTR::copyRect`. -/
def copyRect (s : System_CTR) (x y w h : Int) (buf : Block) (pitch : Int) :
    Except Fault System_CTR :=
  if ¬ (x ≥ 0 ∧ x + w ≤ s._screenW ∧ y ≥ 0 ∧ y + h ≤ s._screenH) then
    Except.error Fault.assertFailed
  else if w = pitch ∧ w = s._screenW then copyRectFast s x y w h buf
  else copyRectRows s x y w h buf pitch

/-- The row loop of `fillRect`: `n` iterations remain, each fills `w` bytes of row `y`. -/
def fillRectLoop (size W : Int) (x w : Int) (color : Nat) :
    Nat → Block → Int → Except Fault Block
  | 0, mem, _ => Except.ok mem
  | n + 1, mem, y =>
    match memset size mem (y * W + x) color w with
    | Except.error e => Except.error e
    | Except.ok mem1 => fillRectLoop size W x w color n mem1 (y + 1)

/-- The method `System_CTR::fillRect`. -/
def fillRect (s : System_CTR) (x y w h : Int) (color : Nat) : Except Fault System_CTR :=
  if ¬ (x ≥ 0 ∧ x + w ≤ s._screenW ∧ y ≥ 0 ∧ y + h ≤ s._screenH) then
    Except.error Fault.assertFailed
  else if w = s._screenW then
    match memset s.offscreenSize s._offscreenLut (y * s._screenW + x) color (w * h) with
    | Except.error e => Except.error e
    | Except.ok mem => Except.ok { s with _offscreenLut := mem }
  else
    match fillRectLoop s.offscreenSize s._screenW x w color h.toNat s._offscreenLut y with
    | Except.error e => Except.error e
    | Except.ok mem => Except.ok { s with _offscreenLut := mem }

/-- The method `System_CTR::shakeScreen`. -/
def shakeScreen (s : System_CTR) (dx dy : Int) : System_CTR :=
  { s with _shakeDx := dx, _shakeDy := dy }

/-! ## Display compositor -/

/-- The loop `for (i = 0; i < w * h; ++i) dst[i] = _pal[src[i]]` of
`updateScreen`, `n` iterations remaining from index `i`. -/
def resolveLoop (pal : Table) (src : Block) : Nat → Int → Block → Block
  | 0, _, dst => dst
  | n + 1, i, dst =>
    resolveLoop pal src n (i + 1) (fun a => if a = i then pal (src i) else dst a)

/-- The pixels of `_texture` after the resolve step of `updateScreen`: the
palette loop when `_scalerProc` is null, the scaler procedure otherwise. -/
def resolveFrame (s : System_CTR) : Block :=
  match s._scalerProc with
  | none => resolveLoop s._pal s._offscreenLut (s._screenW * s._screenH).toNat 0 s._texture.pixels
  | some proc =>
    proc s._texture.pixels (s._texture.pitch / 4) s._offscreenLut s._screenW
      s._screenW s._screenH s._pal

/-- The method `System_CTR::updateScreen`; `SDL_Flip` has no effect on the state. -/
def updateScreen (sdl : SDL) (s : System_CTR) (drawWidescreen : Bool) :
    Except Fault System_CTR :=
  if s._texture.pitch % 4 ≠ 0 then Except.error Fault.assertFailed
  else
    let tex : Surface := { s._texture with pixels := resolveFrame s }
    match s._widescreenTexture with
    | some ws =>
      let tex1 := if drawWidescreen then sdl.blitSurface ws tex else tex
      Except.ok { s with _texture := tex1, screen := sdl.blitSurface tex1 s.screen }
    | none =>
      Except.ok { s with _texture := tex, screen := sdl.blitSurface tex s.screen }

/-! ## Construction and initialisation -/

/-- The loop `for (i = 0; i < 256; ++i) _gammaLut[i] = i` of the constructor,
`n` iterations remaining from index `i`; the value is stored as a `uint8_t`. -/
def gammaIdentityLoop : Nat → Nat → Table → Table
  | 0, _, lut => lut
  | n + 1, i, lut => gammaIdentityLoop n (i + 1) (fun a => if a = i then i % 256 else lut a)

/-- The object `system_ctr` after its constructor has run: a zero-initialised
static object whose pointers are null and whose gamma table is the identity;
the file-level statics hold their initialisers. -/
def System_CTR.ctor : System_CTR where
  _scalerMultiplier := 1
  _scaler := scaler_nearest
  _scalerProc := none
  _offscreenLut := fun _ => 0
  screen := ⟨⟨0, 0, 0, 0, 0, 0⟩, 0, fun _ => 0⟩
  _texture := ⟨⟨0, 0, 0, 0, 0, 0⟩, 0, fun _ => 0⟩
  _backgroundTexture := none
  _widescreenTexture := none
  _texW := 0
  _texH := 0
  _texScale := 0
  _pal := fun _ => 0
  _screenW := 0
  _screenH := 0
  _shakeDx := 0
  _shakeDy := 0
  _keyMappings := fun _ => ⟨0, 0⟩
  _keyMappingsCount := 0
  _audioCb := ⟨0, 0⟩
  _gammaLut := gammaIdentityLoop 256 0 (fun _ => 0)
  _joystick := false
  inp := PlayerInput.zero
  pad := PlayerInput.zero
  warnings := []

/-- The method `System_CTR::prepareScaledGfx`: the parameter `widescreen` is
overwritten with `false` before it is read. -/
def prepareScaledGfx (sdl : SDL) (s : System_CTR) (_fullscreen _widescreen _yuv : Bool) :
    System_CTR :=
  let widescreen := false
  let s1 := { s with _texW := s._screenW, _texH := s._screenH, _texScale := 1 }
  let s2 := { s1 with screen := sdl.setVideoMode s1._texW s1._texH,
                      _texture := sdl.createRGBSurface s1._texW s1._texH }
  if widescreen then
    { s2 with _widescreenTexture := some (sdl.createRGBSurface s2._screenW s2._screenH) }
  else
    { s2 with _widescreenTexture := none }

/-- The loop of `init` that opens every joystick in turn and keeps the last handle. -/
def openJoysticks (sdl : SDL) : Nat → Int → Bool → Bool
  | 0, _, j => j
  | n + 1, i, _ => openJoysticks sdl n (i + 1) (sdl.joystickOpen i)

/-- The method `System_CTR::init`, for a successful allocation of the offscreen
buffer (a failed one ends the process through `error`). -/
def init (sdl : SDL) (s : System_CTR) (w h : Int) (fullscreen widescreen yuv : Bool) :
    System_CTR :=
  let s1 := { s with inp := PlayerInput.zero, pad := PlayerInput.zero,
                     _screenW := w, _screenH := h, _shakeDx := 0, _shakeDy := 0,
                     _pal := fun _ => 0, _offscreenLut := fun _ => 0 }
  let s2 := prepareScaledGfx sdl s1 fullscreen widescreen yuv
  let s3 := { s2 with _joystick := false }
  if sdl.numJoysticks > 0 then
    { s3 with _joystick := openJoysticks sdl sdl.numJoysticks.toNat 0 s3._joystick }
  else s3

/-! ## Scaler registry -/

/-- The lookup loop of `setScaler`: the first registered scaler whose name
compares equal under `strcmp`. -/
def findScaler (name : String) : List Scaler → Option Scaler
  | [] => none
  | sc :: rest => if name = sc.name then some sc else findScaler name rest

/-- The method `System_CTR::setScaler`; a null `name` is `none`. -/
def setScaler (s : System_CTR) (name : Option String) (multiplier : Int) : System_CTR :=
  let s1 := if multiplier > 0 then { s with _scalerMultiplier := multiplier } else s
  match name with
  | none => s1
  | some nm =>
    match findScaler nm _scalers with
    | none => { s1 with warnings := s1.warnings ++ [Warning.unknownScaler nm s1._scaler.name] }
    | some sc => { s1 with _scaler := sc }

/-! ## Palette -/

/-- The expression `v << k` on a non-negative `int` value. -/
def shl (v : Nat) (k : Int) : Except Fault Nat :=
  if k < 0 ∨ 32 ≤ k then Except.error Fault.badShift else Except.ok (v <<< k.toNat)

/-- The expression `v >> k` on a non-negative `int` value. -/
def shr (v : Nat) (k : Int) : Except Fault Nat :=
  if k < 0 ∨ 32 ≤ k then Except.error Fault.badShift else Except.ok (v >>> k.toNat)

/-- The expression `(v << shift) | (v >> (depth - shift))` of `setPalette`. -/
def replicateBits (depth shift : Int) (v : Nat) : Except Fault Nat :=
  match shl v shift with
  | Except.error e => Except.error e
  | Except.ok hi =>
    match shr v (depth - shift) with
    | Except.error e => Except.error e
    | Except.ok lo => Except.ok (hi ||| lo)

/-- The value of one channel before the gamma lookup: with `shift = 8 - depth`,
the raw value unchanged when `shift == 0` and its bit replication otherwise. -/
def expandChannel (depth : Int) (v : Nat) : Except Fault Nat :=
  let shift := 8 - depth
  if shift ≠ 0 then replicateBits depth shift v else Except.ok v

/-- The read `_gammaLut[r]` of a 256-entry table. -/
def gammaLookup (lut : Table) (r : Nat) : Except Fault Nat :=
  if r < 256 then Except.ok (lut r) else Except.error Fault.outOfBounds

/-- One channel of `setPalette`: expansion to eight bits, then the gamma lookup. -/
def paletteChannel (lut : Table) (depth : Int) (v : Nat) : Except Fault Nat :=
  match expandChannel depth v with
  | Except.error e => Except.error e
  | Except.ok r => gammaLookup lut r

/-- The entry loop of `setPalette`, `n` iterations remaining from entry `i`. -/
def setPaletteLoop (sdl : SDL) (fmt : PixelFormat) (lut : Table) (pal : Block) (depth : Int) :
    Nat → Nat → Table → Except Fault Table
  | 0, _, tbl => Except.ok tbl
  | n + 1, i, tbl =>
    match paletteChannel lut depth (pal (i * 3 + 0)) with
    | Except.error e => Except.error e
    | Except.ok r =>
      match paletteChannel lut depth (pal (i * 3 + 1)) with
      | Except.error e => Except.error e
      | Except.ok g =>
        match paletteChannel lut depth (pal (i * 3 + 2)) with
        | Except.error e => Except.error e
        | Except.ok b =>
          setPaletteLoop sdl fmt lut pal depth n (i + 1)
            (fun a => if a = i then sdl.mapRGB fmt r g b else tbl a)

/-- The method `System_CTR::setPalette`. -/
def setPalette (sdl : SDL) (s : System_CTR) (pal : Block) (n depth : Int) :
    Except Fault System_CTR :=
  if ¬ (n ≤ 256) then Except.error Fault.assertFailed
  else if ¬ (depth ≤ 8) then Except.error Fault.assertFailed
  else
    match setPaletteLoop sdl s.screen.format s._gammaLut pal depth n.toNat 0 s._pal with
    | Except.error e => Except.error e
    | Except.ok tbl =>
      let tbl1 : Table :=
        if s._backgroundTexture.isSome then (fun a => if a = 0 then 0 else tbl a) else tbl
      let tbl2 : Table :=
        match s._scaler.palette with
        | some hook => hook tbl1
        | none => tbl1
      Except.ok { s with _pal := tbl2 }

/-- The method `System_CTR::clearPalette`. -/
def clearPalette (s : System_CTR) : System_CTR :=
  { s with _pal := fun a => if a < 256 then 0 else s._pal a }

/-! ## Input -/

/-- The enumerator `kJoystickCommitValue`. -/
def kJoystickCommitValue : Int := 3200

/-- The enumerator `kKeyMappingsSize`. -/
def kKeyMappingsSize : Int := 20

/-- The enumerator `kAudioHz`. -/
def kAudioHz : Int := 22050

/-- SDL 1.2: `SDL_HAT_UP`. -/
def SDL_HAT_UP : Nat := 1

/-- SDL 1.2: `SDL_HAT_RIGHT`. -/
def SDL_HAT_RIGHT : Nat := 2

/-- SDL 1.2: `SDL_HAT_DOWN`. -/
def SDL_HAT_DOWN : Nat := 4

/-- SDL 1.2: `SDL_HAT_LEFT`. -/
def SDL_HAT_LEFT : Nat := 8

/-- SDL 1.2: `SDL_PRESSED`. -/
def SDL_PRESSED : Nat := 1

/-- SDL 1.2: `SDL_RELEASED`. -/
def SDL_RELEASED : Nat := 0

/-- SDL 1.2: `SDLK_s`. -/
def SDLK_s : Int := 115

/-- The host events told apart by the `switch` of `processEvents`, with the
members of `SDL_Event` each case reads. -/
inductive Event where
  /-- The type `SDL_KEYUP` with `key.keysym.sym`. -/
  | keyUp (sym : Int)
  /-- The type `SDL_JOYHATMOTION` with `jhat.value`. -/
  | joyHatMotion (value : Nat)
  /-- The type `SDL_JOYAXISMOTION` with `jaxis.axis` and `jaxis.value`. -/
  | joyAxisMotion (axis : Nat) (value : Int)
  /-- The type `SDL_JOYBUTTONDOWN` with `jbutton.button` and `jbutton.state`. -/
  | joyButtonDown (button : Nat) (state : Nat)
  /-- The type `SDL_JOYBUTTONUP` with `jbutton.button` and `jbutton.state`. -/
  | joyButtonUp (button : Nat) (state : Nat)
  /-- The type `SDL_QUIT`. -/
  | quit
  /-- Every other event type. -/
  | other
  deriving DecidableEq, Repr

/-- The expression `m & ~x` on masks: the bits of `m` that are not bits of `x`. -/
def andNot (m x : Nat) : Nat := m ^^^ (m &&& x)

/-- The statement `if (pressed) mask |= bits; else mask &= ~bits;`. -/
def setOrClear (pressed : Bool) (mask bits : Nat) : Nat :=
  if pressed then mask ||| bits else andNot mask bits

/-- The case `SDL_JOYHATMOTION` on `pad.mask`, inside `if (_joystick)`. -/
def hatMotion (K : InpBits) (mask value : Nat) : Nat :=
  let m0 := andNot mask (K.up ||| K.down ||| K.left ||| K.right)
  let m1 := if value &&& SDL_HAT_UP ≠ 0 then m0 ||| K.up else m0
  let m2 := if value &&& SDL_HAT_DOWN ≠ 0 then m1 ||| K.down else m1
  let m3 := if value &&& SDL_HAT_LEFT ≠ 0 then m2 ||| K.left else m2
  if value &&& SDL_HAT_RIGHT ≠ 0 then m3 ||| K.right else m3

/-- The case `SDL_JOYAXISMOTION` on `pad.mask`, inside `if (_joystick)`. -/
def axisMotion (K : InpBits) (mask : Nat) (axis : Nat) (value : Int) : Nat :=
  match axis with
  | 0 =>
    let m0 := andNot mask (K.right ||| K.left)
    if value > kJoystickCommitValue then m0 ||| K.right
    else if value < -kJoystickCommitValue then m0 ||| K.left
    else m0
  | 1 =>
    let m0 := andNot mask (K.up ||| K.down)
    if value > kJoystickCommitValue then m0 ||| K.down
    else if value < -kJoystickCommitValue then m0 ||| K.up
    else m0
  | _ => mask

/-- The cases `SDL_JOYBUTTONDOWN` and `SDL_JOYBUTTONUP` on `pad.mask`, inside
`if (_joystick)`. -/
def buttonEvent (K : InpBits) (mask : Nat) (button state : Nat) : Nat :=
  let pressed : Bool := decide (state = SDL_PRESSED)
  match button with
  | 4 => setOrClear pressed mask K.run
  | 2 => setOrClear pressed mask K.jump
  | 1 => setOrClear pressed mask K.shoot
  | 3 => setOrClear pressed mask (K.shoot ||| K.run)
  | 7 => setOrClear pressed mask K.esc
  | _ => mask

/-- The action bits of each button that has a case in the `switch` of
`processEvents`: Y (4) run, B (2) jump, A (1) shoot, X (3) shoot and run,
BACK (7) escape; no bit for any other button. -/
def buttonBits (K : InpBits) : Nat → Nat
  | 4 => K.run
  | 2 => K.jump
  | 1 => K.shoot
  | 3 => K.shoot ||| K.run
  | 7 => K.esc
  | _ => 0

/-- The eight `SYS_INP_*` masks share no bit. -/
def InpBits.Disjoint (K : InpBits) : Prop :=
  List.Pairwise (fun a b => a &&& b = 0)
    [K.up, K.right, K.down, K.left, K.run, K.jump, K.shoot, K.esc]

instance (K : InpBits) : Decidable K.Disjoint := by
  unfold InpBits.Disjoint
  infer_instance

/-- The body of the `while (SDL_PollEvent(&ev))` loop of `processEvents` for one event. -/
def handleEvent (K : InpBits) (s : System_CTR) : Event → System_CTR
  | Event.keyUp sym =>
    if sym = SDLK_s then { s with inp := { s.inp with screenshot := true } } else s
  | Event.joyHatMotion value =>
    if s._joystick then { s with pad := { s.pad with mask := hatMotion K s.pad.mask value } }
    else s
  | Event.joyAxisMotion axis value =>
    if s._joystick then
      { s with pad := { s.pad with mask := axisMotion K s.pad.mask axis value } }
    else s
  | Event.joyButtonDown button state =>
    if s._joystick then
      { s with pad := { s.pad with mask := buttonEvent K s.pad.mask button state } }
    else s
  | Event.joyButtonUp button state =>
    if s._joystick then
      { s with pad := { s.pad with mask := buttonEvent K s.pad.mask button state } }
    else s
  | Event.quit => { s with inp := { s.inp with quit := true } }
  | Event.other => s

/-- The method `System_CTR::updateKeys`, called on `&inp`. -/
def updateKeys (s : System_CTR) : System_CTR :=
  let inp1 := { s.inp with prevMask := s.inp.mask }
  let inp2 := { inp1 with mask := 0 }
  { s with inp := { inp2 with mask := inp2.mask ||| s.pad.mask } }

/-- The polling loop of `processEvents` over the pending events, oldest first. -/
def pollEvents (K : InpBits) : System_CTR → List Event → System_CTR
  | s, [] => s
  | s, ev :: rest => pollEvents K (handleEvent K s ev) rest

/-- The method `System_CTR::processEvents`; `events` is the queue `SDL_PollEvent` drains. -/
def processEvents (K : InpBits) (s : System_CTR) (events : List Event) : System_CTR :=
  let s1 := { s with pad := { s.pad with prevMask := s.pad.mask } }
  updateKeys (pollEvents K s1 events)

/-- The field `pad.mask` after a `processEvents` call that drains `events`. -/
def padAfter (K : InpBits) (s : System_CTR) (events : List Event) : Nat :=
  (processEvents K s events).pad.mask

/-! ## Key mappings -/

/-- The search loop of `addKeyMapping`, `n` iterations remaining from index `i`:
the table with the mask of the first entry for `key` replaced (the `return`
inside the loop), or `none` when the loop runs to its end. -/
def replaceKeyMapping (key : Int) (mask : Nat) :
    Nat → Nat → (Nat → KeyMapping) → Option (Nat → KeyMapping)
  | 0, _, _ => none
  | n + 1, i, tbl =>
    if (tbl i).keyCode = key then
      some (fun a => if a = i then { tbl i with mask := (mask : Int) } else tbl a)
    else replaceKeyMapping key mask n (i + 1) tbl

/-- The method `System_CTR::addKeyMapping`; `mask` is a `uint8_t`, and the count
is taken to be non-negative (it starts at zero and only grows). -/
def addKeyMapping (s : System_CTR) (key : Int) (mask : Nat) : System_CTR :=
  if s._keyMappingsCount < kKeyMappingsSize then
    match replaceKeyMapping key mask s._keyMappingsCount.toNat 0 s._keyMappings with
    | some tbl => { s with _keyMappings := tbl }
    | none =>
      if s._keyMappingsCount < kKeyMappingsSize then
        { s with
          _keyMappings := fun a =>
            if a = s._keyMappingsCount.toNat then ⟨key, (mask : Int)⟩ else s._keyMappings a,
          _keyMappingsCount := s._keyMappingsCount + 1 }
      else s
  else s

/-- The method `System_CTR::setupDefaultKeyMappings`. -/
def setupDefaultKeyMappings (s : System_CTR) : System_CTR :=
  { s with _keyMappingsCount := 0,
           _keyMappings := fun a => if a < 20 then ⟨0, 0⟩ else s._keyMappings a }

/-! ## Audio -/

/-- The method `System_CTR::setAudioCallback`: the new state and the returned callback. -/
def setAudioCallback (s : System_CTR) (callback : AudioCallback) : System_CTR × AudioCallback :=
  let cb := s._audioCb
  ({ s with _audioCb := callback }, cb)

/-! ## Concrete inputs for evaluation -/

/-- A concrete SDL: 8-8-8 colour packing, a blit that replaces the pixels,
32-bit surfaces of pitch `4 * w`, and one joystick that opens. -/
def sampleSDL : SDL where
  mapRGB := fun _ r g b => r * 65536 + g * 256 + b
  blitSurface := fun src dst => { dst with pixels := src.pixels }
  setVideoMode := fun w _ => ⟨⟨16711680, 16, 65280, 8, 255, 0⟩, 4 * w, fun _ => 0⟩
  createRGBSurface := fun w _ => ⟨⟨16711680, 16, 65280, 8, 255, 0⟩, 4 * w, fun _ => 0⟩
  numJoysticks := 1
  joystickOpen := fun _ => true

/-- The backend after `init("", 256, 192, false, true, false)` on `sampleSDL`. -/
def sampleSystem : System_CTR := init sampleSDL System_CTR.ctor 256 192 false true false

/-- An assignment of eight distinct bits to the `SYS_INP_*` masks. -/
def sampleInpBits : InpBits := ⟨1, 2, 4, 8, 16, 32, 64, 128⟩

/-- A source block whose byte at offset `a` is `a mod 256` (zero before the base). -/
def sampleBytes : Block := fun a => a.toNat % 256

/-- A full table: twenty entries with key codes 0 to 19, each with mask 0. -/
def fullKeyTable : System_CTR :=
  { System_CTR.ctor with
    _keyMappings := fun a => if a < 20 then ⟨(a : Int), 0⟩ else ⟨0, 0⟩,
    _keyMappingsCount := 20 }

/-- A table of two entries: key code 13 with mask 1 and key code 27 with mask 128. -/
def sampleKeyTable : System_CTR :=
  { System_CTR.ctor with
    _keyMappings := fun a => if a = 0 then ⟨13, 1⟩ else if a = 1 then ⟨27, 128⟩ else ⟨0, 0⟩,
    _keyMappingsCount := 2 }

/-! ## Sequences of polls -/

/-- One `processEvents` call per frame, `frames` holding the events each call drains. -/
def processEventsMany (K : InpBits) : System_CTR → List (List Event) → System_CTR
  | s, [] => s
  | s, events :: rest => processEventsMany K (processEvents K s events) rest

/-- The SDL of `sampleSDL` with no joystick attached. -/
def sampleSDLNoJoystick : SDL := { sampleSDL with numJoysticks := 0 }

/-- The backend after `init("", 256, 192, false, true, false)` with no joystick attached. -/
def sampleSystemNoJoystick : System_CTR :=
  init sampleSDLNoJoystick System_CTR.ctor 256 192 false true false

/-! ## Blur -/

/-- The read `src[k]` from a block of `size` pixels. -/
def readPixel (size : Int) (src : Block) (k : Int) : Except Fault Nat :=
  if 0 ≤ k ∧ k < size then Except.ok (src k) else Except.error Fault.outOfBounds

/-- The write `dst[k] = v` into a block of `size` pixels. -/
def writePixel (size : Int) (dst : Block) (k : Int) (v : Nat) : Except Fault Block :=
  if 0 ≤ k ∧ k < size then Except.ok (fun a => if a = k then v else dst a)
  else Except.error Fault.outOfBounds

/-- The three `uint32_t` accumulators `r`, `g` and `b` of `blur`. -/
structure Rgb where
  r : Nat
  g : Nat
  b : Nat
  deriving DecidableEq, Repr

/-- The expression `(color & mask) >> shift`. -/
def channel (mask shift color : Nat) : Nat := (color &&& mask) >>> shift

/-- The statements `r += (color & rmask) >> rshift;` and likewise for `g` and `b`,
in `uint32_t` arithmetic. -/
def accAdd (fmt : PixelFormat) (acc : Rgb) (color : Nat) : Rgb :=
  ⟨(acc.r + channel fmt.Rmask fmt.Rshift color) % 4294967296,
   (acc.g + channel fmt.Gmask fmt.Gshift color) % 4294967296,
   (acc.b + channel fmt.Bmask fmt.Bshift color) % 4294967296⟩

/-- The statements `r -= (color & rmask) >> rshift;` and likewise for `g` and `b`,
in `uint32_t` arithmetic. -/
def accSub (fmt : PixelFormat) (acc : Rgb) (color : Nat) : Rgb :=
  ⟨(acc.r + (4294967296 - channel fmt.Rmask fmt.Rshift color % 4294967296)) % 4294967296,
   (acc.g + (4294967296 - channel fmt.Gmask fmt.Gshift color % 4294967296)) % 4294967296,
   (acc.b + (4294967296 - channel fmt.Bmask fmt.Bshift color % 4294967296)) % 4294967296⟩

/-- The expression `((r / count) << rshift) | ((g / count) << gshift) |
((b / count) << bshift)`, each shift truncated to a `uint32_t`. -/
def packAverage (fmt : PixelFormat) (count : Nat) (acc : Rgb) : Nat :=
  ((acc.r / count) <<< fmt.Rshift) % 4294967296 |||
    ((acc.g / count) <<< fmt.Gshift) % 4294967296 |||
    ((acc.b / count) <<< fmt.Bshift) % 4294967296

/-- The index of the two branches `if (vertical) ... [k * srcPitch] else ... [k]`. -/
def lineIndex (vertical : Bool) (pitch k : Int) : Int :=
  if vertical then k * pitch else k

/-- The first inner loop of `blur`, `for (i = -radius; i <= radius; ++i)`, with `n`
iterations remaining from index `i`; `base` is the offset the pointer `src` has
reached. It reads `src[MAX(i, 0)]` (times `srcPitch` when vertical). -/
def blurInitLoop (vertical : Bool) (fmt : PixelFormat) (srcSize : Int) (src : Block)
    (base srcPitch : Int) : Nat → Int → Rgb → Except Fault Rgb
  | 0, _, acc => Except.ok acc
  | n + 1, i, acc =>
    match readPixel srcSize src (base + lineIndex vertical srcPitch (max i 0)) with
    | Except.error e => Except.error e
    | Except.ok color =>
      blurInitLoop vertical fmt srcSize src base srcPitch n (i + 1) (accAdd fmt acc color)

/-- The second inner loop of `blur`, `for (i = 1; i < (vertical ? h : w); ++i)`,
with `n` iterations remaining from index `i`; `sbase` and `dbase` are the offsets
the pointers `src` and `dst` have reached. The vertical branch indexes `dst` with
`srcPitch`, as the source does. -/
def blurSlideLoop (vertical : Bool) (radius : Int) (fmt : PixelFormat) (srcSize : Int)
    (src : Block) (sbase srcPitch w h : Int) (dstSize dbase : Int) :
    Nat → Int → Rgb → Block → Except Fault Block
  | 0, _, _, dst => Except.ok dst
  | n + 1, i, acc, dst =>
    match readPixel srcSize src
        (sbase + lineIndex vertical srcPitch
          (min (i + radius) ((if vertical then h else w) - 1))) with
    | Except.error e => Except.error e
    | Except.ok colorIn =>
      match readPixel srcSize src
          (sbase + lineIndex vertical srcPitch (max (i - radius - 1) 0)) with
      | Except.error e => Except.error e
      | Except.ok colorOut =>
        let acc2 := accSub fmt (accAdd fmt acc colorIn) colorOut
        match writePixel dstSize dst (dbase + lineIndex vertical srcPitch i)
            (packAverage fmt (2 * radius + 1).toNat acc2) with
        | Except.error e => Except.error e
        | Except.ok dst1 =>
          blurSlideLoop vertical radius fmt srcSize src sbase srcPitch w h dstSize dbase
            n (i + 1) acc2 dst1

/-- The body of the outer loop of `blur` for one line: the initial window, the
write of `dst[0]`, and the sliding loop. -/
def blurLine (vertical : Bool) (radius : Int) (fmt : PixelFormat) (srcSize : Int)
    (src : Block) (sbase srcPitch w h : Int) (dstSize dbase : Int) (dst : Block) :
    Except Fault Block :=
  match blurInitLoop vertical fmt srcSize src sbase srcPitch (2 * radius + 1).toNat (-radius)
      ⟨0, 0, 0⟩ with
  | Except.error e => Except.error e
  | Except.ok acc =>
    match writePixel dstSize dst (dbase + 0) (packAverage fmt (2 * radius + 1).toNat acc) with
    | Except.error e => Except.error e
    | Except.ok dst1 =>
      blurSlideLoop vertical radius fmt srcSize src sbase srcPitch w h dstSize dbase
        ((if vertical then h else w) - 1).toNat 1 acc dst1

/-- The outer loop of `blur`, `for (j = 0; j < (vertical ? w : h); ++j)`, with `n`
iterations remaining; after each line `src` advances by `vertical ? 1 : srcPitch`
and `dst` by `vertical ? 1 : dstPitch`. -/
def blurLines (vertical : Bool) (radius : Int) (fmt : PixelFormat) (srcSize : Int)
    (src : Block) (srcPitch w h : Int) (dstSize dstPitch : Int) :
    Nat → Int → Int → Block → Except Fault Block
  | 0, _, _, dst => Except.ok dst
  | n + 1, sbase, dbase, dst =>
    match blurLine vertical radius fmt srcSize src sbase srcPitch w h dstSize dbase dst with
    | Except.error e => Except.error e
    | Except.ok dst1 =>
      blurLines vertical radius fmt srcSize src srcPitch w h dstSize dstPitch n
        (sbase + (if vertical then 1 else srcPitch)) (dbase + (if vertical then 1 else dstPitch))
        dst1

/-- The function template `blur<vertical>`; `srcSize` and `dstSize` are the numbers
of pixels of the blocks `src` and `dst` point to, which the caller allocates. The
radius is not negative (the only caller passes 8). -/
def blur (vertical : Bool) (radius : Int) (srcSize : Int) (src : Block) (srcPitch w h : Int)
    (fmt : PixelFormat) (dstSize : Int) (dst : Block) (dstPitch : Int) : Except Fault Block :=
  blurLines vertical radius fmt srcSize src srcPitch w h dstSize dstPitch
    (if vertical then w else h).toNat 0 0 dst

/-- The two passes of `copyRectWidescreen` with `radius = 8`: the horizontal pass
from `src` into `tmp`, then the vertical pass from `tmp` into `dst` with
`dstPitch = pitch / sizeof(uint32_t) = 0`; each block holds `w * h` pixels. -/
def blurFrame (fmt : PixelFormat) (w h : Int) (src tmp dst : Block) : Except Fault Block :=
  match blur false 8 (w * h) src w w h fmt (w * h) tmp w with
  | Except.error e => Except.error e
  | Except.ok tmp1 => blur true 8 (w * h) tmp1 w w h fmt (w * h) dst 0

/-- The conversion loop of `copyRectWidescreen`, `n` iterations remaining from
index `i`: `src[i]` is `SDL_MapRGB` of the gamma-corrected palette entry of
`buf[i]`. -/
def widescreenSourceLoop (sdl : SDL) (fmt : PixelFormat) (lut : Table) (buf pal : Block) :
    Nat → Int → Block → Block
  | 0, _, src => src
  | n + 1, i, src =>
    let color : Int := (buf i : Int)
    widescreenSourceLoop sdl fmt lut buf pal n (i + 1)
      (fun a => if a = i then
          sdl.mapRGB fmt (lut (pal (color * 3))) (lut (pal (color * 3 + 1)))
            (lut (pal (color * 3 + 2)))
        else src a)

/-- The method `System_CTR::copyRectWidescreen` for successful allocations of the
two scratch buffers, whose initial contents are `src0` and `tmp0`; the
widescreen surface holds `w * h` 32-bit pixels. -/
def copyRectWidescreen (sdl : SDL) (s : System_CTR) (w h : Int) (buf pal : Block)
    (src0 tmp0 : Block) : Except Fault System_CTR :=
  match s._widescreenTexture with
  | none => Except.ok s
  | some ws =>
    if s._backgroundTexture.isSome then Except.ok s
    else if ¬ (w = s._screenW ∧ h = s._screenH) then Except.error Fault.assertFailed
    else
      let src := widescreenSourceLoop sdl s.screen.format s._gammaLut buf pal (w * h).toNat 0 src0
      match blurFrame s.screen.format w h src tmp0 ws.pixels with
      | Except.error e => Except.error e
      | Except.ok px => Except.ok { s with _widescreenTexture := some { ws with pixels := px } }

/-- A pixel format whose three channels are runs of `rbits`, `gbits` and `bbits`
bits starting at the shifts, inside 32 bits and sharing no bit, narrow enough
for 17 channel values to add up in a `uint32_t`. -/
def PixelFormat.HasBits (fmt : PixelFormat) (rbits gbits bbits : Nat) : Prop :=
  fmt.Rmask = (2 ^ rbits - 1) <<< fmt.Rshift ∧
    fmt.Gmask = (2 ^ gbits - 1) <<< fmt.Gshift ∧
    fmt.Bmask = (2 ^ bbits - 1) <<< fmt.Bshift ∧
    fmt.Rmask &&& fmt.Gmask = 0 ∧ fmt.Rmask &&& fmt.Bmask = 0 ∧ fmt.Gmask &&& fmt.Bmask = 0 ∧
    fmt.Rmask < 4294967296 ∧ fmt.Gmask < 4294967296 ∧ fmt.Bmask < 4294967296 ∧
    17 * 2 ^ rbits ≤ 4294967296 ∧ 17 * 2 ^ gbits ≤ 4294967296 ∧ 17 * 2 ^ bbits ≤ 4294967296

instance (fmt : PixelFormat) (rbits gbits bbits : Nat) :
    Decidable (fmt.HasBits rbits gbits bbits) := by
  unfold PixelFormat.HasBits
  infer_instance

/-- Following the specification: an index clamped to the line, below 0 to 0 and
beyond `n - 1` to the last valid index. -/
def clampIndex (n k : Int) : Int := min (max k 0) (n - 1)

/-- Following the specification: the sum over `k = i - radius .. i + radius` of
the channel values `f` of a line of length `n` at the clamped index. -/
def boxSum (radius : Nat) (n : Int) (f : Int → Nat) (i : Int) : Nat :=
  Finset.sum (Finset.range (2 * radius + 1)) (fun t => f (clampIndex n (i - radius + t)))

/-- The 8-8-8 pixel format of `sampleSDL`. -/
def sampleFormat : PixelFormat := ⟨16711680, 16, 65280, 8, 255, 0⟩

/-- The channel value of the pixel at index `k` of a line that starts at `base`. -/
def lineChannel (mask shift : Nat) (src : Block) (base : Int) (vertical : Bool) (pitch : Int)
    (k : Int) : Nat :=
  channel mask shift (src (base + lineIndex vertical pitch k))

/-- Following the specification: the three window sums of radius 8 at index `i`
of a line of length `n` that starts at `base`. -/
def windowSums (fmt : PixelFormat) (n : Int) (src : Block) (base : Int) (vertical : Bool)
    (pitch : Int) (i : Int) : Rgb :=
  ⟨boxSum 8 n (lineChannel fmt.Rmask fmt.Rshift src base vertical pitch) i,
   boxSum 8 n (lineChannel fmt.Gmask fmt.Gshift src base vertical pitch) i,
   boxSum 8 n (lineChannel fmt.Bmask fmt.Bshift src base vertical pitch) i⟩

/-- Following the specification: the output pixel at index `i` of a line, the
three averaged channels recombined by the shifts of the pixel format. -/
def boxBlurPixel (fmt : PixelFormat) (n : Int) (src : Block) (base : Int) (vertical : Bool)
    (pitch : Int) (i : Int) : Nat :=
  packAverage fmt 17 (windowSums fmt n src base vertical pitch i)

/-- The sum of one channel over the `w * h` pixels of a frame. -/
def channelSum (mask shift : Nat) (w h : Int) (frame : Block) : Nat :=
  Finset.sum (Finset.range (w * h).toNat) (fun a : Nat => channel mask shift (frame (a : Int)))

/-- A frame of width `w` that is black except for the pixel `p` at column `px`,
row `py`. -/
def singlePixelFrame (w px py : Int) (p : Nat) : Block :=
  fun a => if a = py * w + px then p else 0

/-! ## Calls on the backend -/

/-- The method `System_CTR::setGamma`; `lut i` is the number the expression
`round(pow(i / 255., 1. / gamma) * 255)` gives for index `i`, stored as a
`uint8_t` in each of the 256 entries. -/
def setGamma (s : System_CTR) (lut : Table) : System_CTR :=
  { s with _gammaLut := fun i => if i < 256 then lut i % 256 else s._gammaLut i }

/-- The method `System_CTR::copyYuv`, whose body is empty. -/
def copyYuv (s : System_CTR) : System_CTR := s

/-- The method `System_CTR::startAudio`; `opened` tells whether `SDL_OpenAudio`
returned 0. A failed open ends the process through `error`, which is `none`. -/
def startAudio (s : System_CTR) (callback : AudioCallback) (opened : Bool) :
    Option System_CTR :=
  if opened then some { s with _audioCb := callback } else none

/-- A call of a method of `System_CTR` between `init` and `destroy`, with its
arguments and with what the call takes from the host: the pending events of
`processEvents`, the scratch buffers of `copyRectWidescreen`, the result of
`SDL_OpenAudio`. -/
inductive Call where
  /-- A further call of `init`. -/
  | init (w h : Int) (fullscreen widescreen yuv : Bool)
  /-- A call of `prepareScaledGfx`. -/
  | prepareScaledGfx (fullscreen widescreen yuv : Bool)
  /-- A call of `setScaler`. -/
  | setScaler (name : Option String) (multiplier : Int)
  /-- A call of `setGamma`. -/
  | setGamma (lut : Table)
  /-- A call of `setPalette`. -/
  | setPalette (pal : Block) (n depth : Int)
  /-- A call of `clearPalette`. -/
  | clearPalette
  /-- A call of `copyRect`. -/
  | copyRect (x y w h : Int) (buf : Block) (pitch : Int)
  /-- A call of `copyYuv`. -/
  | copyYuv
  /-- A call of `fillRect`. -/
  | fillRect (x y w h : Int) (color : Nat)
  /-- A call of `copyRectWidescreen`. -/
  | copyRectWidescreen (w h : Int) (buf pal src0 tmp0 : Block)
  /-- A call of `shakeScreen`. -/
  | shakeScreen (dx dy : Int)
  /-- A call of `updateScreen`. -/
  | updateScreen (drawWidescreen : Bool)
  /-- A call of `processEvents`. -/
  | processEvents (events : List Event)
  /-- A call of `updateKeys` on `&inp`. -/
  | updateKeys
  /-- A call of `sleep`, `getTimeStamp`, `stopAudio`, `lockAudio` or
  `unlockAudio`, which only call SDL. -/
  | hostOnly
  /-- A call of `startAudio`. -/
  | startAudio (callback : AudioCallback) (opened : Bool)
  /-- A call of `setAudioCallback`. -/
  | setAudioCallback (callback : AudioCallback)
  /-- A call of `addKeyMapping`. -/
  | addKeyMapping (key : Int) (mask : Nat)
  /-- A call of `setupDefaultKeyMappings`. -/
  | setupDefaultKeyMappings

/-- The state after one call, `none` when the call does not return (a failed
assertion, an access outside a block, or the end of the process). -/
def callMethod (sdl : SDL) (K : InpBits) (s : System_CTR) : Call → Option System_CTR
  | Call.init w h fullscreen widescreen yuv => some (init sdl s w h fullscreen widescreen yuv)
  | Call.prepareScaledGfx fullscreen widescreen yuv =>
    some (prepareScaledGfx sdl s fullscreen widescreen yuv)
  | Call.setScaler name multiplier => some (setScaler s name multiplier)
  | Call.setGamma lut => some (setGamma s lut)
  | Call.setPalette pal n depth => (setPalette sdl s pal n depth).toOption
  | Call.clearPalette => some (clearPalette s)
  | Call.copyRect x y w h buf pitch => (copyRect s x y w h buf pitch).toOption
  | Call.copyYuv => some (copyYuv s)
  | Call.fillRect x y w h color => (fillRect s x y w h color).toOption
  | Call.copyRectWidescreen w h buf pal src0 tmp0 =>
    (copyRectWidescreen sdl s w h buf pal src0 tmp0).toOption
  | Call.shakeScreen dx dy => some (shakeScreen s dx dy)
  | Call.updateScreen drawWidescreen => (updateScreen sdl s drawWidescreen).toOption
  | Call.processEvents events => some (processEvents K s events)
  | Call.updateKeys => some (updateKeys s)
  | Call.hostOnly => some s
  | Call.startAudio callback opened => startAudio s callback opened
  | Call.setAudioCallback callback => some (setAudioCallback s callback).1
  | Call.addKeyMapping key mask => some (addKeyMapping s key mask)
  | Call.setupDefaultKeyMappings => some (setupDefaultKeyMappings s)

/-- The state after a sequence of calls, oldest first; `none` when one of them
does not return. -/
def runCalls (sdl : SDL) (K : InpBits) : System_CTR → List Call → Option System_CTR
  | s, [] => some s
  | s, c :: rest =>
    match callMethod sdl K s c with
    | none => none
    | some s1 => runCalls sdl K s1 rest

/-- A sequence of calls on the 256×192 backend: a full-frame copy, a palette, a
backdrop request, a shake, two screen updates and a poll. -/
def sampleCalls : List Call :=
  [Call.copyRect 0 0 256 192 sampleBytes 256,
   Call.setPalette (fun _ => 63) 4 6,
   Call.copyRectWidescreen 256 192 sampleBytes (fun _ => 63) (fun _ => 0) (fun _ => 0),
   Call.shakeScreen 3 (-2),
   Call.updateScreen true,
   Call.processEvents [Event.joyButtonDown 4 1],
   Call.updateScreen false]

/-! ## Theorems: offscreen buffer -/

/-- A copy with a non-negative count inside the block succeeds. -/
theorem memcpy_ok (size off n : Int) (dst src : Block) (hn : 0 ≤ n) (ho : 0 ≤ off)
    (hs : off + n ≤ size) :
    memcpy size dst off src n
      = Except.ok (fun a => if off ≤ a ∧ a < off + n then src (a - off) else dst a) := by
  unfold memcpy
  rw [if_neg (not_lt.mpr hn), if_neg]
  rintro (h | h) <;> omega

/-- A fill with a non-negative count inside the block succeeds. -/
theorem memset_ok (size off n : Int) (dst : Block) (c : Nat) (hn : 0 ≤ n) (ho : 0 ≤ off)
    (hs : off + n ≤ size) :
    memset size dst off c n
      = Except.ok (fun a => if off ≤ a ∧ a < off + n then c % 256 else dst a) := by
  unfold memset
  rw [if_neg (not_lt.mpr hn), if_neg]
  rintro (h | h) <;> omega

/-- Row loop of `copyRect` inside the screen: it returns a buffer, the rows it
copied hold the source bytes, and every other byte keeps its value. -/
theorem copyRectLoop_spec (W H x w pitch : Int) (hx : 0 ≤ x) (hw : 0 ≤ w) (hxw : x + w ≤ W) :
    ∀ (n : Nat) (mem : Block) (y : Int) (buf : Block), 0 ≤ y → y + n ≤ H →
      ∃ mem1, copyRectLoop (W * H) W x w pitch n mem y buf = Except.ok mem1 ∧
        (∀ i j : Int, 0 ≤ i → i < w → 0 ≤ j → j < n →
          mem1 ((y + j) * W + (x + i)) = buf (j * pitch + i)) ∧
        (∀ a : Int, (∀ i j : Int, 0 ≤ i → i < w → 0 ≤ j → j < n →
          a ≠ (y + j) * W + (x + i)) → mem1 a = mem a) := by
  intro n
  induction n with
  | zero =>
    intro mem y buf _ _
    refine ⟨mem, rfl, ?_, fun a _ => rfl⟩
    intro i j _ _ h0 h1
    omega
  | succ n ih =>
    intro mem y buf hy hyn
    have hW : 0 ≤ W := by omega
    have hyW : 0 ≤ y * W := mul_nonneg hy hW
    have hrow : (y + 1) * W ≤ H * W := by
      apply mul_le_mul_of_nonneg_right _ hW
      push_cast at hyn
      omega
    have hcopy := memcpy_ok (W * H) (y * W + x) w
      mem buf hw
      (by omega) (by nlinarith)
    obtain ⟨mem2, hrun, hin, hout⟩ := ih
      (fun a => if y * W + x ≤ a ∧ a < y * W + x + w then buf (a - (y * W + x)) else mem a)
      (y + 1) (advance buf pitch) (by omega) (by push_cast at hyn; omega)
    refine ⟨mem2, ?_, ?_, ?_⟩
    · simp only [copyRectLoop, hcopy]
      exact hrun
    · intro i j hi0 hi1 hj0 hj1
      rcases eq_or_lt_of_le hj0 with hj | hj
      · subst hj
        rw [hout]
        · have : y * W + x ≤ (y + 0) * W + (x + i) ∧ (y + 0) * W + (x + i) < y * W + x + w := by
            constructor <;> simp <;> omega
          rw [if_pos this]
          congr 1
          ring
        · intro i2 j2 hi20 hi21 hj20 _ heq
          have h1 : 0 ≤ j2 * W := mul_nonneg hj20 hW
          have h2 : (y + 1 + j2) * W = y * W + W + j2 * W := by ring
          have h3 : (y + 0) * W = y * W := by ring
          omega
      · have := hin i (j - 1) hi0 hi1 (by omega) (by push_cast at hj1; omega)
        have e1 : (y + 1 + (j - 1)) * W + (x + i) = (y + j) * W + (x + i) := by ring
        rw [e1] at this
        rw [this]
        unfold advance
        congr 1
        ring
    · intro a ha
      rw [hout]
      · have hne : ¬ (y * W + x ≤ a ∧ a < y * W + x + w) := by
          rintro ⟨h1, h2⟩
          refine ha (a - (y * W + x)) 0 (by omega) (by omega) le_rfl (by push_cast; omega) ?_
          ring
        rw [if_neg hne]
      · intro i j hi0 hi1 hj0 hj1
        have := ha i (j + 1) hi0 hi1 (by omega) (by push_cast; omega)
        have e1 : (y + (j + 1)) * W = (y + 1 + j) * W := by ring
        rw [e1] at this
        exact this

/-- C1: inside the screen, with non-negative sizes and `pitch ≥ w`, `copyRect`
returns a state whose offscreen byte at column `x + i`, row `y + j` is
`buf[j * pitch + i]` for all `0 ≤ i < w` and `0 ≤ j < h`. -/
theorem copyRect_readback (s : System_CTR) (x y w h : Int) (buf : Block) (pitch : Int)
    (hx : 0 ≤ x) (hy : 0 ≤ y) (hw : 0 ≤ w) (hh : 0 ≤ h)
    (hxw : x + w ≤ s._screenW) (hyh : y + h ≤ s._screenH) (_hp : w ≤ pitch) :
    ∃ s1, copyRect s x y w h buf pitch = Except.ok s1 ∧
      ∀ i j : Int, 0 ≤ i → i < w → 0 ≤ j → j < h →
        s1._offscreenLut ((y + j) * s._screenW + (x + i)) = buf (j * pitch + i) := by
  have hassert : x ≥ 0 ∧ x + w ≤ s._screenW ∧ y ≥ 0 ∧ y + h ≤ s._screenH := ⟨hx, hxw, hy, hyh⟩
  unfold copyRect
  rw [if_neg (not_not.mpr hassert)]
  by_cases hfast : w = pitch ∧ w = s._screenW
  · rw [if_pos hfast]
    obtain ⟨hwp, hwW⟩ := hfast
    have hx0 : x = 0 := by omega
    have hyW : 0 ≤ y * s._screenW := mul_nonneg hy (by omega)
    have hcopy := memcpy_ok s.offscreenSize (y * s._screenW + x) (w * h)
            s._offscreenLut buf (mul_nonneg hw hh) (by omega)
      (by unfold System_CTR.offscreenSize; subst hx0; rw [← hwW]; nlinarith)
    unfold copyRectFast
    rw [hcopy]
    refine ⟨_, rfl, ?_⟩
    intro i j hi0 hi1 hj0 hj1
    have hjw : (j + 1) * w ≤ h * w := mul_le_mul_of_nonneg_right (by omega) hw
    have hjw0 : 0 ≤ j * w := mul_nonneg hj0 hw
    have hin : y * s._screenW + x ≤ (y + j) * s._screenW + (x + i) ∧
        (y + j) * s._screenW + (x + i) < y * s._screenW + x + w * h := by
      rw [← hwW]
      constructor <;> nlinarith
    simp only []
    rw [if_pos hin]
    congr 1
    rw [← hwp]
    rw [← hwW]
    ring
  · rw [if_neg hfast]
    obtain ⟨mem1, hrun, hin, _⟩ := copyRectLoop_spec s._screenW s._screenH x w pitch hx hw hxw
      h.toNat s._offscreenLut y buf hy (by rw [Int.toNat_of_nonneg hh]; exact hyh)
    unfold copyRectRows System_CTR.offscreenSize
    rw [hrun]
    refine ⟨_, rfl, ?_⟩
    intro i j hi0 hi1 hj0 hj1
    exact hin i j hi0 hi1 hj0 (by rw [Int.toNat_of_nonneg hh]; exact hj1)

/-- Row loop of `copyRect` on full-width rows with `pitch` equal to the width:
the rows written are one contiguous run of the source. -/
theorem copyRectLoop_fullWidth (W H : Int) (hW : 0 ≤ W) :
    ∀ (n : Nat) (mem : Block) (y : Int) (buf : Block), 0 ≤ y → y + n ≤ H →
      copyRectLoop (W * H) W 0 W W n mem y buf
        = Except.ok (fun a => if y * W + 0 ≤ a ∧ a < y * W + 0 + W * n then buf (a - (y * W + 0))
            else mem a) := by
  intro n
  induction n with
  | zero =>
    intro mem y buf _ _
    simp only [copyRectLoop]
    congr 1
    funext a
    rw [if_neg]
    push_cast
    omega
  | succ n ih =>
    intro mem y buf hy hyn
    have hyW : 0 ≤ y * W := mul_nonneg hy hW
    have hrow : (y + 1) * W ≤ H * W := by
      apply mul_le_mul_of_nonneg_right _ hW
      push_cast at hyn
      omega
    have hcopy := memcpy_ok (W * H) (y * W + 0) W
      mem buf hW
      (by omega) (by nlinarith)
    simp only [copyRectLoop, hcopy]
    rw [ih _ (y + 1) (advance buf W) (by omega) (by push_cast at hyn; omega)]
    congr 1
    funext a
    have e1 : (y + 1) * W = y * W + W := by ring
    have e2 : W * ((n + 1 : Nat) : Int) = W * (n : Int) + W := by push_cast; ring
    have hWn : 0 ≤ W * (n : Int) := mul_nonneg hW (Int.ofNat_nonneg n)
    rw [e1, e2]
    by_cases h1 : y * W + W + 0 ≤ a ∧ a < y * W + W + 0 + W * (n : Int)
    · rw [if_pos h1, if_pos (by omega)]
      unfold advance
      congr 1
      omega
    · rw [if_neg h1]
      by_cases h2 : y * W + 0 ≤ a ∧ a < y * W + 0 + W
      · rw [if_pos h2, if_pos (by omega)]
      · rw [if_neg h2, if_neg (by omega)]

/-- C2: for an in-bounds call with `w == pitch == _screenW`, the single copy of
`w * h` bytes and the `h` row copies return the same state; `copyRect` takes
the single copy, and it succeeds. -/
theorem copyRect_fast_eq_rows (s : System_CTR) (x y w h : Int) (buf : Block) (pitch : Int)
    (hx : 0 ≤ x) (hy : 0 ≤ y) (hw : 0 ≤ w) (hh : 0 ≤ h)
    (hxw : x + w ≤ s._screenW) (hyh : y + h ≤ s._screenH)
    (hwp : w = pitch) (hwW : w = s._screenW) :
    copyRectFast s x y w h buf = copyRectRows s x y w h buf pitch ∧
      copyRect s x y w h buf pitch = copyRectFast s x y w h buf ∧
      ∃ s1, copyRectFast s x y w h buf = Except.ok s1 := by
  have hx0 : x = 0 := by omega
  subst hx0
  subst hwp
  have hyW : 0 ≤ y * s._screenW := mul_nonneg hy (by omega)
  have hcopy := memcpy_ok s.offscreenSize (y * s._screenW + 0) (w * h)
          s._offscreenLut buf (mul_nonneg hw hh) (by omega)
    (by unfold System_CTR.offscreenSize; rw [← hwW]; nlinarith)
  have hloop := copyRectLoop_fullWidth s._screenW s._screenH (by omega) h.toNat
    s._offscreenLut y buf hy (by rw [Int.toNat_of_nonneg hh]; exact hyh)
  rw [Int.toNat_of_nonneg hh] at hloop
  refine ⟨?_, ?_, ?_⟩
  · unfold copyRectFast copyRectRows System_CTR.offscreenSize
    unfold System_CTR.offscreenSize at hcopy
    rw [hcopy]
    rw [hwW, hloop]
  · unfold copyRect
    rw [if_neg (not_not.mpr ⟨le_rfl, hxw, hy, hyh⟩), if_pos ⟨rfl, hwW⟩]
  · unfold copyRectFast
    rw [hcopy]
    exact ⟨_, rfl⟩

/-- C3 (evaluation at the failing inputs): on the 256×192 screen the calls
`copyRect(0, 0, -1, 1, buf, 0)`, `copyRect(0, 0, 256, -1, buf, 256)`,
`fillRect(0, 0, -1, 1, 7)` and `fillRect(0, 0, 256, -1, 7)` satisfy the asserted
condition (none of them is stopped by the `assert`) and each passes a negative
count to `memcpy` or `memset`. -/
theorem rect_negative_size_passes_assert :
    ((0 : Int) ≥ 0 ∧ (0 : Int) + (-1) ≤ sampleSystem._screenW ∧ (0 : Int) ≥ 0 ∧
        (0 : Int) + 1 ≤ sampleSystem._screenH) ∧
      ((0 : Int) ≥ 0 ∧ (0 : Int) + 256 ≤ sampleSystem._screenW ∧ (0 : Int) ≥ 0 ∧
        (0 : Int) + (-1) ≤ sampleSystem._screenH) ∧
      copyRect sampleSystem 0 0 (-1) 1 sampleBytes 0 = Except.error Fault.negativeCount ∧
      copyRect sampleSystem 0 0 256 (-1) sampleBytes 256 = Except.error Fault.negativeCount ∧
      fillRect sampleSystem 0 0 (-1) 1 7 = Except.error Fault.negativeCount ∧
      fillRect sampleSystem 0 0 256 (-1) 7 = Except.error Fault.negativeCount := by
  refine ⟨by decide, by decide, ?_, ?_, ?_, ?_⟩ <;> rfl

/-! ## Theorems: display compositor -/

/-- Palette loop of `updateScreen` in closed form: the `n` pixels from index `i`
are the palette entries of the source bytes, the others are untouched. -/
theorem resolveLoop_apply (pal : Table) (src : Block) :
    ∀ (n : Nat) (i : Int) (dst : Block) (a : Int),
      resolveLoop pal src n i dst a = if i ≤ a ∧ a < i + n then pal (src a) else dst a := by
  intro n
  induction n with
  | zero =>
    intro i dst a
    simp only [resolveLoop]
    rw [if_neg]
    push_cast
    omega
  | succ n ih =>
    intro i dst a
    simp only [resolveLoop]
    rw [ih]
    push_cast
    by_cases h1 : i + 1 ≤ a ∧ a < i + 1 + (n : Int)
    · rw [if_pos h1, if_pos (by omega)]
    · rw [if_neg h1]
      by_cases h2 : a = i
      · subst h2
        rw [if_pos rfl, if_pos (by omega)]
      · rw [if_neg h2, if_neg (by omega)]

/-- The method `updateScreen` succeeds on a texture whose pitch is a multiple of
four; when no backdrop is blitted, the texture it presents is the resolved frame. -/
theorem updateScreen_ok (sdl : SDL) (s : System_CTR) (drawWidescreen : Bool)
    (hpitch : s._texture.pitch % 4 = 0) :
    ∃ s2, updateScreen sdl s drawWidescreen = Except.ok s2 ∧
      (s._widescreenTexture = none ∨ drawWidescreen = false →
        s2._texture.pixels = resolveFrame s ∧
        s2.screen = sdl.blitSurface s2._texture s.screen) := by
  unfold updateScreen
  rw [if_neg (not_not.mpr hpitch)]
  cases hws : s._widescreenTexture with
  | none => exact ⟨_, rfl, fun _ => ⟨rfl, rfl⟩⟩
  | some ws =>
    refine ⟨_, rfl, ?_⟩
    rintro (h | h)
    · exact absurd h (by simp)
    · subst h
      exact ⟨rfl, rfl⟩

/-- C4: with no scaler procedure registered, `fillRect(0, 0, W, H, c)` followed by
`updateScreen` succeeds and every one of the `W * H` pixels of the resolved
frame equals `_pal[c]`; when no backdrop is blitted over it, this frame is the
texture that `updateScreen` blits to the screen. -/
theorem fillRect_updateScreen (sdl : SDL) (s : System_CTR) (c : Nat) (drawWidescreen : Bool)
    (hc : c < 256) (hW : 0 ≤ s._screenW) (hH : 0 ≤ s._screenH)
    (hproc : s._scalerProc = none) (hpitch : s._texture.pitch % 4 = 0) :
    ∃ s1 s2, fillRect s 0 0 s._screenW s._screenH c = Except.ok s1 ∧
      updateScreen sdl s1 drawWidescreen = Except.ok s2 ∧
      (∀ i : Int, 0 ≤ i → i < s._screenW * s._screenH → resolveFrame s1 i = s._pal c) ∧
      (s._widescreenTexture = none ∨ drawWidescreen = false →
        s2._texture.pixels = resolveFrame s1 ∧
        s2.screen = sdl.blitSurface s2._texture s.screen) := by
  have hfill := memset_ok s.offscreenSize (0 * s._screenW + 0) (s._screenW * s._screenH)
      s._offscreenLut c (mul_nonneg hW hH) (by omega)
    (by unfold System_CTR.offscreenSize; omega)
  have hrun : fillRect s 0 0 s._screenW s._screenH c = Except.ok
      { s with _offscreenLut := fun a =>
          if 0 * s._screenW + 0 ≤ a ∧ a < 0 * s._screenW + 0 + s._screenW * s._screenH
          then c % 256 else s._offscreenLut a } := by
    unfold fillRect
    rw [if_neg (not_not.mpr ⟨le_rfl, by omega, le_rfl, by omega⟩), if_pos rfl, hfill]
  obtain ⟨s2, hupd, hpres⟩ := updateScreen_ok sdl
    { s with _offscreenLut := fun a =>
          if 0 * s._screenW + 0 ≤ a ∧ a < 0 * s._screenW + 0 + s._screenW * s._screenH
          then c % 256 else s._offscreenLut a } drawWidescreen hpitch
  refine ⟨_, s2, hrun, hupd, ?_, hpres⟩
  intro i hi0 hi1
  simp only [resolveFrame, hproc]
  rw [resolveLoop_apply, Int.toNat_of_nonneg (mul_nonneg hW hH), if_pos (by omega),
    if_pos (by omega), Nat.mod_eq_of_lt hc]

/-! ## Theorems: palette -/

/-- Constructor loop in closed form: entries `i .. i + n - 1` hold their own index
modulo 256. -/
theorem gammaIdentityLoop_apply :
    ∀ (n i : Nat) (lut : Table) (a : Nat),
      gammaIdentityLoop n i lut a = if i ≤ a ∧ a < i + n then a % 256 else lut a := by
  intro n
  induction n with
  | zero =>
    intro i lut a
    simp only [gammaIdentityLoop]
    rw [if_neg (by omega)]
  | succ n ih =>
    intro i lut a
    simp only [gammaIdentityLoop]
    rw [ih]
    by_cases h1 : i + 1 ≤ a ∧ a < i + 1 + n
    · rw [if_pos h1, if_pos (by omega)]
    · rw [if_neg h1]
      by_cases h2 : a = i
      · subst h2
        rw [if_pos rfl, if_pos (by omega)]
      · rw [if_neg h2, if_neg (by omega)]

/-- The gamma table of a freshly constructed system is the identity on `0 .. 255`. -/
theorem ctor_gammaLut (v : Nat) (hv : v < 256) : System_CTR.ctor._gammaLut v = v := by
  simp only [System_CTR.ctor]
  rw [gammaIdentityLoop_apply, if_pos (by omega), Nat.mod_eq_of_lt hv]

/-- The method `init` does not touch the gamma table. -/
theorem init_gammaLut (sdl : SDL) (s : System_CTR) (w h : Int) (fullscreen widescreen yuv : Bool) :
    (init sdl s w h fullscreen widescreen yuv)._gammaLut = s._gammaLut := by
  unfold init prepareScaledGfx
  simp only []
  split_ifs <;> rfl

/-- At depth 8 a channel is the gamma-table entry of the raw byte. -/
theorem paletteChannel_depth8 (lut : Table) (v : Nat) (hv : v < 256) :
    paletteChannel lut 8 v = Except.ok (lut v) := by
  simp [paletteChannel, expandChannel, gammaLookup, hv]

/-- Entry loop of `setPalette` at depth 8 with an identity gamma table, in closed
form. -/
theorem setPaletteLoop_depth8 (sdl : SDL) (fmt : PixelFormat) (lut : Table) (pal : Block)
    (hlut : ∀ v, v < 256 → lut v = v) (hbytes : ∀ k, pal k < 256) :
    ∀ (n i : Nat) (tbl : Table),
      setPaletteLoop sdl fmt lut pal 8 n i tbl
        = Except.ok (fun a => if i ≤ a ∧ a < i + n
            then sdl.mapRGB fmt (pal (a * 3 + 0)) (pal (a * 3 + 1)) (pal (a * 3 + 2))
            else tbl a) := by
  intro n
  induction n with
  | zero =>
    intro i tbl
    simp only [setPaletteLoop]
    congr 1
    funext a
    rw [if_neg (by omega)]
  | succ n ih =>
    intro i tbl
    simp only [setPaletteLoop, paletteChannel_depth8 lut _ (hbytes _), hlut _ (hbytes _)]
    rw [ih]
    congr 1
    funext a
    by_cases h1 : i + 1 ≤ a ∧ a < i + 1 + n
    · rw [if_pos h1, if_pos (by omega)]
    · rw [if_neg h1]
      by_cases h2 : a = i
      · subst h2
        rw [if_pos rfl, if_pos (by omega)]
      · rw [if_neg h2, if_neg (by omega)]

/-- C5: at depth 8, with the gamma table of a freshly constructed system, no
backdrop surface and no palette hook, `setPalette(pal, n, 8)` with `n ≤ 256`
succeeds and entry `i < n` is `SDL_MapRGB` of the unmodified input triple. -/
theorem setPalette_depth8_identity (sdl : SDL) (s : System_CTR) (pal : Block) (n : Int)
    (hn : n ≤ 256) (hgamma : s._gammaLut = System_CTR.ctor._gammaLut)
    (hbytes : ∀ k, pal k < 256)
    (hbg : s._backgroundTexture = none) (hhook : s._scaler.palette = none) :
    ∃ s1, setPalette sdl s pal n 8 = Except.ok s1 ∧
      ∀ i : Nat, (i : Int) < n →
        s1._pal i = sdl.mapRGB s.screen.format (pal (3 * i)) (pal (3 * i + 1)) (pal (3 * i + 2)) := by
  have hlut : ∀ v, v < 256 → s._gammaLut v = v := by
    intro v hv
    rw [hgamma]
    exact ctor_gammaLut v hv
  have hloop := setPaletteLoop_depth8 sdl s.screen.format s._gammaLut pal hlut hbytes
    n.toNat 0 s._pal
  unfold setPalette
  rw [if_neg (not_not.mpr hn), if_neg (by decide), hloop]
  simp only [hbg, hhook, Option.isSome_none]
  refine ⟨_, rfl, ?_⟩
  intro i hi
  have hi2 : 0 ≤ i ∧ i < 0 + n.toNat := by omega
  simp only [Bool.false_eq_true, if_false]
  rw [if_pos hi2]
  congr 1 <;> congr 1 <;> ring

/-- C6 (evaluation at the failing inputs): at depths 1, 2 and 3 the second shift
amount `depth - shift` is -6, -4 and -2, so the expansion of the all-ones value
faults instead of giving 255; `setPalette(pal, 1, 3)` on an entry of three
bytes 7 passes both asserts and ends in that fault. -/
theorem expandChannel_small_depth_faults :
    ((1 : Int) - (8 - 1) = -6 ∧ expandChannel 1 1 = Except.error Fault.badShift) ∧
      ((2 : Int) - (8 - 2) = -4 ∧ expandChannel 2 3 = Except.error Fault.badShift) ∧
      ((3 : Int) - (8 - 3) = -2 ∧ expandChannel 3 7 = Except.error Fault.badShift) ∧
      ((1 : Int) ≤ 256 ∧ (3 : Int) ≤ 8) ∧
      setPalette sampleSDL sampleSystem (fun _ => 7) 1 3 = Except.error Fault.badShift :=
  ⟨by decide, by decide, by decide, by decide, rfl⟩

/-- The lookup finds nothing exactly when no registered scaler bears the name. -/
theorem findScaler_eq_none (name : String) :
    ∀ (l : List Scaler), (∀ sc ∈ l, sc.name ≠ name) → findScaler name l = none := by
  intro l
  induction l with
  | nil => intro _; rfl
  | cons sc rest ih =>
    intro h
    have h1 : name ≠ sc.name := fun e => h sc (List.mem_cons_self _ _) e.symm
    simp only [findScaler, if_neg h1]
    exact ih (fun t ht => h t (List.mem_cons_of_mem _ ht))

/-- C7: the registry holds only "nearest"; `setScaler` with a name that is not
registered keeps the active scaler, appends one warning naming the requested
and the active scaler, sets the multiplier to `multiplier` when it is positive
and keeps it otherwise; and for every name (null included) a multiplier `≤ 0`
leaves the multiplier unchanged. -/
theorem setScaler_unknown_name (s : System_CTR) (name : String) (multiplier : Int)
    (hname : ∀ sc ∈ _scalers, sc.name ≠ name) :
    _scalers.map Scaler.name = ["nearest"] ∧
      (setScaler s (some name) multiplier)._scaler = s._scaler ∧
      (setScaler s (some name) multiplier).warnings
        = s.warnings ++ [Warning.unknownScaler name s._scaler.name] ∧
      (0 < multiplier → (setScaler s (some name) multiplier)._scalerMultiplier = multiplier) ∧
      (∀ (nm : Option String) (m : Int), m ≤ 0 →
        (setScaler s nm m)._scalerMultiplier = s._scalerMultiplier) := by
  have hfind := findScaler_eq_none name _scalers hname
  refine ⟨rfl, ?_, ?_, ?_, ?_⟩
  · simp only [setScaler, hfind]
    split_ifs <;> rfl
  · simp only [setScaler, hfind]
    split_ifs <;> rfl
  · intro hm
    simp only [setScaler, hfind, gt_iff_lt, if_pos hm]
  · intro nm m hm
    have hm2 : ¬ m > 0 := by omega
    simp only [setScaler, if_neg hm2]
    cases nm with
    | none => rfl
    | some n2 =>
      simp only []
      cases findScaler n2 _scalers <;> rfl

/-- C7 (scenario): from the freshly constructed system, `setScaler("bogus", 2)`
leaves "nearest" active, sets the multiplier to 2 and logs one warning. -/
theorem setScaler_unknown_name_witness :
    (∀ sc ∈ _scalers, sc.name ≠ "bogus") ∧
      (setScaler System_CTR.ctor (some "bogus") 2)._scaler = System_CTR.ctor._scaler ∧
      System_CTR.ctor._scaler.name = "nearest" ∧
      (setScaler System_CTR.ctor (some "bogus") 2).warnings
        = [Warning.unknownScaler "bogus" "nearest"] ∧
      (setScaler System_CTR.ctor (some "bogus") 2)._scalerMultiplier = 2 :=
  have h : ∀ sc ∈ _scalers, sc.name ≠ "bogus" := by
    intro sc hsc
    simp only [_scalers, List.mem_singleton] at hsc
    subst hsc
    decide
  ⟨h, (setScaler_unknown_name System_CTR.ctor "bogus" 2 h).2.1, rfl,
    (setScaler_unknown_name System_CTR.ctor "bogus" 2 h).2.2.1,
    (setScaler_unknown_name System_CTR.ctor "bogus" 2 h).2.2.2.1 (by decide)⟩

/-! ## Theorems: input -/

/-- The bits of `m & ~x` are the bits of `m` that are not bits of `x`. -/
theorem andNot_testBit (m x i : Nat) :
    (andNot m x).testBit i = (m.testBit i && !x.testBit i) := by
  simp only [andNot, Nat.testBit_xor, Nat.testBit_and]
  cases m.testBit i <;> cases x.testBit i <;> rfl

/-- Two masks that share no bit never have the same bit set. -/
theorem and_eq_zero_testBit {p q : Nat} (h : p &&& q = 0) (i : Nat) :
    (p.testBit i && q.testBit i) = false := by
  rw [← Nat.testBit_and, h, Nat.zero_testBit]

/-- Setting bits makes them all read as set. -/
theorem or_and_self (m b : Nat) : (m ||| b) &&& b = b := by
  apply Nat.eq_of_testBit_eq
  intro i
  simp only [Nat.testBit_and, Nat.testBit_or]
  cases m.testBit i <;> cases b.testBit i <;> rfl

/-- Clearing bits makes them all read as clear. -/
theorem andNot_and_self (m b : Nat) : andNot m b &&& b = 0 := by
  apply Nat.eq_of_testBit_eq
  intro i
  simp only [Nat.testBit_and, andNot_testBit, Nat.zero_testBit]
  cases m.testBit i <;> cases b.testBit i <;> rfl

/-- Clearing a pair of masks clears the first of them. -/
theorem andNot_or_and_left (m p q : Nat) : andNot m (p ||| q) &&& p = 0 := by
  apply Nat.eq_of_testBit_eq
  intro i
  simp only [Nat.testBit_and, Nat.testBit_or, andNot_testBit, Nat.zero_testBit]
  cases m.testBit i <;> cases p.testBit i <;> cases q.testBit i <;> rfl

/-- Clearing a pair of masks clears the second of them. -/
theorem andNot_or_and_right (m p q : Nat) : andNot m (p ||| q) &&& q = 0 := by
  apply Nat.eq_of_testBit_eq
  intro i
  simp only [Nat.testBit_and, Nat.testBit_or, andNot_testBit, Nat.zero_testBit]
  cases m.testBit i <;> cases p.testBit i <;> cases q.testBit i <;> rfl

/-- Setting a mask leaves a disjoint mask as it was. -/
theorem or_and_disjoint (m p b : Nat) (h : p &&& b = 0) : (m ||| p) &&& b = m &&& b := by
  apply Nat.eq_of_testBit_eq
  intro i
  have := and_eq_zero_testBit h i
  simp only [Nat.testBit_and, Nat.testBit_or]
  revert this
  cases m.testBit i <;> cases p.testBit i <;> cases b.testBit i <;> simp

/-- Clearing a mask leaves a disjoint mask as it was. -/
theorem andNot_and_disjoint (m p b : Nat) (h : p &&& b = 0) : andNot m p &&& b = m &&& b := by
  apply Nat.eq_of_testBit_eq
  intro i
  have := and_eq_zero_testBit h i
  simp only [Nat.testBit_and, andNot_testBit]
  revert this
  cases m.testBit i <;> cases p.testBit i <;> cases b.testBit i <;> simp

/-- A union of two masks is disjoint from a mask disjoint from both. -/
theorem or_disjoint {p q b : Nat} (hp : p &&& b = 0) (hq : q &&& b = 0) :
    (p ||| q) &&& b = 0 := by
  apply Nat.eq_of_testBit_eq
  intro i
  have h1 := and_eq_zero_testBit hp i
  have h2 := and_eq_zero_testBit hq i
  simp only [Nat.testBit_and, Nat.testBit_or, Nat.zero_testBit]
  revert h1 h2
  cases p.testBit i <;> cases q.testBit i <;> cases b.testBit i <;> simp

/-- With a joystick, a poll that drains one button-down event rewrites `pad.mask`
by `buttonEvent`; the joystick handle is not touched. -/
theorem processEvents_buttonDown (K : InpBits) (s : System_CTR) (b st : Nat)
    (hj : s._joystick = true) :
    (processEvents K s [Event.joyButtonDown b st]).pad.mask = buttonEvent K s.pad.mask b st ∧
      (processEvents K s [Event.joyButtonDown b st])._joystick = true := by
  simp only [processEvents, updateKeys, pollEvents, handleEvent, hj, if_true, and_self]

/-- With a joystick, a poll that drains one button-up event rewrites `pad.mask`
by `buttonEvent`. -/
theorem processEvents_buttonUp (K : InpBits) (s : System_CTR) (b st : Nat)
    (hj : s._joystick = true) :
    (processEvents K s [Event.joyButtonUp b st]).pad.mask = buttonEvent K s.pad.mask b st := by
  simp only [processEvents, updateKeys, pollEvents, handleEvent, hj, if_true]

/-- For a mapped button the event sets or clears the action bits of the button. -/
theorem buttonEvent_mapped (K : InpBits) (m b st : Nat) (hb : b ∈ [1, 2, 3, 4, 7]) :
    buttonEvent K m b st = setOrClear (decide (st = SDL_PRESSED)) m (buttonBits K b) := by
  simp only [List.mem_cons, List.mem_singleton, List.not_mem_nil, or_false] at hb
  rcases hb with rfl | rfl | rfl | rfl | rfl <;> rfl

/-- Every poll ends with `inp.prevMask` equal to the `inp.mask` it started with
and `inp.mask` equal to the final `pad.mask`. -/
theorem processEvents_snapshot (K : InpBits) (s : System_CTR) (events : List Event) :
    (processEvents K s events).inp.prevMask = s.inp.mask ∧
      (processEvents K s events).inp.mask = (processEvents K s events).pad.mask := by
  have hinp : ∀ (l : List Event) (t : System_CTR), (pollEvents K t l).inp.mask = t.inp.mask := by
    intro l
    induction l with
    | nil => intro t; rfl
    | cons ev rest ih =>
      intro t
      simp only [pollEvents]
      rw [ih]
      cases ev <;> simp only [handleEvent] <;> split_ifs <;> rfl
  constructor
  · simp only [processEvents, updateKeys]
    rw [hinp]
  · simp only [processEvents, updateKeys, Nat.zero_or]

/-- C8: with a joystick present, for a mapped button `b` whose action bits are
clear in `pad.mask` and `inp.mask`, a poll that drains only the down event of
`b` followed by a poll that drains only its up event gives, after the first
poll, `inp.mask` with the bits set and `inp.prevMask` with them clear, and
after the second, `inp.mask` with them clear and `inp.prevMask` with them set;
and every poll ends with `inp.prevMask` equal to the `inp.mask` it started
with and `inp.mask` equal to the final `pad.mask`. -/
theorem processEvents_button_edge (K : InpBits) (s : System_CTR) (b : Nat)
    (hj : s._joystick = true) (hb : b ∈ [1, 2, 3, 4, 7])
    (_hpad : s.pad.mask &&& buttonBits K b = 0) (hinp : s.inp.mask &&& buttonBits K b = 0) :
    (processEvents K s [Event.joyButtonDown b SDL_PRESSED]).inp.mask &&& buttonBits K b
        = buttonBits K b ∧
      (processEvents K s [Event.joyButtonDown b SDL_PRESSED]).inp.prevMask &&& buttonBits K b
        = 0 ∧
      (processEvents K (processEvents K s [Event.joyButtonDown b SDL_PRESSED])
        [Event.joyButtonUp b SDL_RELEASED]).inp.mask &&& buttonBits K b = 0 ∧
      (processEvents K (processEvents K s [Event.joyButtonDown b SDL_PRESSED])
        [Event.joyButtonUp b SDL_RELEASED]).inp.prevMask &&& buttonBits K b
        = buttonBits K b ∧
      ∀ (t : System_CTR) (events : List Event),
        (processEvents K t events).inp.prevMask = t.inp.mask ∧
        (processEvents K t events).inp.mask = (processEvents K t events).pad.mask := by
  have hdown : (processEvents K s [Event.joyButtonDown b SDL_PRESSED]).pad.mask
      = s.pad.mask ||| buttonBits K b := by
    rw [(processEvents_buttonDown K s b SDL_PRESSED hj).1, buttonEvent_mapped K _ b _ hb]
    rfl
  have hj1 := (processEvents_buttonDown K s b SDL_PRESSED hj).2
  have hup : (processEvents K (processEvents K s [Event.joyButtonDown b SDL_PRESSED])
      [Event.joyButtonUp b SDL_RELEASED]).pad.mask
      = andNot (s.pad.mask ||| buttonBits K b) (buttonBits K b) := by
    rw [processEvents_buttonUp K _ b SDL_RELEASED hj1, buttonEvent_mapped K _ b _ hb, hdown]
    rfl
  have h1 := processEvents_snapshot K s [Event.joyButtonDown b SDL_PRESSED]
  have h2 := processEvents_snapshot K (processEvents K s [Event.joyButtonDown b SDL_PRESSED])
    [Event.joyButtonUp b SDL_RELEASED]
  refine ⟨?_, ?_, ?_, ?_, processEvents_snapshot K⟩
  · rw [h1.2, hdown]
    exact or_and_self _ _
  · rw [h1.1]
    exact hinp
  · rw [h2.2, hup]
    exact andNot_and_self _ _
  · rw [h2.1, h1.2, hdown]
    exact or_and_self _ _

/-- With a joystick, a poll that drains one axis event rewrites `pad.mask` by
`axisMotion`. -/
theorem padAfter_axis (K : InpBits) (s : System_CTR) (axis : Nat) (value : Int)
    (hj : s._joystick = true) :
    padAfter K s [Event.joyAxisMotion axis value] = axisMotion K s.pad.mask axis value := by
  simp only [padAfter, processEvents, updateKeys, pollEvents, handleEvent, hj, if_true]

/-- One axis on masks `p` (positive direction) and `q` (negative direction) that
share no bit: after the update at most one of the two is set, and every mask
disjoint from both reads as before. -/
theorem axis_pair (m p q : Nat) (value : Int) (hpq : p &&& q = 0) :
    ((if value > kJoystickCommitValue then andNot m (p ||| q) ||| p
        else if value < -kJoystickCommitValue then andNot m (p ||| q) ||| q
        else andNot m (p ||| q)) &&& p = 0 ∨
      (if value > kJoystickCommitValue then andNot m (p ||| q) ||| p
        else if value < -kJoystickCommitValue then andNot m (p ||| q) ||| q
        else andNot m (p ||| q)) &&& q = 0) ∧
    ∀ b, p &&& b = 0 → q &&& b = 0 →
      (if value > kJoystickCommitValue then andNot m (p ||| q) ||| p
        else if value < -kJoystickCommitValue then andNot m (p ||| q) ||| q
        else andNot m (p ||| q)) &&& b = m &&& b := by
  have hqp : q &&& p = 0 := by rw [Nat.land_comm]; exact hpq
  have hframe : ∀ b, p &&& b = 0 → q &&& b = 0 → andNot m (p ||| q) &&& b = m &&& b :=
    fun b hp hq => andNot_and_disjoint m (p ||| q) b (or_disjoint hp hq)
  split_ifs with h1 h2
  · refine ⟨Or.inr ?_, fun b hp hq => ?_⟩
    · rw [or_and_disjoint _ p q hpq]
      exact andNot_or_and_right m p q
    · rw [or_and_disjoint _ p b hp]
      exact hframe b hp hq
  · refine ⟨Or.inl ?_, fun b hp hq => ?_⟩
    · rw [or_and_disjoint _ q p hqp]
      exact andNot_or_and_left m p q
    · rw [or_and_disjoint _ q b hq]
      exact hframe b hp hq
  · exact ⟨Or.inl (andNot_or_and_left m p q), hframe⟩

/-- The pairs of masks that `InpBits.Disjoint` separates. -/
theorem InpBits.Disjoint.pairs {K : InpBits} (hK : K.Disjoint) :
    (K.up &&& K.right = 0 ∧ K.up &&& K.down = 0 ∧ K.up &&& K.left = 0 ∧ K.up &&& K.run = 0 ∧
      K.up &&& K.jump = 0 ∧ K.up &&& K.shoot = 0 ∧ K.up &&& K.esc = 0) ∧
    (K.right &&& K.down = 0 ∧ K.right &&& K.left = 0 ∧ K.right &&& K.run = 0 ∧
      K.right &&& K.jump = 0 ∧ K.right &&& K.shoot = 0 ∧ K.right &&& K.esc = 0) ∧
    (K.down &&& K.left = 0 ∧ K.down &&& K.run = 0 ∧ K.down &&& K.jump = 0 ∧
      K.down &&& K.shoot = 0 ∧ K.down &&& K.esc = 0) ∧
    (K.left &&& K.run = 0 ∧ K.left &&& K.jump = 0 ∧ K.left &&& K.shoot = 0 ∧
      K.left &&& K.esc = 0) := by
  simp only [InpBits.Disjoint, List.pairwise_cons, List.mem_cons, List.mem_singleton,
    forall_eq_or_imp, forall_eq, List.not_mem_nil] at hK
  obtain ⟨⟨a1, a2, a3, a4, a5, a6, a7, -⟩, ⟨b1, b2, b3, b4, b5, b6, -⟩, ⟨c1, c2, c3, c4, c5, -⟩,
    ⟨d1, d2, d3, d4, -⟩, -⟩ := hK
  exact ⟨⟨a1, a2, a3, a4, a5, a6, a7⟩, ⟨b1, b2, b3, b4, b5, b6⟩, ⟨c1, c2, c3, c4, c5⟩,
    ⟨d1, d2, d3, d4⟩⟩

/-- C9: with a joystick and masks that share no bit, the commit threshold is
3200; an axis value of exactly 3200 or -3200 leaves both direction bits of the
axis clear; 3201 sets RIGHT (axis 0) or DOWN (axis 1) and -3201 sets LEFT
(axis 0) or UP (axis 1); after an axis event of any value at most one of the two
bits of the axis is set, and the bits of the other axis and the action bits read
as before; an event for any further axis changes nothing. -/
theorem axis_dead_zone (K : InpBits) (s : System_CTR) (hK : K.Disjoint)
    (hj : s._joystick = true) :
    kJoystickCommitValue = 3200 ∧
      (padAfter K s [Event.joyAxisMotion 0 3200] &&& K.right = 0 ∧
        padAfter K s [Event.joyAxisMotion 0 3200] &&& K.left = 0) ∧
      (padAfter K s [Event.joyAxisMotion 0 (-3200)] &&& K.right = 0 ∧
        padAfter K s [Event.joyAxisMotion 0 (-3200)] &&& K.left = 0) ∧
      (padAfter K s [Event.joyAxisMotion 1 3200] &&& K.down = 0 ∧
        padAfter K s [Event.joyAxisMotion 1 3200] &&& K.up = 0) ∧
      (padAfter K s [Event.joyAxisMotion 1 (-3200)] &&& K.down = 0 ∧
        padAfter K s [Event.joyAxisMotion 1 (-3200)] &&& K.up = 0) ∧
      padAfter K s [Event.joyAxisMotion 0 3201] &&& K.right = K.right ∧
      padAfter K s [Event.joyAxisMotion 0 (-3201)] &&& K.left = K.left ∧
      padAfter K s [Event.joyAxisMotion 1 3201] &&& K.down = K.down ∧
      padAfter K s [Event.joyAxisMotion 1 (-3201)] &&& K.up = K.up ∧
      (∀ v : Int,
        (padAfter K s [Event.joyAxisMotion 0 v] &&& K.right = 0 ∨
          padAfter K s [Event.joyAxisMotion 0 v] &&& K.left = 0) ∧
        ∀ b ∈ [K.up, K.down, K.run, K.jump, K.shoot, K.esc],
          padAfter K s [Event.joyAxisMotion 0 v] &&& b = s.pad.mask &&& b) ∧
      (∀ v : Int,
        (padAfter K s [Event.joyAxisMotion 1 v] &&& K.down = 0 ∨
          padAfter K s [Event.joyAxisMotion 1 v] &&& K.up = 0) ∧
        ∀ b ∈ [K.right, K.left, K.run, K.jump, K.shoot, K.esc],
          padAfter K s [Event.joyAxisMotion 1 v] &&& b = s.pad.mask &&& b) ∧
      (∀ (axis : Nat) (v : Int), 2 ≤ axis →
        padAfter K s [Event.joyAxisMotion axis v] = s.pad.mask) := by
  obtain ⟨⟨a1, a2, a3, a4, a5, a6, a7⟩, ⟨b1, b2, b3, b4, b5, b6⟩, ⟨c1, c2, c3, c4, c5⟩,
    ⟨d1, d2, d3, d4⟩⟩ := hK.pairs
  have a1s : K.right &&& K.up = 0 := by rw [Nat.land_comm]; exact a1
  have a2s : K.down &&& K.up = 0 := by rw [Nat.land_comm]; exact a2
  have a3s : K.left &&& K.up = 0 := by rw [Nat.land_comm]; exact a3
  have b1s : K.down &&& K.right = 0 := by rw [Nat.land_comm]; exact b1
  have c1s : K.left &&& K.down = 0 := by rw [Nat.land_comm]; exact c1
  have e0 : ∀ v, padAfter K s [Event.joyAxisMotion 0 v]
      = (if v > kJoystickCommitValue then andNot s.pad.mask (K.right ||| K.left) ||| K.right
        else if v < -kJoystickCommitValue then andNot s.pad.mask (K.right ||| K.left) ||| K.left
        else andNot s.pad.mask (K.right ||| K.left)) := fun v => padAfter_axis K s 0 v hj
  have e1 : ∀ v, padAfter K s [Event.joyAxisMotion 1 v]
      = (if v > kJoystickCommitValue then andNot s.pad.mask (K.up ||| K.down) ||| K.down
        else if v < -kJoystickCommitValue then andNot s.pad.mask (K.up ||| K.down) ||| K.up
        else andNot s.pad.mask (K.up ||| K.down)) := fun v => padAfter_axis K s 1 v hj
  have n1 : ¬ ((3200 : Int) > kJoystickCommitValue) := by decide
  have n2 : ¬ ((3200 : Int) < -kJoystickCommitValue) := by decide
  have n3 : ¬ ((-3200 : Int) > kJoystickCommitValue) := by decide
  have n4 : ¬ ((-3200 : Int) < -kJoystickCommitValue) := by decide
  have p1 : (3201 : Int) > kJoystickCommitValue := by decide
  have p2 : ¬ ((-3201 : Int) > kJoystickCommitValue) := by decide
  have p3 : (-3201 : Int) < -kJoystickCommitValue := by decide
  refine ⟨rfl, ?_, ?_, ?_, ?_, ?_, ?_, ?_, ?_, ?_, ?_, ?_⟩
  · rw [e0, if_neg n1, if_neg n2]
    exact ⟨andNot_or_and_left _ _ _, andNot_or_and_right _ _ _⟩
  · rw [e0, if_neg n3, if_neg n4]
    exact ⟨andNot_or_and_left _ _ _, andNot_or_and_right _ _ _⟩
  · rw [e1, if_neg n1, if_neg n2]
    exact ⟨andNot_or_and_right _ _ _, andNot_or_and_left _ _ _⟩
  · rw [e1, if_neg n3, if_neg n4]
    exact ⟨andNot_or_and_right _ _ _, andNot_or_and_left _ _ _⟩
  · rw [e0, if_pos p1]
    exact or_and_self _ _
  · rw [e0, if_neg p2, if_pos p3]
    exact or_and_self _ _
  · rw [e1, if_pos p1]
    exact or_and_self _ _
  · rw [e1, if_neg p2, if_pos p3]
    exact or_and_self _ _
  · intro v
    rw [e0]
    obtain ⟨hone, hframe⟩ := axis_pair s.pad.mask K.right K.left v b2
    refine ⟨hone, ?_⟩
    intro b hb
    simp only [List.mem_cons, List.mem_singleton, List.not_mem_nil, or_false] at hb
    rcases hb with rfl | rfl | rfl | rfl | rfl | rfl
    · exact hframe _ a1s a3s
    · exact hframe _ b1 c1s
    · exact hframe _ b3 d1
    · exact hframe _ b4 d2
    · exact hframe _ b5 d3
    · exact hframe _ b6 d4
  · intro v
    rw [e1]
    obtain ⟨hone, hframe⟩ := axis_pair s.pad.mask K.down K.up v a2s
    have hcomm : andNot s.pad.mask (K.up ||| K.down) = andNot s.pad.mask (K.down ||| K.up) := by
      rw [Nat.lor_comm]
    rw [hcomm]
    refine ⟨hone, ?_⟩
    intro b hb
    simp only [List.mem_cons, List.mem_singleton, List.not_mem_nil, or_false] at hb
    rcases hb with rfl | rfl | rfl | rfl | rfl | rfl
    · exact hframe _ b1s a1
    · exact hframe _ c1 a3
    · exact hframe _ c2 a4
    · exact hframe _ c3 a5
    · exact hframe _ c4 a6
    · exact hframe _ c5 a7
  · intro axis v hax
    rw [padAfter_axis K s axis v hj]
    match axis, hax with
    | n + 2, _ => rfl

/-! ## Theorems: key mappings -/

/-- The search loop finds nothing when no entry in its range has the key. -/
theorem replaceKeyMapping_none (key : Int) (mask : Nat) (tbl : Nat → KeyMapping) :
    ∀ (n i : Nat), (∀ j, i ≤ j → j < i + n → (tbl j).keyCode ≠ key) →
      replaceKeyMapping key mask n i tbl = none := by
  intro n
  induction n with
  | zero => intro i _; rfl
  | succ n ih =>
    intro i h
    simp only [replaceKeyMapping, if_neg (h i le_rfl (by omega))]
    exact ih (i + 1) (fun j h1 h2 => h j (by omega) (by omega))

/-- The search loop replaces the mask of the first entry with the key. -/
theorem replaceKeyMapping_some (key : Int) (mask : Nat) (tbl : Nat → KeyMapping) :
    ∀ (n i p : Nat), i ≤ p → p < i + n → (tbl p).keyCode = key →
      (∀ j, i ≤ j → j < p → (tbl j).keyCode ≠ key) →
      replaceKeyMapping key mask n i tbl
        = some (fun a => if a = p then { tbl p with mask := (mask : Int) } else tbl a) := by
  intro n
  induction n with
  | zero => intro i p h1 h2; omega
  | succ n ih =>
    intro i p h1 h2 hp hfirst
    rcases Nat.eq_or_lt_of_le h1 with h | h
    · subst h
      simp only [replaceKeyMapping, if_pos hp]
    · simp only [replaceKeyMapping, if_neg (hfirst i le_rfl h)]
      exact ih (i + 1) p h (by omega) hp (fun j h3 h4 => hfirst j (by omega) h4)

/-- C10 (counterexample): on a full table that holds key code 3 at index 3 with
mask 0, `addKeyMapping(3, 1)` keeps the count at 20 but leaves that entry with
mask 0, and no entry of the table carries key 3 with mask 1. -/
theorem addKeyMapping_full_table_no_replace :
    fullKeyTable._keyMappingsCount = 20 ∧
      (fullKeyTable._keyMappings 3).keyCode = 3 ∧
      (addKeyMapping fullKeyTable 3 1)._keyMappingsCount = 20 ∧
      ((addKeyMapping fullKeyTable 3 1)._keyMappings 3) = ⟨3, 0⟩ ∧
      ∀ i, i < 20 → (addKeyMapping fullKeyTable 3 1)._keyMappings i ≠ ⟨3, 1⟩ := by
  decide

/-- C10 (amended): for a table of `0 ≤ count < 20` entries, `addKeyMapping(k, m)`
on a key whose first entry is at index `p` keeps the count and makes that entry
`{k, m}`, leaving every other entry as it was; on a key with no entry it writes
`{k, m}` at index `count` and adds one to the count; and for every table of at
most 20 entries the count after the call is at most 20. -/
theorem addKeyMapping_spec (s : System_CTR) (k : Int) (m : Nat)
    (h0 : 0 ≤ s._keyMappingsCount) (h20 : s._keyMappingsCount ≤ 20) :
    (s._keyMappingsCount < 20 → ∀ p : Nat, (p : Int) < s._keyMappingsCount →
        (s._keyMappings p).keyCode = k → (∀ j, j < p → (s._keyMappings j).keyCode ≠ k) →
        (addKeyMapping s k m)._keyMappingsCount = s._keyMappingsCount ∧
        (addKeyMapping s k m)._keyMappings p = ⟨k, (m : Int)⟩ ∧
        ∀ a, a ≠ p → (addKeyMapping s k m)._keyMappings a = s._keyMappings a) ∧
      (s._keyMappingsCount < 20 →
        (∀ j : Nat, (j : Int) < s._keyMappingsCount → (s._keyMappings j).keyCode ≠ k) →
        (addKeyMapping s k m)._keyMappingsCount = s._keyMappingsCount + 1 ∧
        (addKeyMapping s k m)._keyMappings s._keyMappingsCount.toNat = ⟨k, (m : Int)⟩ ∧
        ∀ a, a ≠ s._keyMappingsCount.toNat →
          (addKeyMapping s k m)._keyMappings a = s._keyMappings a) ∧
      (addKeyMapping s k m)._keyMappingsCount ≤ 20 := by
  refine ⟨?_, ?_, ?_⟩
  · intro hlt p hp hkey hfirst
    have hfound := replaceKeyMapping_some k m s._keyMappings s._keyMappingsCount.toNat 0 p
      (Nat.zero_le _) (by omega) hkey (fun j _ h => hfirst j h)
    have hguard : s._keyMappingsCount < kKeyMappingsSize := hlt
    simp only [addKeyMapping, if_pos hguard, hfound]
    refine ⟨trivial, ?_, ?_⟩
    · rw [if_pos trivial, hkey]
    · intro a ha
      rw [if_neg ha]
  · intro hlt habsent
    have hnone := replaceKeyMapping_none k m s._keyMappings s._keyMappingsCount.toNat 0
      (fun j _ h => habsent j (by omega))
    have hguard : s._keyMappingsCount < kKeyMappingsSize := hlt
    simp only [addKeyMapping, if_pos hguard, hnone]
    refine ⟨trivial, ?_, ?_⟩
    · rw [if_pos trivial]
    · intro a ha
      rw [if_neg ha]
  · unfold addKeyMapping
    by_cases hguard : s._keyMappingsCount < kKeyMappingsSize
    · have hlt : s._keyMappingsCount < 20 := hguard
      rw [if_pos hguard]
      cases replaceKeyMapping k m s._keyMappingsCount.toNat 0 s._keyMappings with
      | some tbl => exact h20
      | none =>
        simp only [if_pos hguard]
        omega
    · rw [if_neg hguard]
      exact h20

/-! ## Instances at concrete inputs -/

/-- C1 at a concrete input: a 16×8 block copied to (10, 20) of the 256×192 screen
from a source of pitch 32. -/
theorem copyRect_readback_witness :
    ((0 : Int) ≤ 10 ∧ (0 : Int) ≤ 20 ∧ (0 : Int) ≤ 16 ∧ (0 : Int) ≤ 8 ∧
        (10 : Int) + 16 ≤ sampleSystem._screenW ∧ (20 : Int) + 8 ≤ sampleSystem._screenH ∧
        (16 : Int) ≤ 32) ∧
      ∃ s1, copyRect sampleSystem 10 20 16 8 sampleBytes 32 = Except.ok s1 ∧
        ∀ i j : Int, 0 ≤ i → i < 16 → 0 ≤ j → j < 8 →
          s1._offscreenLut ((20 + j) * sampleSystem._screenW + (10 + i))
            = sampleBytes (j * 32 + i) :=
  ⟨by decide, copyRect_readback sampleSystem 10 20 16 8 sampleBytes 32 (by decide) (by decide)
    (by decide) (by decide) (by decide) (by decide) (by decide)⟩

/-- C2 at a concrete input: ten full rows copied to row 5 of the 256×192 screen. -/
theorem copyRect_fast_eq_rows_witness :
    ((0 : Int) ≤ 0 ∧ (0 : Int) ≤ 5 ∧ (0 : Int) ≤ 256 ∧ (0 : Int) ≤ 10 ∧
        (0 : Int) + 256 ≤ sampleSystem._screenW ∧ (5 : Int) + 10 ≤ sampleSystem._screenH ∧
        (256 : Int) = 256 ∧ (256 : Int) = sampleSystem._screenW) ∧
      (copyRectFast sampleSystem 0 5 256 10 sampleBytes
          = copyRectRows sampleSystem 0 5 256 10 sampleBytes 256 ∧
        copyRect sampleSystem 0 5 256 10 sampleBytes 256
          = copyRectFast sampleSystem 0 5 256 10 sampleBytes ∧
        ∃ s1, copyRectFast sampleSystem 0 5 256 10 sampleBytes = Except.ok s1) :=
  ⟨by decide, copyRect_fast_eq_rows sampleSystem 0 5 256 10 sampleBytes 256 (by decide)
    (by decide) (by decide) (by decide) (by decide) (by decide) (by decide) (by decide)⟩

/-- C4 at the scenario of the specification: colour index 5 on the 256×192 screen. -/
theorem fillRect_updateScreen_witness :
    ((5 : Nat) < 256 ∧ 0 ≤ sampleSystem._screenW ∧ 0 ≤ sampleSystem._screenH ∧
        sampleSystem._scalerProc = none ∧ sampleSystem._texture.pitch % 4 = 0) ∧
      ∃ s1 s2, fillRect sampleSystem 0 0 sampleSystem._screenW sampleSystem._screenH 5
          = Except.ok s1 ∧
        updateScreen sampleSDL s1 true = Except.ok s2 ∧
        (∀ i : Int, 0 ≤ i → i < sampleSystem._screenW * sampleSystem._screenH →
          resolveFrame s1 i = sampleSystem._pal 5) ∧
        (sampleSystem._widescreenTexture = none ∨ true = false →
          s2._texture.pixels = resolveFrame s1 ∧
          s2.screen = sampleSDL.blitSurface s2._texture sampleSystem.screen) :=
  ⟨⟨by decide, by decide, by decide, rfl, by decide⟩,
    fillRect_updateScreen sampleSDL sampleSystem 5 true (by decide) (by decide) (by decide) rfl
      (by decide)⟩

/-- C5 at a concrete input: all 256 entries set from the bytes `k mod 256`. -/
theorem setPalette_depth8_identity_witness :
    ((256 : Int) ≤ 256 ∧ sampleSystem._gammaLut = System_CTR.ctor._gammaLut ∧
        (∀ k, sampleBytes k < 256) ∧ sampleSystem._backgroundTexture = none ∧
        sampleSystem._scaler.palette = none) ∧
      ∃ s1, setPalette sampleSDL sampleSystem sampleBytes 256 8 = Except.ok s1 ∧
        ∀ i : Nat, (i : Int) < 256 →
          s1._pal i = sampleSDL.mapRGB sampleSystem.screen.format (sampleBytes (3 * i))
            (sampleBytes (3 * i + 1)) (sampleBytes (3 * i + 2)) :=
  ⟨⟨by decide, init_gammaLut _ _ _ _ _ _ _, fun _ => Nat.mod_lt _ (by decide), rfl, rfl⟩,
    setPalette_depth8_identity sampleSDL sampleSystem sampleBytes 256 (by decide)
      (init_gammaLut _ _ _ _ _ _ _) (fun _ => Nat.mod_lt _ (by decide)) rfl rfl⟩

/-- C8 at a concrete input: button 3 (X, shoot and run) from the state after `init`. -/
theorem processEvents_button_edge_witness :
    (sampleSystem._joystick = true ∧ 3 ∈ [1, 2, 3, 4, 7] ∧
        sampleSystem.pad.mask &&& buttonBits sampleInpBits 3 = 0 ∧
        sampleSystem.inp.mask &&& buttonBits sampleInpBits 3 = 0) ∧
      (processEvents sampleInpBits sampleSystem [Event.joyButtonDown 3 SDL_PRESSED]).inp.mask
          &&& buttonBits sampleInpBits 3 = buttonBits sampleInpBits 3 ∧
      (processEvents sampleInpBits
          (processEvents sampleInpBits sampleSystem [Event.joyButtonDown 3 SDL_PRESSED])
          [Event.joyButtonUp 3 SDL_RELEASED]).inp.mask &&& buttonBits sampleInpBits 3 = 0 :=
  ⟨by decide,
    (processEvents_button_edge sampleInpBits sampleSystem 3 (by decide) (by decide) (by decide)
      (by decide)).1,
    (processEvents_button_edge sampleInpBits sampleSystem 3 (by decide) (by decide) (by decide)
      (by decide)).2.2.1⟩

/-- C9 at a concrete input: the state after `init` with eight distinct bits. -/
theorem axis_dead_zone_witness :
    (sampleInpBits.Disjoint ∧ sampleSystem._joystick = true) ∧
      (padAfter sampleInpBits sampleSystem [Event.joyAxisMotion 0 3200] &&& sampleInpBits.right = 0 ∧
        padAfter sampleInpBits sampleSystem [Event.joyAxisMotion 0 3200] &&& sampleInpBits.left = 0) ∧
      padAfter sampleInpBits sampleSystem [Event.joyAxisMotion 0 3201] &&& sampleInpBits.right
        = sampleInpBits.right :=
  ⟨by decide,
    (axis_dead_zone sampleInpBits sampleSystem (by decide) (by decide)).2.1,
    (axis_dead_zone sampleInpBits sampleSystem (by decide) (by decide)).2.2.2.2.2.1⟩

/-- C10 (amended) at a concrete input: replacing the mask of key code 27, the
second of two entries. -/
theorem addKeyMapping_spec_witness :
    ((0 : Int) ≤ sampleKeyTable._keyMappingsCount ∧ sampleKeyTable._keyMappingsCount ≤ 20) ∧
      ((addKeyMapping sampleKeyTable 27 64)._keyMappingsCount = sampleKeyTable._keyMappingsCount ∧
        (addKeyMapping sampleKeyTable 27 64)._keyMappings 1 = ⟨27, 64⟩ ∧
        ∀ a, a ≠ 1 →
          (addKeyMapping sampleKeyTable 27 64)._keyMappings a = sampleKeyTable._keyMappings a) ∧
      (addKeyMapping sampleKeyTable 27 64)._keyMappingsCount ≤ 20 :=
  ⟨by decide,
    (addKeyMapping_spec sampleKeyTable 27 64 (by decide) (by decide)).1 (by decide) 1 (by decide)
      (by decide) (by decide),
    (addKeyMapping_spec sampleKeyTable 27 64 (by decide) (by decide)).2.2⟩

/-! ## Theorems: hat motion, missing joystick, one-shot flags -/

/-- A conditional set of bits leaves a disjoint mask as it was. -/
theorem condOr_and_disjoint (c : Prop) [Decidable c] (m p b : Nat) (h : p &&& b = 0) :
    (if c then m ||| p else m) &&& b = m &&& b := by
  split_ifs
  · exact or_and_disjoint m p b h
  · rfl

/-- A conditional set of bits reads as set when the condition holds. -/
theorem condOr_and_self (c : Prop) [Decidable c] (m p : Nat) (h : m &&& p = 0) :
    (if c then m ||| p else m) &&& p = if c then p else 0 := by
  split_ifs
  · exact or_and_self m p
  · exact h

/-- Clearing a union of masks clears every mask that lies within the union. -/
theorem andNot_and_of_subset (m d q : Nat) (h : q &&& d = q) : andNot m d &&& q = 0 := by
  apply Nat.eq_of_testBit_eq
  intro i
  have hq : (q.testBit i && d.testBit i) = q.testBit i := by rw [← Nat.testBit_and, h]
  simp only [Nat.testBit_and, andNot_testBit, Nat.zero_testBit]
  revert hq
  cases m.testBit i <;> cases d.testBit i <;> cases q.testBit i <;> simp

/-- Each of four masks lies within their union. -/
theorem subset_union4 (a b c d : Nat) :
    a &&& (a ||| b ||| c ||| d) = a ∧ b &&& (a ||| b ||| c ||| d) = b ∧
      c &&& (a ||| b ||| c ||| d) = c ∧ d &&& (a ||| b ||| c ||| d) = d := by
  refine ⟨?_, ?_, ?_, ?_⟩ <;>
  · apply Nat.eq_of_testBit_eq
    intro i
    simp only [Nat.testBit_and, Nat.testBit_or]
    cases a.testBit i <;> cases b.testBit i <;> cases c.testBit i <;> cases d.testBit i <;> rfl

/-- With a joystick, a poll that drains one hat event rewrites `pad.mask` by
`hatMotion`. -/
theorem padAfter_hat (K : InpBits) (s : System_CTR) (value : Nat) (hj : s._joystick = true) :
    padAfter K s [Event.joyHatMotion value] = hatMotion K s.pad.mask value := by
  simp only [padAfter, processEvents, updateKeys, pollEvents, handleEvent, hj, if_true]

/-- Hat update on masks: each direction bit is set exactly when the hat value
flags it, and a mask disjoint from the four directions reads as before. -/
theorem hatMotion_spec (K : InpBits) (hK : K.Disjoint) (m value : Nat) :
    hatMotion K m value &&& K.up = (if value &&& SDL_HAT_UP ≠ 0 then K.up else 0) ∧
      hatMotion K m value &&& K.down = (if value &&& SDL_HAT_DOWN ≠ 0 then K.down else 0) ∧
      hatMotion K m value &&& K.left = (if value &&& SDL_HAT_LEFT ≠ 0 then K.left else 0) ∧
      hatMotion K m value &&& K.right = (if value &&& SDL_HAT_RIGHT ≠ 0 then K.right else 0) ∧
      ∀ b, K.up &&& b = 0 → K.down &&& b = 0 → K.left &&& b = 0 → K.right &&& b = 0 →
        hatMotion K m value &&& b = m &&& b := by
  obtain ⟨⟨a1, a2, a3, -⟩, ⟨b1, b2, -⟩, ⟨c1, -⟩, -⟩ := hK.pairs
  have a1s : K.right &&& K.up = 0 := by rw [Nat.land_comm]; exact a1
  have a2s : K.down &&& K.up = 0 := by rw [Nat.land_comm]; exact a2
  have a3s : K.left &&& K.up = 0 := by rw [Nat.land_comm]; exact a3
  have b1s : K.down &&& K.right = 0 := by rw [Nat.land_comm]; exact b1
  have b2s : K.left &&& K.right = 0 := by rw [Nat.land_comm]; exact b2
  have c1s : K.left &&& K.down = 0 := by rw [Nat.land_comm]; exact c1
  obtain ⟨s1, s2, s3, s4⟩ := subset_union4 K.up K.down K.left K.right
  have z1 := andNot_and_of_subset m _ _ s1
  have z2 := andNot_and_of_subset m _ _ s2
  have z3 := andNot_and_of_subset m _ _ s3
  have z4 := andNot_and_of_subset m _ _ s4
  unfold hatMotion
  simp only []
  refine ⟨?_, ?_, ?_, ?_, ?_⟩
  · rw [condOr_and_disjoint _ _ _ _ a1s, condOr_and_disjoint _ _ _ _ a3s,
      condOr_and_disjoint _ _ _ _ a2s, condOr_and_self _ _ _ z1]
  · rw [condOr_and_disjoint _ _ _ _ b1, condOr_and_disjoint _ _ _ _ c1s,
      condOr_and_self _ _ _ (by rw [condOr_and_disjoint _ _ _ _ a2]; exact z2)]
  · rw [condOr_and_disjoint _ _ _ _ b2,
      condOr_and_self _ _ _ (by
        rw [condOr_and_disjoint _ _ _ _ c1, condOr_and_disjoint _ _ _ _ a3]; exact z3)]
  · rw [condOr_and_self _ _ _ (by
        rw [condOr_and_disjoint _ _ _ _ b2s, condOr_and_disjoint _ _ _ _ b1s,
          condOr_and_disjoint _ _ _ _ a1]; exact z4)]
  · intro b hu hd hl hr
    rw [condOr_and_disjoint _ _ _ _ hr, condOr_and_disjoint _ _ _ _ hl,
      condOr_and_disjoint _ _ _ _ hd, condOr_and_disjoint _ _ _ _ hu]
    exact andNot_and_disjoint m _ b (or_disjoint (or_disjoint (or_disjoint hu hd) hl) hr)

/-- C14: with a joystick present and direction masks that share no bit, after a
hat event each of the four direction bits of `pad.mask` is set exactly when the
hat value flags that direction, whatever `pad.mask` was before, and every mask
disjoint from the four directions (run, jump, shoot and escape among them)
reads as before. -/
theorem hat_motion_overwrite (K : InpBits) (s : System_CTR) (value : Nat) (hK : K.Disjoint)
    (hj : s._joystick = true) :
    padAfter K s [Event.joyHatMotion value] &&& K.up
        = (if value &&& SDL_HAT_UP ≠ 0 then K.up else 0) ∧
      padAfter K s [Event.joyHatMotion value] &&& K.down
        = (if value &&& SDL_HAT_DOWN ≠ 0 then K.down else 0) ∧
      padAfter K s [Event.joyHatMotion value] &&& K.left
        = (if value &&& SDL_HAT_LEFT ≠ 0 then K.left else 0) ∧
      padAfter K s [Event.joyHatMotion value] &&& K.right
        = (if value &&& SDL_HAT_RIGHT ≠ 0 then K.right else 0) ∧
      (∀ b, K.up &&& b = 0 → K.down &&& b = 0 → K.left &&& b = 0 → K.right &&& b = 0 →
        padAfter K s [Event.joyHatMotion value] &&& b = s.pad.mask &&& b) ∧
      ∀ b ∈ [K.run, K.jump, K.shoot, K.esc],
        padAfter K s [Event.joyHatMotion value] &&& b = s.pad.mask &&& b := by
  obtain ⟨⟨-, -, -, a4, a5, a6, a7⟩, ⟨-, -, b3, b4, b5, b6⟩, ⟨-, c2, c3, c4, c5⟩,
    ⟨d1, d2, d3, d4⟩⟩ := hK.pairs
  rw [padAfter_hat K s value hj]
  obtain ⟨h1, h2, h3, h4, h5⟩ := hatMotion_spec K hK s.pad.mask value
  refine ⟨h1, h2, h3, h4, h5, ?_⟩
  intro b hb
  simp only [List.mem_cons, List.mem_singleton, List.not_mem_nil, or_false] at hb
  rcases hb with rfl | rfl | rfl | rfl
  · exact h5 _ a4 c2 d1 b3
  · exact h5 _ a5 c3 d2 b4
  · exact h5 _ a6 c4 d3 b5
  · exact h5 _ a7 c5 d4 b6

/-- Without a joystick no event changes `pad` or the joystick handle. -/
theorem handleEvent_no_joystick (K : InpBits) (s : System_CTR) (ev : Event)
    (hj : s._joystick = false) :
    (handleEvent K s ev).pad = s.pad ∧ (handleEvent K s ev)._joystick = false := by
  cases ev <;> simp only [handleEvent] <;> (try split_ifs) <;> simp_all

/-- Without a joystick the polling loop leaves `pad` and the joystick handle as
they were. -/
theorem pollEvents_no_joystick (K : InpBits) :
    ∀ (events : List Event) (s : System_CTR), s._joystick = false →
      (pollEvents K s events).pad = s.pad ∧ (pollEvents K s events)._joystick = false := by
  intro events
  induction events with
  | nil => intro s hj; exact ⟨rfl, hj⟩
  | cons ev rest ih =>
    intro s hj
    obtain ⟨h1, h2⟩ := handleEvent_no_joystick K s ev hj
    obtain ⟨h3, h4⟩ := ih (handleEvent K s ev) h2
    simp only [pollEvents]
    exact ⟨h3.trans h1, h4⟩

/-- Without a joystick a poll leaves `pad.mask` and the handle as they were and
copies `pad.mask` to `inp.mask`. -/
theorem processEvents_no_joystick (K : InpBits) (s : System_CTR) (events : List Event)
    (hj : s._joystick = false) :
    (processEvents K s events).pad.mask = s.pad.mask ∧
      (processEvents K s events)._joystick = false ∧
      (processEvents K s events).inp.mask = s.pad.mask := by
  obtain ⟨h1, h2⟩ := pollEvents_no_joystick K events
    { s with pad := { s.pad with prevMask := s.pad.mask } } hj
  have hpad : (processEvents K s events).pad.mask = s.pad.mask := by
    simp only [processEvents, updateKeys]
    rw [h1]
  refine ⟨hpad, ?_, ?_⟩
  · simp only [processEvents, updateKeys]
    exact h2
  · rw [(processEvents_snapshot K s events).2, hpad]

/-- Without a joystick and with `pad.mask` zero, `inp.mask` is zero after any
number of polls. -/
theorem processEventsMany_no_joystick (K : InpBits) :
    ∀ (frames : List (List Event)) (s : System_CTR), s._joystick = false → s.pad.mask = 0 →
      s.inp.mask = 0 →
      (processEventsMany K s frames).inp.mask = 0 ∧
        (processEventsMany K s frames).pad.mask = 0 := by
  intro frames
  induction frames with
  | nil => intro s _ hp hi; exact ⟨hi, hp⟩
  | cons events rest ih =>
    intro s hj hp hi
    obtain ⟨h1, h2, h3⟩ := processEvents_no_joystick K s events hj
    simp only [processEventsMany]
    exact ih _ h2 (h1.trans hp) (h3.trans hp)

/-- The method `init` zeroes `inp` and `pad`. -/
theorem init_zeroes_input (sdl : SDL) (s : System_CTR) (w h : Int)
    (fullscreen widescreen yuv : Bool) :
    (init sdl s w h fullscreen widescreen yuv).inp = PlayerInput.zero ∧
      (init sdl s w h fullscreen widescreen yuv).pad = PlayerInput.zero := by
  unfold init prepareScaledGfx
  simp only []
  split_ifs <;> exact ⟨rfl, rfl⟩

/-- C15: with a null joystick handle, a poll over any events (hat, axis and
button events among them) leaves `pad.mask` unchanged and the handle null;
`init` zeroes `inp` and `pad` and leaves the handle null when SDL reports no
joystick, so from a state with both masks zero (the state `init` leaves)
`inp.mask` and `pad.mask` are 0 after every sequence of polls. -/
theorem no_joystick_stays_neutral (K : InpBits) (s : System_CTR) (hj : s._joystick = false) :
    (∀ events : List Event,
        (processEvents K s events).pad.mask = s.pad.mask ∧
        (processEvents K s events)._joystick = false) ∧
      (∀ (sdl : SDL) (t : System_CTR) (w h : Int) (fullscreen widescreen yuv : Bool),
        (init sdl t w h fullscreen widescreen yuv).inp.mask = 0 ∧
        (init sdl t w h fullscreen widescreen yuv).pad.mask = 0) ∧
      (∀ (sdl : SDL) (t : System_CTR) (w h : Int) (fullscreen widescreen yuv : Bool),
        sdl.numJoysticks ≤ 0 → (init sdl t w h fullscreen widescreen yuv)._joystick = false) ∧
      (s.pad.mask = 0 → s.inp.mask = 0 → ∀ frames : List (List Event),
        (processEventsMany K s frames).inp.mask = 0 ∧
        (processEventsMany K s frames).pad.mask = 0) := by
  refine ⟨fun events => ?_, fun sdl t w h f1 f2 f3 => ?_, fun sdl t w h f1 f2 f3 hn => ?_,
    fun hp hi frames => ?_⟩
  · obtain ⟨h1, h2, -⟩ := processEvents_no_joystick K s events hj
    exact ⟨h1, h2⟩
  · obtain ⟨h1, h2⟩ := init_zeroes_input sdl t w h f1 f2 f3
    rw [h1, h2]
    exact ⟨rfl, rfl⟩
  · have hn2 : ¬ sdl.numJoysticks > 0 := by omega
    unfold init
    simp only [if_neg hn2]
  · exact processEventsMany_no_joystick K frames s hj hp hi

/-- No event clears a one-shot flag. -/
theorem handleEvent_flags (K : InpBits) (s : System_CTR) (ev : Event) :
    (s.inp.screenshot = true → (handleEvent K s ev).inp.screenshot = true) ∧
      (s.inp.quit = true → (handleEvent K s ev).inp.quit = true) := by
  cases ev <;> simp only [handleEvent] <;> (try split_ifs) <;> simp

/-- A flag that is set stays set through the polling loop. -/
theorem pollEvents_flags (K : InpBits) :
    ∀ (events : List Event) (s : System_CTR),
      (s.inp.screenshot = true → (pollEvents K s events).inp.screenshot = true) ∧
      (s.inp.quit = true → (pollEvents K s events).inp.quit = true) := by
  intro events
  induction events with
  | nil => intro s; exact ⟨id, id⟩
  | cons ev rest ih =>
    intro s
    simp only [pollEvents]
    exact ⟨fun h => (ih _).1 ((handleEvent_flags K s ev).1 h),
      fun h => (ih _).2 ((handleEvent_flags K s ev).2 h)⟩

/-- The polling loop sets the flag of a key-up of `SDLK_s` and of a quit event
it drains. -/
theorem pollEvents_sets_flags (K : InpBits) :
    ∀ (events : List Event) (s : System_CTR),
      (Event.keyUp SDLK_s ∈ events → (pollEvents K s events).inp.screenshot = true) ∧
      (Event.quit ∈ events → (pollEvents K s events).inp.quit = true) := by
  intro events
  induction events with
  | nil => intro s; exact ⟨fun h => absurd h (List.not_mem_nil _), fun h => absurd h (List.not_mem_nil _)⟩
  | cons ev rest ih =>
    intro s
    simp only [pollEvents, List.mem_cons]
    constructor
    · rintro (h | h)
      · subst h
        exact (pollEvents_flags K rest _).1 (by simp [handleEvent])
      · exact (ih _).1 h
    · rintro (h | h)
      · subst h
        exact (pollEvents_flags K rest _).2 (by simp [handleEvent])
      · exact (ih _).2 h

/-- The last step of a poll, `updateKeys`, and its first step do not touch the flags. -/
theorem processEvents_flags_eq (K : InpBits) (s : System_CTR) (events : List Event) :
    (processEvents K s events).inp.screenshot
        = (pollEvents K { s with pad := { s.pad with prevMask := s.pad.mask } } events).inp.screenshot ∧
      (processEvents K s events).inp.quit
        = (pollEvents K { s with pad := { s.pad with prevMask := s.pad.mask } } events).inp.quit := by
  simp only [processEvents, updateKeys, and_self]

/-- C17: for every state and every event sequence, a poll keeps `inp.screenshot`
set when it was set and keeps `inp.quit` set when it was set; a key-up of
`SDLK_s` among the events sets `inp.screenshot` and a quit event among them sets
`inp.quit`. -/
theorem processEvents_flags_sticky (K : InpBits) (s : System_CTR) (events : List Event) :
    (s.inp.screenshot = true → (processEvents K s events).inp.screenshot = true) ∧
      (s.inp.quit = true → (processEvents K s events).inp.quit = true) ∧
      (Event.keyUp SDLK_s ∈ events → (processEvents K s events).inp.screenshot = true) ∧
      (Event.quit ∈ events → (processEvents K s events).inp.quit = true) := by
  obtain ⟨e1, e2⟩ := processEvents_flags_eq K s events
  rw [e1, e2]
  have h1 := pollEvents_flags K events { s with pad := { s.pad with prevMask := s.pad.mask } }
  have h2 := pollEvents_sets_flags K events
    { s with pad := { s.pad with prevMask := s.pad.mask } }
  exact ⟨h1.1, h1.2, h2.1, h2.2⟩

/-! ## Theorems: audio callback -/

/-- C18: `setAudioCallback(cb)` makes `cb` the active callback and returns the one
that was active; calling it again with the returned callback returns `cb` and
makes the original callback active again. -/
theorem setAudioCallback_round_trip (s : System_CTR) (cb : AudioCallback) :
    (setAudioCallback s cb).1._audioCb = cb ∧
      (setAudioCallback s cb).2 = s._audioCb ∧
      (setAudioCallback (setAudioCallback s cb).1 (setAudioCallback s cb).2).2 = cb ∧
      (setAudioCallback (setAudioCallback s cb).1 (setAudioCallback s cb).2).1._audioCb
        = s._audioCb ∧
      (setAudioCallback (setAudioCallback s cb).1 (setAudioCallback s cb).2).1 = s :=
  ⟨rfl, rfl, rfl, rfl, rfl⟩

/-! ## Theorems: frame of the rectangle operations -/

/-- A byte address `row * W + col` with `0 ≤ col < W` has one row and one column. -/
theorem row_col_unique (W r1 c1 r2 c2 : Int) (h1 : 0 ≤ c1) (h2 : c1 < W) (h3 : 0 ≤ c2)
    (h4 : c2 < W) (h : r1 * W + c1 = r2 * W + c2) : r1 = r2 ∧ c1 = c2 := by
  have hW : 0 ≤ W := by omega
  rcases lt_trichotomy r1 r2 with hlt | heq | hgt
  · have := mul_le_mul_of_nonneg_right (show r1 + 1 ≤ r2 by omega) hW
    have e : (r1 + 1) * W = r1 * W + W := by ring
    omega
  · subst heq
    exact ⟨rfl, by omega⟩
  · have := mul_le_mul_of_nonneg_right (show r2 + 1 ≤ r1 by omega) hW
    have e : (r2 + 1) * W = r2 * W + W := by ring
    omega

/-- Row loop of `fillRect` inside the screen: it returns a buffer, the rows it
filled hold the colour, and every other byte keeps its value. -/
theorem fillRectLoop_spec (W H x w : Int) (color : Nat) (hx : 0 ≤ x) (hw : 0 ≤ w)
    (hxw : x + w ≤ W) :
    ∀ (n : Nat) (mem : Block) (y : Int), 0 ≤ y → y + n ≤ H →
      ∃ mem1, fillRectLoop (W * H) W x w color n mem y = Except.ok mem1 ∧
        (∀ i j : Int, 0 ≤ i → i < w → 0 ≤ j → j < n →
          mem1 ((y + j) * W + (x + i)) = color % 256) ∧
        (∀ a : Int, (∀ i j : Int, 0 ≤ i → i < w → 0 ≤ j → j < n →
          a ≠ (y + j) * W + (x + i)) → mem1 a = mem a) := by
  intro n
  induction n with
  | zero =>
    intro mem y _ _
    refine ⟨mem, rfl, ?_, fun a _ => rfl⟩
    intro i j _ _ h0 h1
    omega
  | succ n ih =>
    intro mem y hy hyn
    have hW : 0 ≤ W := by omega
    have hyW : 0 ≤ y * W := mul_nonneg hy hW
    have hrow : (y + 1) * W ≤ H * W := by
      apply mul_le_mul_of_nonneg_right _ hW
      push_cast at hyn
      omega
    have hfill := memset_ok (W * H) (y * W + x) w mem color hw (by omega) (by nlinarith)
    obtain ⟨mem2, hrun, hin, hout⟩ := ih
      (fun a => if y * W + x ≤ a ∧ a < y * W + x + w then color % 256 else mem a)
      (y + 1) (by omega) (by push_cast at hyn; omega)
    refine ⟨mem2, ?_, ?_, ?_⟩
    · simp only [fillRectLoop, hfill]
      exact hrun
    · intro i j hi0 hi1 hj0 hj1
      rcases eq_or_lt_of_le hj0 with hj | hj
      · subst hj
        rw [hout]
        · have : y * W + x ≤ (y + 0) * W + (x + i) ∧ (y + 0) * W + (x + i) < y * W + x + w := by
            constructor <;> simp <;> omega
          rw [if_pos this]
        · intro i2 j2 hi20 hi21 hj20 _ heq
          have h1 : 0 ≤ j2 * W := mul_nonneg hj20 hW
          have h2 : (y + 1 + j2) * W = y * W + W + j2 * W := by ring
          have h3 : (y + 0) * W = y * W := by ring
          omega
      · have := hin i (j - 1) hi0 hi1 (by omega) (by push_cast at hj1; omega)
        have e1 : (y + 1 + (j - 1)) * W + (x + i) = (y + j) * W + (x + i) := by ring
        rw [e1] at this
        exact this
    · intro a ha
      rw [hout]
      · have hne : ¬ (y * W + x ≤ a ∧ a < y * W + x + w) := by
          rintro ⟨h1, h2⟩
          refine ha (a - (y * W + x)) 0 (by omega) (by omega) le_rfl (by push_cast; omega) ?_
          ring
        rw [if_neg hne]
      · intro i j hi0 hi1 hj0 hj1
        have := ha i (j + 1) hi0 hi1 (by omega) (by push_cast; omega)
        have e1 : (y + (j + 1)) * W = (y + 1 + j) * W := by ring
        rw [e1] at this
        exact this

/-- A byte whose column and row are outside the rectangle is none of the bytes
of the rectangle. -/
theorem outside_rect_ne (W x y w h col row : Int) (hx : 0 ≤ x) (hxw : x + w ≤ W)
    (hc0 : 0 ≤ col) (hc1 : col < W)
    (hout : ¬ (x ≤ col ∧ col < x + w ∧ y ≤ row ∧ row < y + h)) :
    ∀ i j : Int, 0 ≤ i → i < w → 0 ≤ j → j < h → row * W + col ≠ (y + j) * W + (x + i) := by
  intro i j hi0 hi1 hj0 hj1 heq
  obtain ⟨h1, h2⟩ := row_col_unique W row col (y + j) (x + i) hc0 hc1 (by omega) (by omega) heq
  apply hout
  omega

/-- On full-width rows the run of `W * h` bytes from row `y` holds exactly the
bytes of rows `y .. y + h - 1`. -/
theorem fullWidth_range (W y h col row : Int) (hc0 : 0 ≤ col) (hc1 : col < W) :
    (y * W + 0 ≤ row * W + col ∧ row * W + col < y * W + 0 + W * h) ↔ (y ≤ row ∧ row < y + h) := by
  have hW : 0 ≤ W := by omega
  constructor
  · rintro ⟨h1, h2⟩
    constructor
    · by_contra hlt
      have := mul_le_mul_of_nonneg_right (show row + 1 ≤ y by omega) hW
      have e : (row + 1) * W = row * W + W := by ring
      omega
    · by_contra hge
      have := mul_le_mul_of_nonneg_right (show y + h ≤ row by omega) hW
      have e : (y + h) * W = y * W + W * h := by ring
      omega
  · rintro ⟨h1, h2⟩
    have := mul_le_mul_of_nonneg_right h1 hW
    have := mul_le_mul_of_nonneg_right (show row + 1 ≤ y + h by omega) hW
    have e1 : (row + 1) * W = row * W + W := by ring
    have e2 : (y + h) * W = y * W + W * h := by ring
    constructor <;> omega

/-- Frame of `copyRect`: an in-bounds call with non-negative sizes succeeds and
leaves every byte outside the rectangle as it was. -/
theorem copyRect_frame (s : System_CTR) (x y w h : Int) (buf : Block) (pitch : Int)
    (hx : 0 ≤ x) (hy : 0 ≤ y) (hw : 0 ≤ w) (hh : 0 ≤ h)
    (hxw : x + w ≤ s._screenW) (hyh : y + h ≤ s._screenH) :
    ∃ s1, copyRect s x y w h buf pitch = Except.ok s1 ∧
      ∀ col row : Int, 0 ≤ col → col < s._screenW →
        ¬ (x ≤ col ∧ col < x + w ∧ y ≤ row ∧ row < y + h) →
        s1._offscreenLut (row * s._screenW + col) = s._offscreenLut (row * s._screenW + col) := by
  unfold copyRect
  rw [if_neg (not_not.mpr ⟨hx, hxw, hy, hyh⟩)]
  by_cases hfast : w = pitch ∧ w = s._screenW
  · rw [if_pos hfast]
    obtain ⟨-, hwW⟩ := hfast
    have hx0 : x = 0 := by omega
    subst hx0
    have hyW : 0 ≤ y * s._screenW := mul_nonneg hy (by omega)
    have hcopy := memcpy_ok s.offscreenSize (y * s._screenW + 0) (w * h)
      s._offscreenLut buf (mul_nonneg hw hh) (by omega)
      (by unfold System_CTR.offscreenSize; rw [← hwW]; nlinarith)
    unfold copyRectFast
    rw [hcopy]
    refine ⟨_, rfl, ?_⟩
    intro col row hc0 hc1 hout
    have hr := fullWidth_range s._screenW y h col row hc0 hc1
    simp only []
    rw [hwW, if_neg]
    rw [hr]
    intro hin
    exact hout ⟨hc0, by omega, hin.1, hin.2⟩
  · rw [if_neg hfast]
    obtain ⟨mem1, hrun, -, hframe⟩ := copyRectLoop_spec s._screenW s._screenH x w pitch hx hw hxw
      h.toNat s._offscreenLut y buf hy (by rw [Int.toNat_of_nonneg hh]; exact hyh)
    unfold copyRectRows System_CTR.offscreenSize
    rw [hrun]
    refine ⟨_, rfl, ?_⟩
    intro col row hc0 hc1 hout
    apply hframe
    rw [Int.toNat_of_nonneg hh]
    exact outside_rect_ne s._screenW x y w h col row hx hxw hc0 hc1 hout

/-- Effect of `fillRect`: an in-bounds call with non-negative sizes succeeds,
leaves every byte outside the rectangle as it was and stores the colour in
every byte inside it. -/
theorem fillRect_effect (s : System_CTR) (x y w h : Int) (color : Nat)
    (hx : 0 ≤ x) (hy : 0 ≤ y) (hw : 0 ≤ w) (hh : 0 ≤ h)
    (hxw : x + w ≤ s._screenW) (hyh : y + h ≤ s._screenH) (hc : color < 256) :
    ∃ s1, fillRect s x y w h color = Except.ok s1 ∧
      (∀ col row : Int, 0 ≤ col → col < s._screenW →
        ¬ (x ≤ col ∧ col < x + w ∧ y ≤ row ∧ row < y + h) →
        s1._offscreenLut (row * s._screenW + col) = s._offscreenLut (row * s._screenW + col)) ∧
      ∀ col row : Int, x ≤ col → col < x + w → y ≤ row → row < y + h →
        s1._offscreenLut (row * s._screenW + col) = color := by
  unfold fillRect
  rw [if_neg (not_not.mpr ⟨hx, hxw, hy, hyh⟩)]
  by_cases hfast : w = s._screenW
  · rw [if_pos hfast]
    have hx0 : x = 0 := by omega
    subst hx0
    have hyW : 0 ≤ y * s._screenW := mul_nonneg hy (by omega)
    have hfill := memset_ok s.offscreenSize (y * s._screenW + 0) (w * h)
      s._offscreenLut color (mul_nonneg hw hh) (by omega)
      (by unfold System_CTR.offscreenSize; rw [← hfast]; nlinarith)
    rw [hfill]
    refine ⟨_, rfl, ?_, ?_⟩
    · intro col row hc0 hc1 hout
      have hr := fullWidth_range s._screenW y h col row hc0 hc1
      simp only []
      rw [hfast, if_neg]
      rw [hr]
      intro hin
      exact hout ⟨hc0, by omega, hin.1, hin.2⟩
    · intro col row hc0 hc1 hr0 hr1
      have hr := fullWidth_range s._screenW y h col row hc0 (by omega)
      simp only []
      rw [hfast, if_pos (hr.mpr ⟨hr0, hr1⟩), Nat.mod_eq_of_lt hc]
  · rw [if_neg hfast]
    obtain ⟨mem1, hrun, hin, hframe⟩ := fillRectLoop_spec s._screenW s._screenH x w color hx hw hxw
      h.toNat s._offscreenLut y hy (by rw [Int.toNat_of_nonneg hh]; exact hyh)
    unfold System_CTR.offscreenSize
    rw [hrun]
    refine ⟨_, rfl, ?_, ?_⟩
    · intro col row hc0 hc1 hout
      apply hframe
      rw [Int.toNat_of_nonneg hh]
      exact outside_rect_ne s._screenW x y w h col row hx hxw hc0 hc1 hout
    · intro col row hc0 hc1 hr0 hr1
      have := hin (col - x) (row - y) (by omega) (by omega) (by omega)
        (by rw [Int.toNat_of_nonneg hh]; omega)
      have e : (y + (row - y)) * s._screenW + (x + (col - x)) = row * s._screenW + col := by
        ring
      rw [Nat.mod_eq_of_lt hc, e] at this
      exact this

/-- C20: for an in-bounds call with `w ≥ 0` and `h ≥ 0`, `copyRect` and `fillRect`
succeed on either path and leave every offscreen byte whose column and row lie
outside `[x, x + w) × [y, y + h)` as it was; after `fillRect` every byte inside
the rectangle equals `color`. -/
theorem rect_changes_only_target (s : System_CTR) (x y w h : Int) (buf : Block)
    (pitch : Int) (color : Nat)
    (hx : 0 ≤ x) (hy : 0 ≤ y) (hw : 0 ≤ w) (hh : 0 ≤ h)
    (hxw : x + w ≤ s._screenW) (hyh : y + h ≤ s._screenH) (hc : color < 256) :
    (∃ s1, copyRect s x y w h buf pitch = Except.ok s1 ∧
      ∀ col row : Int, 0 ≤ col → col < s._screenW →
        ¬ (x ≤ col ∧ col < x + w ∧ y ≤ row ∧ row < y + h) →
        s1._offscreenLut (row * s._screenW + col) = s._offscreenLut (row * s._screenW + col)) ∧
    (∃ s2, fillRect s x y w h color = Except.ok s2 ∧
      (∀ col row : Int, 0 ≤ col → col < s._screenW →
        ¬ (x ≤ col ∧ col < x + w ∧ y ≤ row ∧ row < y + h) →
        s2._offscreenLut (row * s._screenW + col) = s._offscreenLut (row * s._screenW + col)) ∧
      ∀ col row : Int, x ≤ col → col < x + w → y ≤ row → row < y + h →
        s2._offscreenLut (row * s._screenW + col) = color) :=
  ⟨copyRect_frame s x y w h buf pitch hx hy hw hh hxw hyh,
    fillRect_effect s x y w h color hx hy hw hh hxw hyh hc⟩

/-! ## Theorems: palette entry 0 -/

/-- Extracting a channel is a shift followed by a mask. -/
theorem channel_eq (m s c : Nat) : channel (m <<< s) s c = (c >>> s) &&& m := by
  apply Nat.eq_of_testBit_eq
  intro i
  simp only [channel, Nat.testBit_shiftRight, Nat.testBit_and, Nat.testBit_shiftLeft,
    Nat.add_sub_cancel_left, ge_iff_le, Nat.le_add_right, decide_True, Bool.true_and]

/-- A channel of `bits` bits holds values below `2 ^ bits`. -/
theorem channel_lt (bits s c : Nat) : channel ((2 ^ bits - 1) <<< s) s c < 2 ^ bits := by
  rw [channel_eq, Nat.and_pow_two_sub_one_eq_mod]
  exact Nat.mod_lt _ (Nat.two_pow_pos bits)

/-- A value below `2 ^ bits` has no bit at or above position `bits`. -/
theorem testBit_of_lt_two_pow {a bits i : Nat} (ha : a < 2 ^ bits) (hi : bits ≤ i) :
    a.testBit i = false :=
  Nat.testBit_lt_two_pow (lt_of_lt_of_le ha (Nat.pow_le_pow_right (by decide) hi))

/-- A value of `bits` bits shifted into place lies within the mask of the channel. -/
theorem shiftLeft_and_mask (a bits s : Nat) (ha : a < 2 ^ bits) :
    (a <<< s) &&& ((2 ^ bits - 1) <<< s) = a <<< s := by
  apply Nat.eq_of_testBit_eq
  intro i
  simp only [Nat.testBit_and, Nat.testBit_shiftLeft, Nat.testBit_two_pow_sub_one]
  by_cases h1 : i ≥ s
  · by_cases h2 : i - s < bits
    · simp [h1, h2]
    · simp [h1, h2, testBit_of_lt_two_pow ha (not_lt.mp h2)]
  · simp [h1]

/-- A value of `bits` bits shifted into place is at most the mask of the channel. -/
theorem shiftLeft_le_mask (a bits s : Nat) (ha : a < 2 ^ bits) :
    a <<< s ≤ (2 ^ bits - 1) <<< s := by
  rw [Nat.shiftLeft_eq, Nat.shiftLeft_eq]
  exact Nat.mul_le_mul_right _ (by omega)

/-- A value within one mask has no bit of a mask disjoint from it. -/
theorem and_eq_zero_of_subset {x p q : Nat} (hx : x &&& p = x) (hpq : p &&& q = 0) :
    x &&& q = 0 := by
  apply Nat.eq_of_testBit_eq
  intro i
  have h1 : (x.testBit i && p.testBit i) = x.testBit i := by rw [← Nat.testBit_and, hx]
  have h2 := and_eq_zero_testBit hpq i
  simp only [Nat.testBit_and, Nat.zero_testBit]
  revert h1 h2
  cases x.testBit i <;> cases p.testBit i <;> cases q.testBit i <;> simp

/-- Masking a union of three values keeps the one that lies within the mask when
the other two have no bit of it. -/
theorem or3_and_mask (x y z m : Nat) (hx : x &&& m = x) (hy : y &&& m = 0) (hz : z &&& m = 0) :
    (x ||| y ||| z) &&& m = x := by
  apply Nat.eq_of_testBit_eq
  intro i
  have h1 : (x.testBit i && m.testBit i) = x.testBit i := by rw [← Nat.testBit_and, hx]
  have h2 := and_eq_zero_testBit hy i
  have h3 := and_eq_zero_testBit hz i
  simp only [Nat.testBit_and, Nat.testBit_or]
  revert h1 h2 h3
  cases x.testBit i <;> cases y.testBit i <;> cases z.testBit i <;> cases m.testBit i <;> simp

/-- Channels of a packed pixel: when each averaged channel fits its width, each
channel of the recombined pixel is that average. -/
theorem channel_packAverage (fmt : PixelFormat) (rbits gbits bbits count : Nat) (acc : Rgb)
    (hf : fmt.HasBits rbits gbits bbits)
    (hr : acc.r / count < 2 ^ rbits) (hg : acc.g / count < 2 ^ gbits)
    (hb : acc.b / count < 2 ^ bbits) :
    channel fmt.Rmask fmt.Rshift (packAverage fmt count acc) = acc.r / count ∧
      channel fmt.Gmask fmt.Gshift (packAverage fmt count acc) = acc.g / count ∧
      channel fmt.Bmask fmt.Bshift (packAverage fmt count acc) = acc.b / count := by
  obtain ⟨eR, eG, eB, dRG, dRB, dGB, lR, lG, lB, -, -, -⟩ := hf
  have dGR : fmt.Gmask &&& fmt.Rmask = 0 := by rw [Nat.land_comm]; exact dRG
  have dBR : fmt.Bmask &&& fmt.Rmask = 0 := by rw [Nat.land_comm]; exact dRB
  have dBG : fmt.Bmask &&& fmt.Gmask = 0 := by rw [Nat.land_comm]; exact dGB
  have sR : (acc.r / count) <<< fmt.Rshift &&& fmt.Rmask = (acc.r / count) <<< fmt.Rshift := by
    rw [eR]; exact shiftLeft_and_mask _ _ _ hr
  have sG : (acc.g / count) <<< fmt.Gshift &&& fmt.Gmask = (acc.g / count) <<< fmt.Gshift := by
    rw [eG]; exact shiftLeft_and_mask _ _ _ hg
  have sB : (acc.b / count) <<< fmt.Bshift &&& fmt.Bmask = (acc.b / count) <<< fmt.Bshift := by
    rw [eB]; exact shiftLeft_and_mask _ _ _ hb
  have mR : (acc.r / count) <<< fmt.Rshift % 4294967296 = (acc.r / count) <<< fmt.Rshift := by
    apply Nat.mod_eq_of_lt
    have := shiftLeft_le_mask _ _ fmt.Rshift hr
    rw [← eR] at this
    omega
  have mG : (acc.g / count) <<< fmt.Gshift % 4294967296 = (acc.g / count) <<< fmt.Gshift := by
    apply Nat.mod_eq_of_lt
    have := shiftLeft_le_mask _ _ fmt.Gshift hg
    rw [← eG] at this
    omega
  have mB : (acc.b / count) <<< fmt.Bshift % 4294967296 = (acc.b / count) <<< fmt.Bshift := by
    apply Nat.mod_eq_of_lt
    have := shiftLeft_le_mask _ _ fmt.Bshift hb
    rw [← eB] at this
    omega
  unfold packAverage channel
  rw [mR, mG, mB]
  refine ⟨?_, ?_, ?_⟩
  · rw [or3_and_mask _ _ _ _ sR (and_eq_zero_of_subset sG dGR) (and_eq_zero_of_subset sB dBR)]
    exact Nat.shiftLeft_shiftRight _ _
  · have e : ∀ x y z : Nat, x ||| y ||| z = y ||| x ||| z := by
      intro x y z
      rw [Nat.lor_comm x y]
    rw [e, or3_and_mask _ _ _ _ sG (and_eq_zero_of_subset sR dRG) (and_eq_zero_of_subset sB dBG)]
    exact Nat.shiftLeft_shiftRight _ _
  · have e : ∀ x y z : Nat, x ||| y ||| z = z ||| x ||| y := by
      intro x y z
      rw [Nat.lor_comm (x ||| y) z, Nat.lor_assoc]
    rw [e, or3_and_mask _ _ _ _ sB (and_eq_zero_of_subset sR dRB) (and_eq_zero_of_subset sG dGB)]
    exact Nat.shiftLeft_shiftRight _ _

/-- For an index inside the line, clamping does nothing. -/
theorem clampIndex_of_mem (n k : Int) (h0 : 0 ≤ k) (h1 : k < n) : clampIndex n k = k := by
  unfold clampIndex
  omega

/-- The clamped index lies inside a line that is not empty. -/
theorem clampIndex_mem (n k : Int) (hn : 1 ≤ n) : 0 ≤ clampIndex n k ∧ clampIndex n k < n := by
  unfold clampIndex
  omega

/-- Sliding the window by one step: the new sum plus the leaving value is the old
sum plus the entering value. -/
theorem boxSum_slide (radius : Nat) (n : Int) (f : Int → Nat) (i : Int) :
    boxSum radius n f i + f (clampIndex n (i - radius - 1))
      = boxSum radius n f (i - 1) + f (clampIndex n (i + radius)) := by
  have e1 : ∀ t : Nat, i - 1 - (radius : Int) + ((t + 1 : Nat) : Int) = i - radius + t := by
    intro t
    push_cast
    ring
  have e2 : i - 1 - (radius : Int) + ((2 * radius + 1 : Nat) : Int) = i + radius := by
    push_cast
    ring
  have e3 : i - 1 - (radius : Int) + ((0 : Nat) : Int) = i - radius - 1 := by
    push_cast
    ring
  have hA : Finset.sum (Finset.range (2 * radius + 1 + 1))
        (fun t : Nat => f (clampIndex n (i - 1 - radius + t)))
      = boxSum radius n f (i - 1) + f (clampIndex n (i + radius)) := by
    rw [Finset.sum_range_succ, e2]
    rfl
  have hB : Finset.sum (Finset.range (2 * radius + 1 + 1))
        (fun t : Nat => f (clampIndex n (i - 1 - radius + t)))
      = boxSum radius n f i + f (clampIndex n (i - radius - 1)) := by
    rw [Finset.sum_range_succ', e3]
    congr 1
    unfold boxSum
    exact Finset.sum_congr rfl (fun t _ => by rw [e1])
  rw [← hA, ← hB]

/-- A window sum of values below `2 ^ bits` is at most 17 times the largest value. -/
theorem boxSum_le (n : Int) (f : Int → Nat) (bits : Nat) (hf : ∀ k, f k < 2 ^ bits) (i : Int) :
    boxSum 8 n f i ≤ 17 * (2 ^ bits - 1) := by
  unfold boxSum
  have h := Finset.sum_le_sum (s := Finset.range (2 * 8 + 1))
    (f := fun t : Nat => f (clampIndex n (i - (8 : Nat) + t))) (g := fun _ => 2 ^ bits - 1)
    (fun t _ => Nat.le_sub_one_of_lt (hf _))
  rw [Finset.sum_const, Finset.card_range, smul_eq_mul] at h
  exact h

/-- A read inside the block returns the stored pixel. -/
theorem readPixel_ok (size : Int) (src : Block) (k : Int) (h0 : 0 ≤ k) (h1 : k < size) :
    readPixel size src k = Except.ok (src k) := by
  unfold readPixel
  rw [if_pos ⟨h0, h1⟩]

/-- A write inside the block stores the pixel. -/
theorem writePixel_ok (size : Int) (dst : Block) (k : Int) (v : Nat) (h0 : 0 ≤ k)
    (h1 : k < size) :
    writePixel size dst k v = Except.ok (fun a => if a = k then v else dst a) := by
  unfold writePixel
  rw [if_pos ⟨h0, h1⟩]

/-- The initial-window loop adds to each accumulator the channel values at the
indices `max (i + t) 0`, modulo `2 ^ 32`, when every read lies inside the block. -/
theorem blurInitLoop_spec (vertical : Bool) (fmt : PixelFormat) (srcSize : Int) (src : Block)
    (base srcPitch : Int) :
    ∀ (m : Nat) (i : Int) (acc : Rgb),
      acc.r < 4294967296 → acc.g < 4294967296 → acc.b < 4294967296 →
      (∀ t : Nat, t < m → 0 ≤ base + lineIndex vertical srcPitch (max (i + t) 0) ∧
        base + lineIndex vertical srcPitch (max (i + t) 0) < srcSize) →
      blurInitLoop vertical fmt srcSize src base srcPitch m i acc = Except.ok
        ⟨(acc.r + Finset.sum (Finset.range m) (fun t : Nat =>
            lineChannel fmt.Rmask fmt.Rshift src base vertical srcPitch (max (i + t) 0)))
            % 4294967296,
         (acc.g + Finset.sum (Finset.range m) (fun t : Nat =>
            lineChannel fmt.Gmask fmt.Gshift src base vertical srcPitch (max (i + t) 0)))
            % 4294967296,
         (acc.b + Finset.sum (Finset.range m) (fun t : Nat =>
            lineChannel fmt.Bmask fmt.Bshift src base vertical srcPitch (max (i + t) 0)))
            % 4294967296⟩ := by
  intro m
  induction m with
  | zero =>
    intro i acc hr hg hb _
    simp only [blurInitLoop, Finset.range_zero, Finset.sum_empty, Nat.add_zero,
      Nat.mod_eq_of_lt hr, Nat.mod_eq_of_lt hg, Nat.mod_eq_of_lt hb]
  | succ m ih =>
    intro i acc _ _ _ hin
    have h0 := hin 0 (Nat.succ_pos m)
    simp only [Nat.cast_zero, add_zero] at h0
    have e1 : ∀ t : Nat, i + ((t + 1 : Nat) : Int) = i + 1 + t := by
      intro t
      push_cast
      ring
    have hin2 : ∀ t : Nat, t < m → 0 ≤ base + lineIndex vertical srcPitch (max (i + 1 + t) 0) ∧
        base + lineIndex vertical srcPitch (max (i + 1 + t) 0) < srcSize := by
      intro t ht
      have := hin (t + 1) (by omega)
      rw [e1] at this
      exact this
    simp only [blurInitLoop, readPixel_ok _ _ _ h0.1 h0.2]
    rw [ih (i + 1) _ (Nat.mod_lt _ (by decide)) (Nat.mod_lt _ (by decide))
      (Nat.mod_lt _ (by decide)) hin2]
    simp only [Finset.sum_range_succ', e1, Nat.cast_zero, add_zero, accAdd, lineChannel]
    congr 2 <;> omega

/-- Each channel of a line holds values below `2 ^ bits` of its width. -/
theorem lineChannel_lt (fmt : PixelFormat) (rbits gbits bbits : Nat)
    (hf : fmt.HasBits rbits gbits bbits) (src : Block) (base : Int) (vertical : Bool)
    (pitch : Int) (k : Int) :
    lineChannel fmt.Rmask fmt.Rshift src base vertical pitch k < 2 ^ rbits ∧
      lineChannel fmt.Gmask fmt.Gshift src base vertical pitch k < 2 ^ gbits ∧
      lineChannel fmt.Bmask fmt.Bshift src base vertical pitch k < 2 ^ bbits := by
  obtain ⟨eR, eG, eB, -⟩ := hf
  unfold lineChannel
  refine ⟨?_, ?_, ?_⟩
  · conv_lhs => rw [eR]
    exact channel_lt _ _ _
  · conv_lhs => rw [eG]
    exact channel_lt _ _ _
  · conv_lhs => rw [eB]
    exact channel_lt _ _ _

/-- The window sums fit a `uint32_t` and their averages fit the channels. -/
theorem windowSums_lt (fmt : PixelFormat) (rbits gbits bbits : Nat)
    (hf : fmt.HasBits rbits gbits bbits) (n : Int) (src : Block) (base : Int) (vertical : Bool)
    (pitch : Int) (i : Int) :
    ((windowSums fmt n src base vertical pitch i).r < 4294967296 ∧
      (windowSums fmt n src base vertical pitch i).g < 4294967296 ∧
      (windowSums fmt n src base vertical pitch i).b < 4294967296) ∧
    ((windowSums fmt n src base vertical pitch i).r / 17 < 2 ^ rbits ∧
      (windowSums fmt n src base vertical pitch i).g / 17 < 2 ^ gbits ∧
      (windowSums fmt n src base vertical pitch i).b / 17 < 2 ^ bbits) := by
  have hl := lineChannel_lt fmt rbits gbits bbits hf src base vertical pitch
  have hr := boxSum_le n _ rbits (fun k => (hl k).1) i
  have hg := boxSum_le n _ gbits (fun k => (hl k).2.1) i
  have hb := boxSum_le n _ bbits (fun k => (hl k).2.2) i
  obtain ⟨-, -, -, -, -, -, -, -, -, wR, wG, wB⟩ := hf
  have pR := Nat.two_pow_pos rbits
  have pG := Nat.two_pow_pos gbits
  have pB := Nat.two_pow_pos bbits
  simp only [windowSums]
  refine ⟨⟨by omega, by omega, by omega⟩, ?_, ?_, ?_⟩
  · exact (Nat.div_lt_iff_lt_mul (by decide)).mpr (by omega)
  · exact (Nat.div_lt_iff_lt_mul (by decide)).mpr (by omega)
  · exact (Nat.div_lt_iff_lt_mul (by decide)).mpr (by omega)

/-- The window sum of radius 8 written over its 17 indices. -/
theorem boxSum_eight (n : Int) (f : Int → Nat) (i : Int) :
    boxSum 8 n f i
      = Finset.sum (Finset.range 17) (fun t : Nat => f (clampIndex n (i - 8 + (t : Int)))) := by
  unfold boxSum
  norm_num

/-- For a line of at least 9 pixels the 17 indices of the initial window are the
clamped indices of the window at index 0. -/
theorem initial_window_sum (n : Int) (hn : 9 ≤ n) (f : Int → Nat) :
    Finset.sum (Finset.range 17) (fun t : Nat => f (max (-8 + (t : Int)) 0)) = boxSum 8 n f 0 := by
  rw [boxSum_eight]
  apply Finset.sum_congr rfl
  intro t ht
  have := Finset.mem_range.mp ht
  congr 1
  unfold clampIndex
  omega

/-- For a line of at least 9 pixels the initial-window loop computes the window
sums at index 0. -/
theorem blurInitLoop_window (vertical : Bool) (fmt : PixelFormat) (rbits gbits bbits : Nat)
    (hf : fmt.HasBits rbits gbits bbits) (srcSize : Int) (src : Block) (base srcPitch n : Int)
    (hn : 9 ≤ n)
    (hsrc : ∀ k, 0 ≤ k → k < n → 0 ≤ base + lineIndex vertical srcPitch k ∧
      base + lineIndex vertical srcPitch k < srcSize) :
    blurInitLoop vertical fmt srcSize src base srcPitch 17 (-8) ⟨0, 0, 0⟩
      = Except.ok (windowSums fmt n src base vertical srcPitch 0) := by
  have hspec := blurInitLoop_spec vertical fmt srcSize src base srcPitch 17 (-8) ⟨0, 0, 0⟩
    (by norm_num) (by norm_num) (by norm_num) (fun t ht => hsrc _ (by omega) (by omega))
  rw [hspec]
  obtain ⟨⟨lr, lg, lb⟩, -⟩ := windowSums_lt fmt rbits gbits bbits hf n src base vertical srcPitch 0
  simp only [windowSums] at lr lg lb
  simp only [windowSums, Nat.zero_add, initial_window_sum n hn, Nat.mod_eq_of_lt lr,
    Nat.mod_eq_of_lt lg, Nat.mod_eq_of_lt lb]

/-- One `uint32_t` accumulator over one step: adding `x` and subtracting `y` turns
`a` into `s` when `s + y = a + x` and `s` fits 32 bits. -/
theorem u32_slide (a x y s : Nat) (h : s + y = a + x) (hs : s < 4294967296) :
    ((a + x) % 4294967296 + (4294967296 - y % 4294967296)) % 4294967296 = s := by
  omega

/-- One step of the sliding loop on the accumulators: adding the entering pixel
and subtracting the leaving one turns the window sums at `i - 1` into those at `i`. -/
theorem windowSums_step (fmt : PixelFormat) (rbits gbits bbits : Nat)
    (hf : fmt.HasBits rbits gbits bbits) (n : Int) (src : Block) (base : Int) (vertical : Bool)
    (pitch : Int) (i : Int) (hn : 9 ≤ n) (hi0 : 1 ≤ i) (hi1 : i < n) :
    accSub fmt
        (accAdd fmt (windowSums fmt n src base vertical pitch (i - 1))
          (src (base + lineIndex vertical pitch (min (i + 8) (n - 1)))))
        (src (base + lineIndex vertical pitch (max (i - 8 - 1) 0)))
      = windowSums fmt n src base vertical pitch i := by
  have cin : clampIndex n (i + ((8 : Nat) : Int)) = min (i + 8) (n - 1) := by
    unfold clampIndex
    push_cast
    omega
  have cout : clampIndex n (i - ((8 : Nat) : Int) - 1) = max (i - 8 - 1) 0 := by
    unfold clampIndex
    push_cast
    omega
  have sR := boxSum_slide 8 n (lineChannel fmt.Rmask fmt.Rshift src base vertical pitch) i
  have sG := boxSum_slide 8 n (lineChannel fmt.Gmask fmt.Gshift src base vertical pitch) i
  have sB := boxSum_slide 8 n (lineChannel fmt.Bmask fmt.Bshift src base vertical pitch) i
  rw [cin, cout] at sR sG sB
  obtain ⟨⟨lr, lg, lb⟩, -⟩ := windowSums_lt fmt rbits gbits bbits hf n src base vertical pitch i
  simp only [windowSums] at lr lg lb
  have eR := u32_slide _ _ _ _ sR lr
  have eG := u32_slide _ _ _ _ sG lg
  have eB := u32_slide _ _ _ _ sB lb
  unfold windowSums accAdd accSub
  simp only []
  unfold lineChannel at eR eG eB ⊢
  rw [eR, eG, eB]

/-- The sliding loop on a line of at least 9 pixels whose source and destination
pixels lie inside their blocks: started at index `i` with the window sums of
index `i - 1`, it succeeds, writes the box-blurred pixel at each index it visits
and leaves every other destination pixel as it was. -/
theorem blurSlideLoop_spec (vertical : Bool) (fmt : PixelFormat) (rbits gbits bbits : Nat)
    (hf : fmt.HasBits rbits gbits bbits) (srcSize : Int) (src : Block)
    (sbase srcPitch w h dstSize dbase : Int)
    (hn : 9 ≤ (if vertical then h else w))
    (hsrc : ∀ k, 0 ≤ k → k < (if vertical then h else w) →
      0 ≤ sbase + lineIndex vertical srcPitch k ∧ sbase + lineIndex vertical srcPitch k < srcSize)
    (hdst : ∀ k, 0 ≤ k → k < (if vertical then h else w) →
      0 ≤ dbase + lineIndex vertical srcPitch k ∧ dbase + lineIndex vertical srcPitch k < dstSize)
    (hinj : ∀ k1 k2, lineIndex vertical srcPitch k1 = lineIndex vertical srcPitch k2 → k1 = k2) :
    ∀ (m : Nat) (i : Int) (dst : Block), 1 ≤ i → i + m ≤ (if vertical then h else w) →
      ∃ dst1,
        blurSlideLoop vertical 8 fmt srcSize src sbase srcPitch w h dstSize dbase m i
            (windowSums fmt (if vertical then h else w) src sbase vertical srcPitch (i - 1)) dst
          = Except.ok dst1 ∧
        (∀ j, i ≤ j → j < i + m → dst1 (dbase + lineIndex vertical srcPitch j)
          = boxBlurPixel fmt (if vertical then h else w) src sbase vertical srcPitch j) ∧
        (∀ a, (∀ j, i ≤ j → j < i + m → a ≠ dbase + lineIndex vertical srcPitch j) →
          dst1 a = dst a) := by
  intro m
  induction m with
  | zero =>
    intro i dst _ _
    refine ⟨dst, rfl, ?_, fun a _ => rfl⟩
    intro j h1 h2
    simp only [Nat.cast_zero, add_zero] at h2
    omega
  | succ m ih =>
    intro i dst hi0 hi1
    push_cast at hi1
    have rin := hsrc (min (i + 8) ((if vertical then h else w) - 1)) (by omega) (by omega)
    have rout := hsrc (max (i - 8 - 1) 0) (by omega) (by omega)
    have wr := hdst i (by omega) (by omega)
    have hstep := windowSums_step fmt rbits gbits bbits hf (if vertical then h else w) src sbase
      vertical srcPitch i hn hi0 (by omega)
    have hcount : (2 * (8 : Int) + 1).toNat = 17 := by decide
    obtain ⟨dst2, hrun, hin, hout⟩ := ih (i + 1)
      (fun a => if a = dbase + lineIndex vertical srcPitch i
        then boxBlurPixel fmt (if vertical then h else w) src sbase vertical srcPitch i
        else dst a) (by omega) (by omega)
    rw [add_sub_cancel_right] at hrun
    refine ⟨dst2, ?_, ?_, ?_⟩
    · simp only [blurSlideLoop, readPixel_ok _ _ _ rin.1 rin.2, readPixel_ok _ _ _ rout.1 rout.2,
        hstep, hcount, writePixel_ok _ _ _ _ wr.1 wr.2]
      exact hrun
    · intro j hj0 hj1
      rcases eq_or_lt_of_le hj0 with hj | hj
      · subst hj
        rw [hout _ (fun j2 h1 _ heq => by
          have := hinj _ _ (add_left_cancel heq)
          omega)]
        simp only [if_true]
      · exact hin j (by omega) (by push_cast at hj1; omega)
    · intro a ha
      rw [hout a (fun j h1 h2 => ha j (by omega) (by push_cast; omega))]
      rw [if_neg (ha i le_rfl (by push_cast; omega))]

/-- Index 0 of a line is at offset 0 in both directions. -/
theorem lineIndex_zero (vertical : Bool) (pitch : Int) : lineIndex vertical pitch 0 = 0 := by
  cases vertical <;> simp [lineIndex]

/-- One line of `blur` with radius 8, for a line of at least 9 pixels whose source
and destination pixels lie inside their blocks: it succeeds, every pixel of the
destination line is the box-blurred pixel and every other destination pixel is
left as it was. -/
theorem blurLine_spec (vertical : Bool) (fmt : PixelFormat) (rbits gbits bbits : Nat)
    (hf : fmt.HasBits rbits gbits bbits) (srcSize : Int) (src : Block)
    (sbase srcPitch w h dstSize dbase : Int) (dst : Block)
    (hn : 9 ≤ (if vertical then h else w))
    (hsrc : ∀ k, 0 ≤ k → k < (if vertical then h else w) →
      0 ≤ sbase + lineIndex vertical srcPitch k ∧ sbase + lineIndex vertical srcPitch k < srcSize)
    (hdst : ∀ k, 0 ≤ k → k < (if vertical then h else w) →
      0 ≤ dbase + lineIndex vertical srcPitch k ∧ dbase + lineIndex vertical srcPitch k < dstSize)
    (hinj : ∀ k1 k2, lineIndex vertical srcPitch k1 = lineIndex vertical srcPitch k2 → k1 = k2) :
    ∃ dst1,
      blurLine vertical 8 fmt srcSize src sbase srcPitch w h dstSize dbase dst = Except.ok dst1 ∧
      (∀ j, 0 ≤ j → j < (if vertical then h else w) →
        dst1 (dbase + lineIndex vertical srcPitch j)
          = boxBlurPixel fmt (if vertical then h else w) src sbase vertical srcPitch j) ∧
      (∀ a, (∀ j, 0 ≤ j → j < (if vertical then h else w) →
        a ≠ dbase + lineIndex vertical srcPitch j) → dst1 a = dst a) := by
  have hinit := blurInitLoop_window vertical fmt rbits gbits bbits hf srcSize src sbase srcPitch
    (if vertical then h else w) hn hsrc
  have hcount : (2 * (8 : Int) + 1).toNat = 17 := by decide
  have w0 := hdst 0 le_rfl (by omega)
  rw [lineIndex_zero] at w0
  have hm : (((if vertical then h else w) - 1).toNat : Int) = (if vertical then h else w) - 1 :=
    Int.toNat_of_nonneg (by omega)
  obtain ⟨dst2, hrun, hin, hout⟩ := blurSlideLoop_spec vertical fmt rbits gbits bbits hf srcSize
    src sbase srcPitch w h dstSize dbase hn hsrc hdst hinj
    ((if vertical then h else w) - 1).toNat 1
    (fun a => if a = dbase + 0
      then packAverage fmt 17 (windowSums fmt (if vertical then h else w) src sbase vertical
        srcPitch 0)
      else dst a) le_rfl (by omega)
  rw [show (1 : Int) - 1 = 0 from rfl] at hrun
  refine ⟨dst2, ?_, ?_, ?_⟩
  · simp only [blurLine, hcount, show (-(8 : Int)) = -8 from rfl, hinit,
      writePixel_ok _ _ _ _ w0.1 w0.2]
    exact hrun
  · intro j hj0 hj1
    rcases eq_or_lt_of_le hj0 with hj | hj
    · subst hj
      rw [hout _ (fun j2 h1 _ heq => by
        have := hinj _ _ (add_left_cancel heq)
        omega)]
      rw [lineIndex_zero, if_pos rfl]
      rfl
    · exact hin j (by omega) (by omega)
  · intro a ha
    rw [hout a (fun j h1 h2 => ha j (by omega) (by omega))]
    have := ha 0 le_rfl (by omega)
    rw [lineIndex_zero] at this
    rw [if_neg this]

/-- The outer loop of `blur` with radius 8 over lines of at least 9 pixels, when
every source and destination pixel of every line lies inside its block and
distinct pixels have distinct destination offsets: started at line `j0`, it
succeeds, every pixel of every line it visits is the box-blurred pixel and every
other destination pixel is left as it was. -/
theorem blurLines_spec (vertical : Bool) (fmt : PixelFormat) (rbits gbits bbits : Nat)
    (hf : fmt.HasBits rbits gbits bbits) (srcSize : Int) (src : Block)
    (srcPitch w h dstSize dstPitch : Int) (lines : Int)
    (hn : 9 ≤ (if vertical then h else w))
    (hsrc : ∀ j k, 0 ≤ j → j < lines → 0 ≤ k → k < (if vertical then h else w) →
      0 ≤ j * (if vertical then 1 else srcPitch) + lineIndex vertical srcPitch k ∧
      j * (if vertical then 1 else srcPitch) + lineIndex vertical srcPitch k < srcSize)
    (hdst : ∀ j k, 0 ≤ j → j < lines → 0 ≤ k → k < (if vertical then h else w) →
      0 ≤ j * (if vertical then 1 else dstPitch) + lineIndex vertical srcPitch k ∧
      j * (if vertical then 1 else dstPitch) + lineIndex vertical srcPitch k < dstSize)
    (hinj : ∀ j1 k1 j2 k2, 0 ≤ j1 → j1 < lines → 0 ≤ k1 → k1 < (if vertical then h else w) →
      0 ≤ j2 → j2 < lines → 0 ≤ k2 → k2 < (if vertical then h else w) →
      j1 * (if vertical then 1 else dstPitch) + lineIndex vertical srcPitch k1
        = j2 * (if vertical then 1 else dstPitch) + lineIndex vertical srcPitch k2 →
      j1 = j2 ∧ k1 = k2)
    (hinjLine : ∀ k1 k2, lineIndex vertical srcPitch k1 = lineIndex vertical srcPitch k2 →
      k1 = k2) :
    ∀ (m : Nat) (j0 : Int) (dst : Block), 0 ≤ j0 → j0 + m ≤ lines →
      ∃ out,
        blurLines vertical 8 fmt srcSize src srcPitch w h dstSize dstPitch m
            (j0 * (if vertical then 1 else srcPitch)) (j0 * (if vertical then 1 else dstPitch)) dst
          = Except.ok out ∧
        (∀ j k, j0 ≤ j → j < j0 + m → 0 ≤ k → k < (if vertical then h else w) →
          out (j * (if vertical then 1 else dstPitch) + lineIndex vertical srcPitch k)
            = boxBlurPixel fmt (if vertical then h else w) src
                (j * (if vertical then 1 else srcPitch)) vertical srcPitch k) ∧
        (∀ a, (∀ j k, j0 ≤ j → j < j0 + m → 0 ≤ k → k < (if vertical then h else w) →
          a ≠ j * (if vertical then 1 else dstPitch) + lineIndex vertical srcPitch k) →
          out a = dst a) := by
  intro m
  induction m with
  | zero =>
    intro j0 dst _ _
    refine ⟨dst, rfl, ?_, fun a _ => rfl⟩
    intro j k h1 h2
    simp only [Nat.cast_zero, add_zero] at h2
    omega
  | succ m ih =>
    intro j0 dst hj0 hj1
    push_cast at hj1
    obtain ⟨dst1, hline, hlin, hlout⟩ := blurLine_spec vertical fmt rbits gbits bbits hf srcSize
      src (j0 * (if vertical then 1 else srcPitch)) srcPitch w h dstSize
      (j0 * (if vertical then 1 else dstPitch)) dst hn
      (fun k h1 h2 => hsrc j0 k hj0 (by omega) h1 h2)
      (fun k h1 h2 => hdst j0 k hj0 (by omega) h1 h2) hinjLine
    obtain ⟨out, hrun, hin, hout⟩ := ih (j0 + 1) dst1 (by omega) (by omega)
    have es : (j0 + 1) * (if vertical then 1 else srcPitch)
        = j0 * (if vertical then 1 else srcPitch) + (if vertical then 1 else srcPitch) := by ring
    have ed : (j0 + 1) * (if vertical then 1 else dstPitch)
        = j0 * (if vertical then 1 else dstPitch) + (if vertical then 1 else dstPitch) := by ring
    rw [es, ed] at hrun
    refine ⟨out, ?_, ?_, ?_⟩
    · simp only [blurLines, hline]
      exact hrun
    · intro j k h1 h2 h3 h4
      rcases eq_or_lt_of_le h1 with hj | hj
      · subst hj
        rw [hout _ (fun j2 k2 g1 g2 g3 g4 heq => by
          have := hinj j0 k j2 k2 hj0 (by omega) h3 h4 (by omega) (by omega) g3 g4 heq
          omega)]
        exact hlin k h3 h4
      · exact hin j k (by omega) (by push_cast at h2; omega) h3 h4
    · intro a ha
      rw [hout a (fun j k g1 g2 g3 g4 => ha j k (by omega) (by push_cast; omega) g3 g4)]
      exact hlout a (fun k g1 g2 => ha j0 k le_rfl (by push_cast; omega) g1 g2)

/-! ## Theorems: the two blur passes on a frame -/

/-- A pixel of a `w × h` frame lies inside the block of `w * h` pixels. -/
theorem frame_offset_mem (w h row col : Int) (hr0 : 0 ≤ row) (hr1 : row < h) (hc0 : 0 ≤ col)
    (hc1 : col < w) : 0 ≤ row * w + col ∧ row * w + col < w * h := by
  have hw : 0 ≤ w := by omega
  have h1 : 0 ≤ row * w := mul_nonneg hr0 hw
  have h2 := mul_le_mul_of_nonneg_right (show row + 1 ≤ h by omega) hw
  have e1 : (row + 1) * w = row * w + w := by ring
  have e2 : h * w = w * h := by ring
  constructor <;> omega

/-- The horizontal pass with radius 8 on a frame at least 9 pixels wide: it
succeeds, and the pixel at each row and column is the box-blurred pixel of that
row of the source. -/
theorem blur_horizontal_spec (fmt : PixelFormat) (rbits gbits bbits : Nat)
    (hf : fmt.HasBits rbits gbits bbits) (w h : Int) (src dst : Block) (hw : 9 ≤ w)
    (hh : 0 ≤ h) :
    ∃ out, blur false 8 (w * h) src w w h fmt (w * h) dst w = Except.ok out ∧
      ∀ row col, 0 ≤ row → row < h → 0 ≤ col → col < w →
        out (row * w + col) = boxBlurPixel fmt w src (row * w) false w col := by
  have hspec := blurLines_spec false fmt rbits gbits bbits hf (w * h) src w w h (w * h) w h
    (by simpa using hw)
    (fun j k h1 h2 h3 h4 => by
      simp only [Bool.false_eq_true, if_false, lineIndex] at h4 ⊢
      exact frame_offset_mem w h j k h1 h2 h3 h4)
    (fun j k h1 h2 h3 h4 => by
      simp only [Bool.false_eq_true, if_false, lineIndex] at h4 ⊢
      exact frame_offset_mem w h j k h1 h2 h3 h4)
    (fun j1 k1 j2 k2 a1 a2 a3 a4 b1 b2 b3 b4 heq => by
      simp only [Bool.false_eq_true, if_false, lineIndex] at a4 b4 heq
      exact row_col_unique w j1 k1 j2 k2 a3 a4 b3 b4 heq)
    (fun k1 k2 heq => by simpa [lineIndex] using heq)
    h.toNat 0 dst le_rfl (by rw [Int.toNat_of_nonneg hh]; omega)
  obtain ⟨out, hrun, hin, -⟩ := hspec
  simp only [Bool.false_eq_true, if_false, lineIndex, zero_mul] at hrun hin
  refine ⟨out, ?_, ?_⟩
  · unfold blur
    simp only [Bool.false_eq_true, if_false]
    exact hrun
  · intro row col h1 h2 h3 h4
    exact hin row col h1 (by rw [Int.toNat_of_nonneg hh]; omega) h3 h4

/-- The vertical pass with radius 8 on a frame at least 9 pixels high: it
succeeds, and the pixel at each row and column is the box-blurred pixel of that
column of the source. -/
theorem blur_vertical_spec (fmt : PixelFormat) (rbits gbits bbits : Nat)
    (hf : fmt.HasBits rbits gbits bbits) (w h : Int) (src dst : Block) (dstPitch : Int)
    (hw : 1 ≤ w) (hh : 9 ≤ h) :
    ∃ out, blur true 8 (w * h) src w w h fmt (w * h) dst dstPitch = Except.ok out ∧
      ∀ row col, 0 ≤ row → row < h → 0 ≤ col → col < w →
        out (row * w + col) = boxBlurPixel fmt h src col true w row := by
  have eaddr : ∀ j k : Int, j * 1 + k * w = k * w + j := fun j k => by ring
  have hspec := blurLines_spec true fmt rbits gbits bbits hf (w * h) src w w h (w * h) dstPitch w
    (by simpa using hh)
    (fun j k h1 h2 h3 h4 => by
      simp only [if_true, lineIndex] at h4 ⊢
      rw [eaddr]
      exact frame_offset_mem w h k j h3 h4 h1 h2)
    (fun j k h1 h2 h3 h4 => by
      simp only [if_true, lineIndex] at h4 ⊢
      rw [eaddr]
      exact frame_offset_mem w h k j h3 h4 h1 h2)
    (fun j1 k1 j2 k2 a1 a2 a3 a4 b1 b2 b3 b4 heq => by
      simp only [if_true, lineIndex] at a4 b4 heq
      rw [eaddr, eaddr] at heq
      obtain ⟨e1, e2⟩ := row_col_unique w k1 j1 k2 j2 a1 a2 b1 b2 heq
      exact ⟨e2, e1⟩)
    (fun k1 k2 heq => by
      simp only [if_true, lineIndex] at heq
      exact (mul_right_cancel₀ (show w ≠ 0 by omega) heq))
    w.toNat 0 dst le_rfl (by rw [Int.toNat_of_nonneg (by omega)]; omega)
  obtain ⟨out, hrun, hin, -⟩ := hspec
  simp only [if_true, lineIndex, zero_mul, mul_one] at hrun hin
  refine ⟨out, ?_, ?_⟩
  · unfold blur
    simp only [if_true]
    exact hrun
  · intro row col h1 h2 h3 h4
    have := hin col row h3 (by rw [Int.toNat_of_nonneg (by omega)]; omega) h1 h2
    rw [add_comm] at this
    exact this

/-! ## Theorems: blur of a uniform frame -/

/-- An interior index is reached by the clamp only from itself. -/
theorem clampIndex_eq_interior (n k p : Int) (hp0 : 0 < p) (hp1 : p < n - 1)
    (h : clampIndex n k = p) : k = p := by
  unfold clampIndex at h
  rcases le_total k 0 with hk | hk
  · rw [max_eq_right hk] at h
    rcases le_total (0 : Int) (n - 1) with hn | hn
    · rw [min_eq_left hn] at h
      omega
    · rw [min_eq_right hn] at h
      omega
  · rw [max_eq_left hk] at h
    rcases le_total k (n - 1) with hn | hn
    · rw [min_eq_left hn] at h
      exact h
    · rw [min_eq_right hn] at h
      omega

/-- The window sum over a line that is zero except at one interior index is at
most the value at that index. -/
theorem boxSum_single_peak (n p : Int) (f : Int → Nat) (hn : 1 ≤ n) (hp0 : 0 < p)
    (hp1 : p < n - 1) (hz : ∀ k, 0 ≤ k → k < n → k ≠ p → f k = 0) (i : Int) :
    boxSum 8 n f i ≤ f p := by
  rw [boxSum_eight]
  by_cases hex : ∃ t0 : Nat, clampIndex n (i - 8 + (t0 : Int)) = p
  · obtain ⟨t0, ht0⟩ := hex
    have e0 := clampIndex_eq_interior n _ p hp0 hp1 ht0
    have hothers : ∀ t ∈ Finset.range 17, t ≠ t0 →
        f (clampIndex n (i - 8 + (t : Int))) = 0 := by
      intro t _ hne
      obtain ⟨m0, m1⟩ := clampIndex_mem n (i - 8 + (t : Int)) hn
      apply hz _ m0 m1
      intro hc
      have e1 := clampIndex_eq_interior n _ p hp0 hp1 hc
      apply hne
      omega
    by_cases hmem : t0 ∈ Finset.range 17
    · rw [Finset.sum_eq_single t0 hothers (fun hnot => absurd hmem hnot), ht0]
    · have hall : ∀ t ∈ Finset.range 17, f (clampIndex n (i - 8 + (t : Int))) = 0 := by
        intro t ht
        apply hothers t ht
        intro hc
        rw [hc] at ht
        exact hmem ht
      rw [Finset.sum_eq_zero hall]
      exact Nat.zero_le _
  · have hall : ∀ t ∈ Finset.range 17, f (clampIndex n (i - 8 + (t : Int))) = 0 := by
      intro t _
      obtain ⟨m0, m1⟩ := clampIndex_mem n (i - 8 + (t : Int)) hn
      apply hz _ m0 m1
      intro hc
      exact hex ⟨t, hc⟩
    rw [Finset.sum_eq_zero hall]
    exact Nat.zero_le _

/-- The channel of the black pixel is zero. -/
theorem channel_zero (mask shift : Nat) : channel mask shift 0 = 0 := by
  simp [channel]

/-- Sums below the window size average to the black pixel. -/
theorem packAverage_small (fmt : PixelFormat) (acc : Rgb) (hr : acc.r < 17) (hg : acc.g < 17)
    (hb : acc.b < 17) : packAverage fmt 17 acc = 0 := by
  unfold packAverage
  rw [Nat.div_eq_of_lt hr, Nat.div_eq_of_lt hg, Nat.div_eq_of_lt hb]
  simp

/-- The window sums over a line that is black except at one interior index are
at most the channels of the pixel at that index. -/
theorem windowSums_single_peak (fmt : PixelFormat) (n p : Int) (src : Block) (base : Int)
    (vertical : Bool) (pitch : Int) (hn : 1 ≤ n) (hp0 : 0 < p) (hp1 : p < n - 1)
    (hz : ∀ k, 0 ≤ k → k < n → k ≠ p → src (base + lineIndex vertical pitch k) = 0) (i : Int) :
    (windowSums fmt n src base vertical pitch i).r
        ≤ channel fmt.Rmask fmt.Rshift (src (base + lineIndex vertical pitch p)) ∧
      (windowSums fmt n src base vertical pitch i).g
        ≤ channel fmt.Gmask fmt.Gshift (src (base + lineIndex vertical pitch p)) ∧
      (windowSums fmt n src base vertical pitch i).b
        ≤ channel fmt.Bmask fmt.Bshift (src (base + lineIndex vertical pitch p)) := by
  have key : ∀ mask shift : Nat,
      boxSum 8 n (lineChannel mask shift src base vertical pitch) i
        ≤ channel mask shift (src (base + lineIndex vertical pitch p)) := by
    intro mask shift
    have h := boxSum_single_peak n p (lineChannel mask shift src base vertical pitch) hn hp0 hp1
      (fun k k0 k1 kne => by
        unfold lineChannel
        rw [hz k k0 k1 kne]
        exact channel_zero mask shift) i
    unfold lineChannel at h ⊢
    exact h
  simp only [windowSums]
  exact ⟨key _ _, key _ _, key _ _⟩

/-- A line that is black except at one interior index, where every channel is
below the window size, blurs to black. -/
theorem boxBlurPixel_dim_peak (fmt : PixelFormat) (n p : Int) (src : Block) (base : Int)
    (vertical : Bool) (pitch : Int) (hn : 1 ≤ n) (hp0 : 0 < p) (hp1 : p < n - 1)
    (hz : ∀ k, 0 ≤ k → k < n → k ≠ p → src (base + lineIndex vertical pitch k) = 0)
    (hr : channel fmt.Rmask fmt.Rshift (src (base + lineIndex vertical pitch p)) < 17)
    (hg : channel fmt.Gmask fmt.Gshift (src (base + lineIndex vertical pitch p)) < 17)
    (hb : channel fmt.Bmask fmt.Bshift (src (base + lineIndex vertical pitch p)) < 17)
    (i : Int) : boxBlurPixel fmt n src base vertical pitch i = 0 := by
  obtain ⟨lr, lg, lb⟩ := windowSums_single_peak fmt n p src base vertical pitch hn hp0 hp1 hz i
  unfold boxBlurPixel
  exact packAverage_small fmt _ (lt_of_le_of_lt lr hr) (lt_of_le_of_lt lg hg)
    (lt_of_le_of_lt lb hb)

/-- A line that is black except at one interior index blurs to pixels whose
channels are at most a seventeenth of the channels at that index. -/
theorem channel_boxBlurPixel_peak (fmt : PixelFormat) (rbits gbits bbits : Nat)
    (hf : fmt.HasBits rbits gbits bbits) (n p : Int) (src : Block) (base : Int)
    (vertical : Bool) (pitch : Int) (hn : 1 ≤ n) (hp0 : 0 < p) (hp1 : p < n - 1)
    (hz : ∀ k, 0 ≤ k → k < n → k ≠ p → src (base + lineIndex vertical pitch k) = 0) (i : Int) :
    channel fmt.Rmask fmt.Rshift (boxBlurPixel fmt n src base vertical pitch i)
        ≤ channel fmt.Rmask fmt.Rshift (src (base + lineIndex vertical pitch p)) / 17 ∧
      channel fmt.Gmask fmt.Gshift (boxBlurPixel fmt n src base vertical pitch i)
        ≤ channel fmt.Gmask fmt.Gshift (src (base + lineIndex vertical pitch p)) / 17 ∧
      channel fmt.Bmask fmt.Bshift (boxBlurPixel fmt n src base vertical pitch i)
        ≤ channel fmt.Bmask fmt.Bshift (src (base + lineIndex vertical pitch p)) / 17 := by
  obtain ⟨lr, lg, lb⟩ := windowSums_single_peak fmt n p src base vertical pitch hn hp0 hp1 hz i
  obtain ⟨-, h1, h2, h3⟩ := windowSums_lt fmt rbits gbits bbits hf n src base vertical pitch i
  obtain ⟨cr, cg, cb⟩ := channel_packAverage fmt rbits gbits bbits 17 _ hf h1 h2 h3
  unfold boxBlurPixel
  rw [cr, cg, cb]
  exact ⟨Nat.div_le_div_right lr, Nat.div_le_div_right lg, Nat.div_le_div_right lb⟩

/-- The two passes on a black frame with one pixel more than 16 pixels away from
every edge whose channels are at most 255: both passes succeed and every pixel
of the output frame is black, since the horizontal pass leaves at most
`255 / 17 = 15` per channel and the vertical pass divides that by 17 again. -/
theorem blurFrame_single_pixel_black (fmt : PixelFormat) (rbits gbits bbits : Nat)
    (hf : fmt.HasBits rbits gbits bbits) (w h px py : Int) (p : Nat) (tmp dst : Block)
    (hx0 : 16 < px) (hx1 : 16 < w - 1 - px) (hy0 : 16 < py) (hy1 : 16 < h - 1 - py)
    (hr : channel fmt.Rmask fmt.Rshift p ≤ 255) (hg : channel fmt.Gmask fmt.Gshift p ≤ 255)
    (hb : channel fmt.Bmask fmt.Bshift p ≤ 255) :
    ∃ out, blurFrame fmt w h (singlePixelFrame w px py p) tmp dst = Except.ok out ∧
      ∀ row col, 0 ≤ row → row < h → 0 ≤ col → col < w → out (row * w + col) = 0 := by
  have hw9 : 9 ≤ w := by omega
  have hh9 : 9 ≤ h := by omega
  obtain ⟨mid, hrun1, hin1⟩ := blur_horizontal_spec fmt rbits gbits bbits hf w h
    (singlePixelFrame w px py p) tmp hw9 (by omega)
  obtain ⟨out, hrun2, hin2⟩ := blur_vertical_spec fmt rbits gbits bbits hf w h mid dst 0
    (by omega) hh9
  have hpeak : singlePixelFrame w px py p (py * w + lineIndex false w px) = p := by
    simp [singlePixelFrame, lineIndex]
  have hrowz : ∀ row, ∀ k, 0 ≤ k → k < w → (row ≠ py ∨ k ≠ px) →
      singlePixelFrame w px py p (row * w + lineIndex false w k) = 0 := by
    intro row k k0 k1 hne
    simp only [singlePixelFrame, lineIndex, Bool.false_eq_true, if_false]
    rw [if_neg]
    intro e
    obtain ⟨e1, e2⟩ := row_col_unique w row k py px k0 k1 (by omega) (by omega) e
    rcases hne with hne | hne
    · exact hne e1
    · exact hne e2
  have hmidz : ∀ row col, 0 ≤ row → row < h → 0 ≤ col → col < w → row ≠ py →
      mid (row * w + col) = 0 := by
    intro row col r0 r1 c0 c1 hne
    rw [hin1 row col r0 r1 c0 c1]
    exact boxBlurPixel_dim_peak fmt w px (singlePixelFrame w px py p) (row * w) false w
      (by omega) (by omega) (by omega)
      (fun k k0 k1 _ => hrowz row k k0 k1 (Or.inl hne))
      (by rw [hrowz row px (by omega) (by omega) (Or.inl hne), channel_zero]; decide)
      (by rw [hrowz row px (by omega) (by omega) (Or.inl hne), channel_zero]; decide)
      (by rw [hrowz row px (by omega) (by omega) (Or.inl hne), channel_zero]; decide) col
  have hmidp : ∀ col, 0 ≤ col → col < w →
      channel fmt.Rmask fmt.Rshift (mid (py * w + col)) < 17 ∧
      channel fmt.Gmask fmt.Gshift (mid (py * w + col)) < 17 ∧
      channel fmt.Bmask fmt.Bshift (mid (py * w + col)) < 17 := by
    intro col c0 c1
    rw [hin1 py col (by omega) (by omega) c0 c1]
    obtain ⟨lr, lg, lb⟩ := channel_boxBlurPixel_peak fmt rbits gbits bbits hf w px
      (singlePixelFrame w px py p) (py * w) false w (by omega) (by omega) (by omega)
      (fun k k0 k1 kne => hrowz py k k0 k1 (Or.inr kne)) col
    rw [hpeak] at lr lg lb
    have br : channel fmt.Rmask fmt.Rshift p / 17 ≤ 15 := by omega
    have bg : channel fmt.Gmask fmt.Gshift p / 17 ≤ 15 := by omega
    have bb : channel fmt.Bmask fmt.Bshift p / 17 ≤ 15 := by omega
    exact ⟨by omega, by omega, by omega⟩
  refine ⟨out, ?_, ?_⟩
  · unfold blurFrame
    rw [hrun1]
    exact hrun2
  · intro row col r0 r1 c0 c1
    rw [hin2 row col r0 r1 c0 c1]
    have ecol : ∀ k : Int, col + lineIndex true w k = k * w + col := by
      intro k
      simp only [lineIndex, if_true]
      ring
    obtain ⟨mr, mg, mb⟩ := hmidp col c0 c1
    exact boxBlurPixel_dim_peak fmt h py mid col true w (by omega) (by omega) (by omega)
      (fun k k0 k1 kne => by rw [ecol k]; exact hmidz k col k0 k1 c0 c1 kne)
      (by rw [ecol py]; exact mr) (by rw [ecol py]; exact mg) (by rw [ecol py]; exact mb) row

/-- A frame whose pixels are all black has channel sum zero. -/
theorem channelSum_black (mask shift : Nat) (w h : Int) (out : Block) (hw : 1 ≤ w)
    (hz : ∀ row col, 0 ≤ row → row < h → 0 ≤ col → col < w → out (row * w + col) = 0) :
    channelSum mask shift w h out = 0 := by
  unfold channelSum
  apply Finset.sum_eq_zero
  intro a ha
  have ha1 : (a : Int) < w * h := by
    have := Finset.mem_range.mp ha
    omega
  have hw0 : (0 : Int) < w := by omega
  have e : ((a : Int) / w) * w + (a : Int) % w = (a : Int) := by
    have := Int.ediv_add_emod (a : Int) w
    rw [mul_comm]
    exact this
  have r0 : 0 ≤ (a : Int) / w := Int.ediv_nonneg (by omega) (by omega)
  have r1 : (a : Int) / w < h := Int.ediv_lt_of_lt_mul hw0 (by rw [mul_comm]; exact ha1)
  have c0 : 0 ≤ (a : Int) % w := Int.emod_nonneg _ (by omega)
  have c1 : (a : Int) % w < w := Int.emod_lt_of_pos _ hw0
  have := hz _ _ r0 r1 c0 c1
  rw [e] at this
  rw [this]
  exact channel_zero mask shift

/-- C13 (counterexample): in the 8-8-8 format, the 35×35 black frame with the
white pixel 16777215 at column 17 of row 17 (17 pixels away from every edge):
the two passes succeed, the red channel of the pixel is 255, the red channel sum
over the output frame is 0, and the two do not differ by less than 17. -/
theorem blur_single_pixel_sum_not_conserved :
    ∃ out, blurFrame sampleFormat 35 35 (singlePixelFrame 35 17 17 16777215) (fun _ => 0)
        (fun _ => 0) = Except.ok out ∧
      channel sampleFormat.Rmask sampleFormat.Rshift 16777215 = 255 ∧
      channelSum sampleFormat.Rmask sampleFormat.Rshift 35 35 out = 0 ∧
      ¬ (channel sampleFormat.Rmask sampleFormat.Rshift 16777215
            - channelSum sampleFormat.Rmask sampleFormat.Rshift 35 35 out < 17 ∧
          channelSum sampleFormat.Rmask sampleFormat.Rshift 35 35 out
            - channel sampleFormat.Rmask sampleFormat.Rshift 16777215 < 17) := by
  obtain ⟨out, hrun, hz⟩ := blurFrame_single_pixel_black sampleFormat 8 8 8 (by decide) 35 35 17
    17 16777215 (fun _ => 0) (fun _ => 0) (by decide) (by decide) (by decide) (by decide)
    (by decide) (by decide) (by decide)
  have hs := channelSum_black sampleFormat.Rmask sampleFormat.Rshift 35 35 out (by decide) hz
  have hv : channel sampleFormat.Rmask sampleFormat.Rshift 16777215 = 255 := by decide
  refine ⟨out, hrun, hv, hs, ?_⟩
  rw [hs, hv]
  decide

/-- C13 (amended): for a black frame with one pixel more than 16 pixels away
from every edge whose channels are at most 255, the horizontal-then-vertical
radius-8 blur succeeds, its output is mirror-symmetric about that pixel in both
axes, and the sum of each channel over the output frame is 0, so it differs from
the channel `v` of the pixel by less than 17 exactly when `v < 17`. -/
theorem blur_single_pixel_symmetric_black (fmt : PixelFormat) (rbits gbits bbits : Nat)
    (hf : fmt.HasBits rbits gbits bbits) (w h px py : Int) (p : Nat) (tmp dst : Block)
    (hx0 : 16 < px) (hx1 : 16 < w - 1 - px) (hy0 : 16 < py) (hy1 : 16 < h - 1 - py)
    (hr : channel fmt.Rmask fmt.Rshift p ≤ 255) (hg : channel fmt.Gmask fmt.Gshift p ≤ 255)
    (hb : channel fmt.Bmask fmt.Bshift p ≤ 255) :
    ∃ out, blurFrame fmt w h (singlePixelFrame w px py p) tmp dst = Except.ok out ∧
      (∀ dx dy : Int, 0 ≤ px - dx → px - dx < w → 0 ≤ px + dx → px + dx < w →
        0 ≤ py - dy → py - dy < h → 0 ≤ py + dy → py + dy < h →
        out ((py + dy) * w + (px - dx)) = out ((py + dy) * w + (px + dx)) ∧
        out ((py - dy) * w + (px + dx)) = out ((py + dy) * w + (px + dx))) ∧
      channelSum fmt.Rmask fmt.Rshift w h out = 0 ∧
      channelSum fmt.Gmask fmt.Gshift w h out = 0 ∧
      channelSum fmt.Bmask fmt.Bshift w h out = 0 ∧
      ((channel fmt.Rmask fmt.Rshift p - channelSum fmt.Rmask fmt.Rshift w h out < 17 ∧
          channelSum fmt.Rmask fmt.Rshift w h out - channel fmt.Rmask fmt.Rshift p < 17)
        ↔ channel fmt.Rmask fmt.Rshift p < 17) ∧
      ((channel fmt.Gmask fmt.Gshift p - channelSum fmt.Gmask fmt.Gshift w h out < 17 ∧
          channelSum fmt.Gmask fmt.Gshift w h out - channel fmt.Gmask fmt.Gshift p < 17)
        ↔ channel fmt.Gmask fmt.Gshift p < 17) ∧
      ((channel fmt.Bmask fmt.Bshift p - channelSum fmt.Bmask fmt.Bshift w h out < 17 ∧
          channelSum fmt.Bmask fmt.Bshift w h out - channel fmt.Bmask fmt.Bshift p < 17)
        ↔ channel fmt.Bmask fmt.Bshift p < 17) := by
  obtain ⟨out, hrun, hz⟩ := blurFrame_single_pixel_black fmt rbits gbits bbits hf w h px py p
    tmp dst hx0 hx1 hy0 hy1 hr hg hb
  have sr := channelSum_black fmt.Rmask fmt.Rshift w h out (by omega) hz
  have sg := channelSum_black fmt.Gmask fmt.Gshift w h out (by omega) hz
  have sb := channelSum_black fmt.Bmask fmt.Bshift w h out (by omega) hz
  refine ⟨out, hrun, ?_, sr, sg, sb, ?_, ?_, ?_⟩
  · intro dx dy x0 x1 x2 x3 y0 y1 y2 y3
    rw [hz _ _ y2 y3 x0 x1, hz _ _ y2 y3 x2 x3, hz _ _ y0 y1 x2 x3]
    exact ⟨rfl, rfl⟩
  · rw [sr]
    omega
  · rw [sg]
    omega
  · rw [sb]
    omega

/-! ## Theorems: the widescreen backdrop -/

/-- A result that converts to `some` is `Except.ok`. -/
theorem toOption_eq_some {α : Type} (r : Except Fault α) (a : α)
    (h : r.toOption = some a) : r = Except.ok a := by
  cases r with
  | error e => simp [Except.toOption] at h
  | ok b =>
    simp only [Except.toOption, Option.some.injEq] at h
    rw [h]

/-- The method `prepareScaledGfx` leaves the widescreen surface null, whatever
its argument `widescreen` is. -/
theorem prepareScaledGfx_widescreen (sdl : SDL) (s : System_CTR)
    (fullscreen widescreen yuv : Bool) :
    (prepareScaledGfx sdl s fullscreen widescreen yuv)._widescreenTexture = none := by
  simp [prepareScaledGfx]

/-- The method `init` leaves the widescreen surface null, whatever its argument
`widescreen` is. -/
theorem init_widescreen (sdl : SDL) (s : System_CTR) (w h : Int)
    (fullscreen widescreen yuv : Bool) :
    (init sdl s w h fullscreen widescreen yuv)._widescreenTexture = none := by
  unfold init
  split_ifs <;> simp [prepareScaledGfx]

/-- The method `copyRect` does not write the widescreen surface. -/
theorem copyRect_widescreen (s s1 : System_CTR) (x y w h : Int) (buf : Block) (pitch : Int)
    (hc : copyRect s x y w h buf pitch = Except.ok s1) :
    s1._widescreenTexture = s._widescreenTexture := by
  unfold copyRect at hc
  split_ifs at hc
  · unfold copyRectFast at hc
    split at hc
    · cases hc
    · cases hc
      rfl
  · unfold copyRectRows at hc
    split at hc
    · cases hc
    · cases hc
      rfl

/-- The method `fillRect` does not write the widescreen surface. -/
theorem fillRect_widescreen (s s1 : System_CTR) (x y w h : Int) (color : Nat)
    (hc : fillRect s x y w h color = Except.ok s1) :
    s1._widescreenTexture = s._widescreenTexture := by
  unfold fillRect at hc
  split_ifs at hc
  · split at hc
    · cases hc
    · cases hc
      rfl
  · split at hc
    · cases hc
    · cases hc
      rfl

/-- The method `setPalette` does not write the widescreen surface. -/
theorem setPalette_widescreen (sdl : SDL) (s s1 : System_CTR) (pal : Block) (n depth : Int)
    (hc : setPalette sdl s pal n depth = Except.ok s1) :
    s1._widescreenTexture = s._widescreenTexture := by
  unfold setPalette at hc
  by_cases h1 : n ≤ 256
  · by_cases h2 : depth ≤ 8
    · rw [if_neg (not_not.mpr h1), if_neg (not_not.mpr h2)] at hc
      cases hl : setPaletteLoop sdl s.screen.format s._gammaLut pal depth n.toNat 0 s._pal with
      | error e => rw [hl] at hc; cases hc
      | ok tbl =>
        rw [hl] at hc
        simp only [] at hc
        injection hc with hc
        subst hc
        rfl
    · rw [if_neg (not_not.mpr h1), if_pos h2] at hc
      cases hc
  · rw [if_pos h1] at hc
    cases hc

/-- The method `updateScreen` does not write the widescreen surface. -/
theorem updateScreen_widescreen (sdl : SDL) (s s1 : System_CTR) (drawWidescreen : Bool)
    (hc : updateScreen sdl s drawWidescreen = Except.ok s1) :
    s1._widescreenTexture = s._widescreenTexture := by
  unfold updateScreen at hc
  by_cases hp : s._texture.pitch % 4 ≠ 0
  · rw [if_pos hp] at hc
    cases hc
  · rw [if_neg hp] at hc
    cases hws : s._widescreenTexture with
    | none =>
      rw [hws] at hc
      simp only [] at hc
      injection hc with hc
      subst hc
      rfl
    | some ws =>
      rw [hws] at hc
      simp only [] at hc
      injection hc with hc
      subst hc
      rfl

/-- With the widescreen surface null, `copyRectWidescreen` returns at its first
test with the state it was called on. -/
theorem copyRectWidescreen_null (sdl : SDL) (s : System_CTR) (w h : Int)
    (buf pal src0 tmp0 : Block) (hw : s._widescreenTexture = none) :
    copyRectWidescreen sdl s w h buf pal src0 tmp0 = Except.ok s := by
  unfold copyRectWidescreen
  rw [hw]

/-- With the widescreen surface null, `updateScreen` blits the resolved frame
alone, whatever `drawWidescreen` is. -/
theorem updateScreen_null (sdl : SDL) (s : System_CTR) (drawWidescreen : Bool)
    (hw : s._widescreenTexture = none) :
    updateScreen sdl s drawWidescreen
      = if s._texture.pitch % 4 ≠ 0 then Except.error Fault.assertFailed
        else Except.ok { s with
          _texture := { s._texture with pixels := resolveFrame s },
          screen := sdl.blitSurface { s._texture with pixels := resolveFrame s } s.screen } := by
  unfold updateScreen
  rw [hw]

/-- No event writes the widescreen surface. -/
theorem handleEvent_widescreen (K : InpBits) (s : System_CTR) (ev : Event) :
    (handleEvent K s ev)._widescreenTexture = s._widescreenTexture := by
  cases ev <;> simp only [handleEvent] <;> (try split_ifs) <;> rfl

/-- The polling loop does not write the widescreen surface. -/
theorem pollEvents_widescreen (K : InpBits) :
    ∀ (events : List Event) (s : System_CTR),
      (pollEvents K s events)._widescreenTexture = s._widescreenTexture := by
  intro events
  induction events with
  | nil => intro s; rfl
  | cons ev rest ih =>
    intro s
    simp only [pollEvents]
    rw [ih, handleEvent_widescreen]

/-- The method `processEvents` does not write the widescreen surface. -/
theorem processEvents_widescreen (K : InpBits) (s : System_CTR) (events : List Event) :
    (processEvents K s events)._widescreenTexture = s._widescreenTexture := by
  simp only [processEvents, updateKeys]
  rw [pollEvents_widescreen]

/-- The method `setScaler` does not write the widescreen surface. -/
theorem setScaler_widescreen (s : System_CTR) (name : Option String) (multiplier : Int) :
    (setScaler s name multiplier)._widescreenTexture = s._widescreenTexture := by
  unfold setScaler
  simp only []
  split
  · split_ifs <;> rfl
  · split <;> split_ifs <;> rfl

/-- The method `addKeyMapping` does not write the widescreen surface. -/
theorem addKeyMapping_widescreen (s : System_CTR) (key : Int) (mask : Nat) :
    (addKeyMapping s key mask)._widescreenTexture = s._widescreenTexture := by
  unfold addKeyMapping
  split_ifs
  · split <;> rfl
  · rfl

/-- A call that returns from a state with the widescreen surface null leaves it null. -/
theorem callMethod_widescreen (sdl : SDL) (K : InpBits) (s s1 : System_CTR) (c : Call)
    (hw : s._widescreenTexture = none) (hc : callMethod sdl K s c = some s1) :
    s1._widescreenTexture = none := by
  cases c with
  | init w h fullscreen widescreen yuv =>
    simp only [callMethod, Option.some.injEq] at hc
    rw [← hc]
    exact init_widescreen sdl s w h fullscreen widescreen yuv
  | prepareScaledGfx fullscreen widescreen yuv =>
    simp only [callMethod, Option.some.injEq] at hc
    rw [← hc]
    exact prepareScaledGfx_widescreen sdl s fullscreen widescreen yuv
  | setScaler name multiplier =>
    simp only [callMethod, Option.some.injEq] at hc
    rw [← hc, setScaler_widescreen]
    exact hw
  | setGamma lut =>
    simp only [callMethod, Option.some.injEq] at hc
    rw [← hc]
    exact hw
  | setPalette pal n depth =>
    rw [setPalette_widescreen sdl s s1 pal n depth (toOption_eq_some _ _ hc)]
    exact hw
  | clearPalette =>
    simp only [callMethod, Option.some.injEq] at hc
    rw [← hc]
    exact hw
  | copyRect x y w h buf pitch =>
    rw [copyRect_widescreen s s1 x y w h buf pitch (toOption_eq_some _ _ hc)]
    exact hw
  | copyYuv =>
    simp only [callMethod, Option.some.injEq] at hc
    rw [← hc]
    exact hw
  | fillRect x y w h color =>
    rw [fillRect_widescreen s s1 x y w h color (toOption_eq_some _ _ hc)]
    exact hw
  | copyRectWidescreen w h buf pal src0 tmp0 =>
    have e := toOption_eq_some _ _ hc
    rw [copyRectWidescreen_null sdl s w h buf pal src0 tmp0 hw] at e
    cases e
    exact hw
  | shakeScreen dx dy =>
    simp only [callMethod, Option.some.injEq] at hc
    rw [← hc]
    exact hw
  | updateScreen drawWidescreen =>
    rw [updateScreen_widescreen sdl s s1 drawWidescreen (toOption_eq_some _ _ hc)]
    exact hw
  | processEvents events =>
    simp only [callMethod, Option.some.injEq] at hc
    rw [← hc, processEvents_widescreen]
    exact hw
  | updateKeys =>
    simp only [callMethod, Option.some.injEq] at hc
    rw [← hc]
    exact hw
  | hostOnly =>
    simp only [callMethod, Option.some.injEq] at hc
    rw [← hc]
    exact hw
  | startAudio callback opened =>
    simp only [callMethod, startAudio] at hc
    split_ifs at hc
    cases hc
    exact hw
  | setAudioCallback callback =>
    simp only [callMethod, Option.some.injEq] at hc
    rw [← hc]
    exact hw
  | addKeyMapping key mask =>
    simp only [callMethod, Option.some.injEq] at hc
    rw [← hc, addKeyMapping_widescreen]
    exact hw
  | setupDefaultKeyMappings =>
    simp only [callMethod, Option.some.injEq] at hc
    rw [← hc]
    exact hw

/-- A sequence of calls that return from a state with the widescreen surface null
leaves it null. -/
theorem runCalls_widescreen (sdl : SDL) (K : InpBits) :
    ∀ (calls : List Call) (s s1 : System_CTR), s._widescreenTexture = none →
      runCalls sdl K s calls = some s1 → s1._widescreenTexture = none := by
  intro calls
  induction calls with
  | nil =>
    intro s s1 hw hr
    simp only [runCalls, Option.some.injEq] at hr
    rw [← hr]
    exact hw
  | cons c rest ih =>
    intro s s1 hw hr
    simp only [runCalls] at hr
    cases hc : callMethod sdl K s c with
    | none => rw [hc] at hr; cases hr
    | some s2 =>
      rw [hc] at hr
      exact ih s2 s1 (callMethod_widescreen sdl K s s2 c hw hc) hr

/-- C21: for every argument list of `init`, from any state, the widescreen
surface is null after `init`, and it is null in every state `s` a sequence of
calls reaches from there; in such a state `copyRectWidescreen` returns the state
it was called on, and `updateScreen` gives, whatever `drawWidescreen` is, the
resolved frame in `_texture` and its blit on `screen`, with no backdrop. -/
theorem widescreen_never_enabled (sdl : SDL) (K : InpBits) (s0 : System_CTR) (w h : Int)
    (fullscreen widescreen yuv : Bool) (calls : List Call) (s : System_CTR)
    (hrun : runCalls sdl K (init sdl s0 w h fullscreen widescreen yuv) calls = some s) :
    (init sdl s0 w h fullscreen widescreen yuv)._widescreenTexture = none ∧
      s._widescreenTexture = none ∧
      (∀ (w2 h2 : Int) (buf pal src0 tmp0 : Block),
        copyRectWidescreen sdl s w2 h2 buf pal src0 tmp0 = Except.ok s) ∧
      ∀ drawWidescreen : Bool,
        updateScreen sdl s drawWidescreen
          = if s._texture.pitch % 4 ≠ 0 then Except.error Fault.assertFailed
            else Except.ok { s with
              _texture := { s._texture with pixels := resolveFrame s },
              screen :=
                sdl.blitSurface { s._texture with pixels := resolveFrame s } s.screen } := by
  have h0 := init_widescreen sdl s0 w h fullscreen widescreen yuv
  have hs := runCalls_widescreen sdl K calls _ s h0 hrun
  exact ⟨h0, hs, fun w2 h2 buf pal src0 tmp0 => copyRectWidescreen_null sdl s w2 h2 buf pal
    src0 tmp0 hs, fun dw => updateScreen_null sdl s dw hs⟩

/-! ## Theorems: the compound button -/

/-- No event changes the joystick handle. -/
theorem handleEvent_joystick (K : InpBits) (s : System_CTR) (ev : Event) :
    (handleEvent K s ev)._joystick = s._joystick := by
  cases ev <;> simp only [handleEvent] <;> (try split_ifs) <;> rfl

/-- The polling loop leaves the joystick handle as it was. -/
theorem pollEvents_joystick (K : InpBits) :
    ∀ (events : List Event) (s : System_CTR), (pollEvents K s events)._joystick = s._joystick := by
  intro events
  induction events with
  | nil => intro s; rfl
  | cons ev rest ih =>
    intro s
    simp only [pollEvents]
    rw [ih, handleEvent_joystick]

/-- A poll leaves the joystick handle as it was. -/
theorem processEvents_joystick (K : InpBits) (s : System_CTR) (events : List Event) :
    (processEvents K s events)._joystick = s._joystick := by
  simp only [processEvents, updateKeys]
  rw [pollEvents_joystick]

/-- A sequence of polls leaves the joystick handle as it was. -/
theorem processEventsMany_joystick (K : InpBits) :
    ∀ (frames : List (List Event)) (s : System_CTR),
      (processEventsMany K s frames)._joystick = s._joystick := by
  intro frames
  induction frames with
  | nil => intro s; rfl
  | cons f rest ih =>
    intro s
    simp only [processEventsMany]
    rw [ih, processEvents_joystick]

/-- The polling loop over two queues in a row. -/
theorem pollEvents_append (K : InpBits) :
    ∀ (a b : List Event) (s : System_CTR),
      pollEvents K s (a ++ b) = pollEvents K (pollEvents K s a) b := by
  intro a
  induction a with
  | nil => intro b s; rfl
  | cons ev rest ih =>
    intro b s
    simp only [List.cons_append, pollEvents]
    exact ih b _

/-- With a joystick, a poll whose last event is button event `(b, st)` ends with
`pad.mask` the button update of the mask the earlier events left. -/
theorem padAfter_last_button (K : InpBits) (s : System_CTR) (pre : List Event) (b st : Nat)
    (hj : s._joystick = true) :
    ∃ m, padAfter K s (pre ++ [Event.joyButtonUp b st]) = buttonEvent K m b st := by
  refine ⟨(pollEvents K { s with pad := { s.pad with prevMask := s.pad.mask } } pre).pad.mask, ?_⟩
  have hj2 : (pollEvents K { s with pad := { s.pad with prevMask := s.pad.mask } } pre)._joystick
      = true := by
    rw [pollEvents_joystick]
    exact hj
  simp only [padAfter, processEvents, updateKeys]
  rw [pollEvents_append]
  simp only [pollEvents, handleEvent, hj2, if_true]

/-- Releasing the compound button clears the shoot and run bits of any mask. -/
theorem buttonEvent_release_compound (K : InpBits) (m : Nat) :
    buttonEvent K m 3 SDL_RELEASED &&& K.shoot = 0 ∧
      buttonEvent K m 3 SDL_RELEASED &&& K.run = 0 := by
  have e : buttonEvent K m 3 SDL_RELEASED = andNot m (K.shoot ||| K.run) := rfl
  rw [e]
  constructor
  · apply andNot_and_of_subset
    apply Nat.eq_of_testBit_eq
    intro i
    simp only [Nat.testBit_and, Nat.testBit_or]
    cases K.shoot.testBit i <;> cases K.run.testBit i <;> rfl
  · apply andNot_and_of_subset
    apply Nat.eq_of_testBit_eq
    intro i
    simp only [Nat.testBit_and, Nat.testBit_or]
    cases K.shoot.testBit i <;> cases K.run.testBit i <;> rfl

/-- C22: with a joystick present, a poll that ends with the release of button 3
(X) leaves both `SYS_INP_SHOOT` and `SYS_INP_RUN` clear in `pad.mask`, whatever
the mask was before and whatever events the poll drained before it; so after Y
down and X down the run bit is set, and after Y down, X down, X up it is clear
in `pad.mask` and in `inp.mask` although no event released Y, in one poll as
well as in three polls in a row. -/
theorem release_compound_button_clears_run (K : InpBits) (s : System_CTR)
    (hj : s._joystick = true) :
    (∀ pre : List Event,
      padAfter K s (pre ++ [Event.joyButtonUp 3 SDL_RELEASED]) &&& K.shoot = 0 ∧
      padAfter K s (pre ++ [Event.joyButtonUp 3 SDL_RELEASED]) &&& K.run = 0) ∧
    padAfter K s [Event.joyButtonDown 4 SDL_PRESSED] &&& K.run = K.run ∧
    padAfter K s [Event.joyButtonDown 4 SDL_PRESSED, Event.joyButtonDown 3 SDL_PRESSED]
      &&& K.run = K.run ∧
    padAfter K s [Event.joyButtonDown 4 SDL_PRESSED, Event.joyButtonDown 3 SDL_PRESSED,
      Event.joyButtonUp 3 SDL_RELEASED] &&& K.run = 0 ∧
    (processEventsMany K s [[Event.joyButtonDown 4 SDL_PRESSED],
      [Event.joyButtonDown 3 SDL_PRESSED], [Event.joyButtonUp 3 SDL_RELEASED]]).pad.mask
      &&& K.run = 0 ∧
    (processEventsMany K s [[Event.joyButtonDown 4 SDL_PRESSED],
      [Event.joyButtonDown 3 SDL_PRESSED], [Event.joyButtonUp 3 SDL_RELEASED]]).inp.mask
      &&& K.run = 0 := by
  have hrel : ∀ (t : System_CTR), t._joystick = true → ∀ pre : List Event,
      padAfter K t (pre ++ [Event.joyButtonUp 3 SDL_RELEASED]) &&& K.shoot = 0 ∧
      padAfter K t (pre ++ [Event.joyButtonUp 3 SDL_RELEASED]) &&& K.run = 0 := by
    intro t ht pre
    obtain ⟨m, hm⟩ := padAfter_last_button K t pre 3 SDL_RELEASED ht
    rw [hm]
    exact buttonEvent_release_compound K m
  have hmany : (processEventsMany K s [[Event.joyButtonDown 4 SDL_PRESSED],
      [Event.joyButtonDown 3 SDL_PRESSED], [Event.joyButtonUp 3 SDL_RELEASED]]).pad.mask
      &&& K.run = 0 := by
    have h2 : (processEventsMany K s [[Event.joyButtonDown 4 SDL_PRESSED],
        [Event.joyButtonDown 3 SDL_PRESSED]])._joystick = true := by
      rw [processEventsMany_joystick]
      exact hj
    exact (hrel _ h2 []).2
  refine ⟨hrel s hj, ?_, ?_, (hrel s hj [Event.joyButtonDown 4 SDL_PRESSED,
    Event.joyButtonDown 3 SDL_PRESSED]).2, hmany, ?_⟩
  · have e : padAfter K s [Event.joyButtonDown 4 SDL_PRESSED] = s.pad.mask ||| K.run := by
      simp only [padAfter, processEvents, updateKeys, pollEvents, handleEvent, hj, if_true]
      rfl
    rw [e]
    exact or_and_self _ _
  · have e : padAfter K s [Event.joyButtonDown 4 SDL_PRESSED, Event.joyButtonDown 3 SDL_PRESSED]
        = (s.pad.mask ||| K.run) ||| (K.shoot ||| K.run) := by
      simp only [padAfter, processEvents, updateKeys, pollEvents, handleEvent, hj, if_true]
      rfl
    rw [e]
    apply Nat.eq_of_testBit_eq
    intro i
    simp only [Nat.testBit_and, Nat.testBit_or]
    cases s.pad.mask.testBit i <;> cases K.shoot.testBit i <;> cases K.run.testBit i <;> rfl
  · have e := (processEvents_snapshot K (processEventsMany K s
      [[Event.joyButtonDown 4 SDL_PRESSED], [Event.joyButtonDown 3 SDL_PRESSED]])
      [Event.joyButtonUp 3 SDL_RELEASED]).2
    have e2 : processEventsMany K s [[Event.joyButtonDown 4 SDL_PRESSED],
        [Event.joyButtonDown 3 SDL_PRESSED], [Event.joyButtonUp 3 SDL_RELEASED]]
        = processEvents K (processEventsMany K s [[Event.joyButtonDown 4 SDL_PRESSED],
          [Event.joyButtonDown 3 SDL_PRESSED]]) [Event.joyButtonUp 3 SDL_RELEASED] := rfl
    rw [e2, e, ← e2]
    exact hmany

/-! ## Theorems: palette entry 0 in the states the backend reaches -/

/-- C14 at a concrete input: hat value 9 (up and left) from the state after `init`. -/
theorem hat_motion_overwrite_witness :
    (sampleInpBits.Disjoint ∧ sampleSystem._joystick = true) ∧
      padAfter sampleInpBits sampleSystem [Event.joyHatMotion 9] &&& sampleInpBits.up
        = (if 9 &&& SDL_HAT_UP ≠ 0 then sampleInpBits.up else 0) ∧
      padAfter sampleInpBits sampleSystem [Event.joyHatMotion 9] &&& sampleInpBits.down
        = (if 9 &&& SDL_HAT_DOWN ≠ 0 then sampleInpBits.down else 0) :=
  ⟨by decide,
    (hat_motion_overwrite sampleInpBits sampleSystem 9 (by decide) (by decide)).1,
    (hat_motion_overwrite sampleInpBits sampleSystem 9 (by decide) (by decide)).2.1⟩

/-- C15 at a concrete input: the state after `init` with no joystick attached,
polled twice with hat, axis and button events pending. -/
theorem no_joystick_stays_neutral_witness :
    sampleSystemNoJoystick._joystick = false ∧
      (processEventsMany sampleInpBits sampleSystemNoJoystick
          [[Event.joyHatMotion 1, Event.joyAxisMotion 0 32767], [Event.joyButtonDown 1 1]]).inp.mask
        = 0 :=
  ⟨by decide,
    ((no_joystick_stays_neutral sampleInpBits sampleSystemNoJoystick (by decide)).2.2.2
      (by decide) (by decide)
      [[Event.joyHatMotion 1, Event.joyAxisMotion 0 32767], [Event.joyButtonDown 1 1]]).1⟩

/-- C17 at a concrete input: a poll that drains a key-up of `SDLK_s` and a quit
event sets both flags. -/
theorem processEvents_flags_sticky_witness :
    (Event.keyUp SDLK_s ∈ [Event.keyUp SDLK_s, Event.quit] ∧
        Event.quit ∈ [Event.keyUp SDLK_s, Event.quit]) ∧
      (processEvents sampleInpBits sampleSystem [Event.keyUp SDLK_s, Event.quit]).inp.screenshot
        = true ∧
      (processEvents sampleInpBits sampleSystem [Event.keyUp SDLK_s, Event.quit]).inp.quit
        = true :=
  ⟨by decide,
    (processEvents_flags_sticky sampleInpBits sampleSystem
      [Event.keyUp SDLK_s, Event.quit]).2.2.1 (by decide),
    (processEvents_flags_sticky sampleInpBits sampleSystem
      [Event.keyUp SDLK_s, Event.quit]).2.2.2 (by decide)⟩

/-- C20 at a concrete input: a 16×8 rectangle at (10, 20) of the 256×192 screen,
copied from a source of pitch 32 and filled with colour 5. -/
theorem rect_changes_only_target_witness :
    ((0 : Int) ≤ 10 ∧ (0 : Int) ≤ 20 ∧ (0 : Int) ≤ 16 ∧ (0 : Int) ≤ 8 ∧
        (10 : Int) + 16 ≤ sampleSystem._screenW ∧ (20 : Int) + 8 ≤ sampleSystem._screenH ∧
        (5 : Nat) < 256) ∧
      (∃ s1, copyRect sampleSystem 10 20 16 8 sampleBytes 32 = Except.ok s1 ∧
        ∀ col row : Int, 0 ≤ col → col < sampleSystem._screenW →
          ¬ (10 ≤ col ∧ col < 10 + 16 ∧ 20 ≤ row ∧ row < 20 + 8) →
          s1._offscreenLut (row * sampleSystem._screenW + col)
            = sampleSystem._offscreenLut (row * sampleSystem._screenW + col)) ∧
      (∃ s2, fillRect sampleSystem 10 20 16 8 5 = Except.ok s2 ∧
        (∀ col row : Int, 0 ≤ col → col < sampleSystem._screenW →
          ¬ (10 ≤ col ∧ col < 10 + 16 ∧ 20 ≤ row ∧ row < 20 + 8) →
          s2._offscreenLut (row * sampleSystem._screenW + col)
            = sampleSystem._offscreenLut (row * sampleSystem._screenW + col)) ∧
        ∀ col row : Int, 10 ≤ col → col < 10 + 16 → 20 ≤ row → row < 20 + 8 →
          s2._offscreenLut (row * sampleSystem._screenW + col) = 5) :=
  ⟨by decide, rect_changes_only_target sampleSystem 10 20 16 8 sampleBytes 32 5 (by decide)
    (by decide) (by decide) (by decide) (by decide) (by decide) (by decide)⟩


/-- C13 (amended) at a concrete input: the 35×35 black frame with the white
pixel 16777215 at column 17 of row 17, in the 8-8-8 format. -/
theorem blur_single_pixel_symmetric_black_witness :
    (sampleFormat.HasBits 8 8 8 ∧ (16 : Int) < 17 ∧ (16 : Int) < 35 - 1 - 17 ∧
        channel sampleFormat.Rmask sampleFormat.Rshift 16777215 ≤ 255 ∧
        channel sampleFormat.Gmask sampleFormat.Gshift 16777215 ≤ 255 ∧
        channel sampleFormat.Bmask sampleFormat.Bshift 16777215 ≤ 255) ∧
      ∃ out, blurFrame sampleFormat 35 35 (singlePixelFrame 35 17 17 16777215) (fun _ => 0)
          (fun _ => 0) = Except.ok out ∧
        channelSum sampleFormat.Gmask sampleFormat.Gshift 35 35 out = 0 :=
  ⟨by decide,
    (blur_single_pixel_symmetric_black sampleFormat 8 8 8 (by decide) 35 35 17 17 16777215
      (fun _ => 0) (fun _ => 0) (by decide) (by decide) (by decide) (by decide) (by decide)
      (by decide) (by decide)).imp (fun _ hout => ⟨hout.1, hout.2.2.2.1⟩)⟩


/-- C21 at a concrete input: `init("", 256, 192, false, true, false)` on the
constructed object, followed by the calls of `sampleCalls`. -/
theorem widescreen_never_enabled_witness :
    ∃ s, runCalls sampleSDL sampleInpBits (init sampleSDL System_CTR.ctor 256 192 false true false)
        sampleCalls = some s ∧
      s._widescreenTexture = none ∧
      copyRectWidescreen sampleSDL s 256 192 sampleBytes (fun _ => 63) (fun _ => 0) (fun _ => 0)
        = Except.ok s :=
  (Option.isSome_iff_exists.mp
    (show (runCalls sampleSDL sampleInpBits
      (init sampleSDL System_CTR.ctor 256 192 false true false) sampleCalls).isSome = true
      from by decide)).imp
    (fun s hs =>
      ⟨hs,
        (widescreen_never_enabled sampleSDL sampleInpBits System_CTR.ctor 256 192 false true
          false sampleCalls s hs).2.1,
        (widescreen_never_enabled sampleSDL sampleInpBits System_CTR.ctor 256 192 false true
          false sampleCalls s hs).2.2.1 256 192 sampleBytes (fun _ => 63) (fun _ => 0)
          (fun _ => 0)⟩)

/-- C22 at a concrete input: Y down, X down, X up from the state after `init`. -/
theorem release_compound_button_clears_run_witness :
    sampleSystem._joystick = true ∧
      padAfter sampleInpBits sampleSystem [Event.joyButtonDown 4 SDL_PRESSED,
        Event.joyButtonDown 3 SDL_PRESSED, Event.joyButtonUp 3 SDL_RELEASED]
        &&& sampleInpBits.run = 0 :=
  ⟨by decide, (release_compound_button_clears_run sampleInpBits sampleSystem (by decide)).2.2.2.1⟩


end Hode
